import Mathlib

/-!
NR scheduler slot workers (`srsenb/src/stack/mac/nr/sched_nr_worker.cc`):
a shallow embedding of `slot_cc_worker` and `sched_worker_manager`.

* `srsran_assert` is fatal: a function that trips one returns `result.fatal`
  carrying the state as it was when the assertion failed.
* `sem_wait` on a semaphore whose value is 0 blocks: `reserve_workers` then
  returns `none`.
* Calls of different threads are interleaved at the granularity of one call;
  the counter `worker_count` is atomic in the source.
* The members of `res_grid` are not part of the translated sources. Every call
  a worker makes on its `res_grid` is appended to the worker's call history,
  and its effect on the carrier's physical grid is a parameter (`grid_ops`).
* The types `tti_point`, `ue`, `slot_ue`, the maps and the grid cells come from
  headers that are not part of the translated sources; they are modelled from
  the specification, and the constants `TX_ENB_DELAY` and `TTIMOD_SZ` are
  parameters.
-/

namespace SchedNr

/-! ## Outcome of a call -/

/-- Outcome of a call that may trip a fatal assertion. `ok s a` is a normal
return with state `s` and value `a`; `fatal s msg` is a failed
`srsran_assert` (or an access outside a container) with the state `s` at the
point of failure. -/
inductive result (σ : Type) (α : Type) where
  | ok (s : σ) (a : α)
  | fatal (s : σ) (msg : String)
deriving DecidableEq, Repr

/-- True on a normal return. -/
def result.is_ok {σ α : Type} : result σ α → Bool
  | .ok _ _ => true
  | .fatal _ _ => false

/-- State carried by an outcome. -/
def result.state {σ α : Type} : result σ α → σ
  | .ok s _ => s
  | .fatal s _ => s

/-! ## Slot index -/

/-- Modelled from the spec: the period of the slot index ("an integer modulo a
system-defined period (e.g., 10240 subframes)"); the header of `tti_point` is
not among the sources. -/
def TTI_PERIOD : Nat := 10240

/-- Modelled from the spec: slot index `tti_point`, a 32-bit counter kept
modulo `TTI_PERIOD`; a default-constructed point holds no slot. -/
structure tti_point where
  tti_val : Nat
deriving DecidableEq, Repr

namespace tti_point

/-- Modelled from the spec: the default-constructed point `tti_point{}`,
which is not a slot index. -/
def invalid : tti_point := ⟨2 ^ 32 - 1⟩

/-- Modelled from the spec: the integer value of the slot index. -/
def to_uint (t : tti_point) : Nat := t.tti_val

/-- Modelled from the spec: a point is a slot index when it lies inside the
period. -/
def is_valid (t : tti_point) : Bool := decide (t.tti_val < TTI_PERIOD)

/-- Modelled from the spec: `operator+`, "addition with wraparound" modulo the
period (on 32-bit unsigned integers). -/
def add (t : tti_point) (jump : Nat) : tti_point :=
  ⟨(t.tti_val + jump) % 2 ^ 32 % TTI_PERIOD⟩

end tti_point

/-! ## UE table and reservations -/

/-- Modelled from the spec: a UE reservation (`slot_ue`), one worker's claim
on a UE for one slot. `held = false` is the empty reservation; `h_dl` and
`h_ul` are the HARQ handles of the UE for the slot (`none` is `nullptr`). -/
structure slot_ue where
  held : Bool
  rnti : Nat
  tti_rx : tti_point
  cc : Nat
  h_dl : Option Nat
  h_ul : Option Nat
deriving DecidableEq, Repr

/-- Modelled from the spec: `slot_ue::empty()`. -/
def slot_ue.empty (s : slot_ue) : Bool := !s.held

/-- Modelled from the spec: the empty reservation returned by a failed
`try_reserve`. -/
def slot_ue.none : slot_ue :=
  { held := false, rnti := 0, tti_rx := tti_point.invalid, cc := 0, h_dl := Option.none,
    h_ul := Option.none }

/-- Modelled from the spec: long-lived UE scheduling state. `busy` tells
whether some worker holds the UE's reservation; `h_dl` / `h_ul` are the HARQ
processes with pending data that a reservation hands out. -/
structure ue where
  rnti : Nat
  busy : Bool
  h_dl : Option Nat
  h_ul : Option Nat
deriving DecidableEq, Repr

/-- Modelled from the spec: `ue::try_reserve(tti_rx, cc)`, "lookup-and-attempt-
reserve (returns empty/failure if already held)". Returns the reservation and
the UE after the attempt. -/
def ue.try_reserve (u : ue) (tti_rx : tti_point) (cc : Nat) : slot_ue × ue :=
  if u.busy then (slot_ue.none, u)
  else ({ held := true, rnti := u.rnti, tti_rx := tti_rx, cc := cc, h_dl := u.h_dl,
          h_ul := u.h_ul }, { u with busy := true })

/-- Modelled from the spec: UE table `ue_map_t`, a map from RNTI to UE kept
as an association list in iteration order. -/
abbrev ue_map_t := List (Nat × ue)

/-- Modelled from the spec: the map of a worker's reservations (`slot_ues`),
an association list in iteration order. -/
abbrev slot_ue_map_t := List (Nat × slot_ue)

/-- Modelled from the spec: `contains(rnti)` of the map. -/
def slot_ue_map_t.contains (m : slot_ue_map_t) (rnti : Nat) : Bool :=
  (List.lookup rnti m).isSome

/-- Modelled from the spec: `insert(rnti, obj)` of the map; an existing key is
not overwritten and the insertion reports failure. -/
def slot_ue_map_t.insert (m : slot_ue_map_t) (rnti : Nat) (obj : slot_ue) :
    slot_ue_map_t × Bool :=
  if slot_ue_map_t.contains m rnti then (m, false) else (m ++ [(rnti, obj)], true)

/-- Modelled from the spec: `erase(rnti)` of the map. -/
def slot_ue_map_t.erase (m : slot_ue_map_t) (rnti : Nat) : slot_ue_map_t :=
  m.filter (fun p => p.1 != rnti)

/-- Modelled from the spec: release of one reservation (destructor of a
`slot_ue`): an empty reservation releases nothing, a held one frees its UE. -/
def slot_ue.release (s : slot_ue) (rnti : Nat) (ue_db : ue_map_t) : ue_map_t :=
  if s.held then ue_db.map (fun p => if p.1 = rnti then (p.1, { p.2 with busy := false }) else p)
  else ue_db

/-- Modelled from the spec: `slot_ues.clear()`, which destroys (releases)
every reservation of the map. -/
def slot_ue_map_t.release_all : slot_ue_map_t → ue_map_t → ue_map_t
  | [], ue_db => ue_db
  | (rnti, s) :: rest, ue_db => slot_ue_map_t.release_all rest (s.release rnti ue_db)

/-- Modelled from the spec: `slot_ues[rnti]`; in the source it is only used
right after `insert`, when the key is present. -/
def slot_ue_map_t.get (m : slot_ue_map_t) (rnti : Nat) : slot_ue :=
  (List.lookup rnti m).getD slot_ue.none

/-! ## Resource grid -/

/-- Modelled from the spec: resource-block-group mask `rbgmask_t`, a bitset. -/
abbrev rbgmask_t := List Bool

/-- Modelled from the spec: `rbgmask_t mask(n)`, a mask of `n` cleared bits. -/
def rbgmask_t.init (n : Nat) : rbgmask_t := List.replicate n false

/-- Modelled from the spec: `fill(startpos, endpos, value)` sets the bits in
`[startpos, endpos)`. -/
def rbgmask_t.fill (m : rbgmask_t) (startpos endpos : Nat) (value : Bool) : rbgmask_t :=
  m.enum.map (fun p => if startpos ≤ p.1 ∧ p.1 < endpos then value else p.2)

/-- Modelled from the spec: a grant recorded in a grid cell. -/
structure grant where
  rnti : Nat
  mask : rbgmask_t
deriving DecidableEq, Repr

/-- Modelled from the spec: resource grid slot `phy_slot_grid`, the downlink
and uplink grants of one (TTI, carrier) pair. -/
structure phy_slot_grid where
  pdsch_grants : List grant
  pusch_grants : List grant
deriving DecidableEq, Repr

/-- Modelled from the spec: `phy_slot_grid::reset()`, "clears the grid cell". -/
def phy_slot_grid.reset (_ : phy_slot_grid) : phy_slot_grid :=
  { pdsch_grants := [], pusch_grants := [] }

/-- Modelled from the spec: the ring of grid cells of one carrier
(`phy_cell_rb_grid`); its capacity is the length of the list. -/
abbrev phy_cell_rb_grid := List phy_slot_grid

/-- Modelled from the spec: `operator[]` of the ring, "addressed by
`index % capacity`". -/
def phy_cell_rb_grid.at (g : phy_cell_rb_grid) (idx : Nat) : phy_slot_grid :=
  g.getD (idx % g.length) { pdsch_grants := [], pusch_grants := [] }

/-- Modelled from the spec: `grid[idx].reset()` on the ring. -/
def phy_cell_rb_grid.reset_at (g : phy_cell_rb_grid) (idx : Nat) : phy_cell_rb_grid :=
  g.set (idx % g.length) (phy_cell_rb_grid.at g idx).reset

/-- A call made by a worker on its `res_grid` member. -/
inductive grid_call where
  | new_tti (tti_rx : tti_point)
  | alloc_pdsch (ue : slot_ue) (dlmask : rbgmask_t)
  | alloc_pusch (ue : slot_ue) (ulmask : rbgmask_t)
  | generate_dcis
deriving DecidableEq, Repr

/-- The effect of the `res_grid` members on the ring of the worker's carrier.
Their code is not among the sources, so the effect is a parameter: `exec hist
c g` is the ring after call `c` on ring `g`, when `hist` are the calls made on
this `res_grid` before. -/
structure grid_ops where
  exec : List grid_call → grid_call → phy_cell_rb_grid → phy_cell_rb_grid

/-! ## `slot_cc_worker` -/

/-- The fields of `sched_cell_params` read by the worker: `cfg.cc` and
`cfg.cell_cfg.nof_rbg`. -/
structure sched_cell_params where
  cc : Nat
  nof_rbg : Nat
deriving DecidableEq, Repr

/-- State of a `slot_cc_worker`. `res_grid` is the history of the calls made
on the member `res_grid`, oldest first. -/
structure slot_cc_worker where
  cfg : sched_cell_params
  tti_rx : tti_point
  slot_ues : slot_ue_map_t
  res_grid : List grid_call
deriving DecidableEq, Repr

/-- Modelled from the spec: `slot_cc_worker::running()`; the worker is running
while it holds a TTI. -/
def slot_cc_worker.running (w : slot_cc_worker) : Bool := w.tti_rx.is_valid

/-- What a call on one carrier worker reads and writes: the worker, the UE
table, and the ring of grid cells of the worker's carrier. -/
structure worker_scope where
  worker : slot_cc_worker
  ue_db : ue_map_t
  grid : phy_cell_rb_grid
deriving DecidableEq, Repr

/-- A call on `res_grid`: recorded in the history, applied to the ring. -/
def worker_scope.res_grid_call (G : grid_ops) (c : grid_call) (s : worker_scope) :
    worker_scope :=
  { worker := { s.worker with res_grid := s.worker.res_grid ++ [c] }
    ue_db := s.ue_db
    grid := G.exec s.worker.res_grid c s.grid }

namespace slot_cc_worker

/-- One iteration of the loop of `start` (lines 26-35): try to reserve UE `u`,
insert the reservation under `rnti`, erase it again when it is empty. A
reservation that could not be inserted is destroyed, which releases it. -/
def start_ue (tti_rx : tti_point) (cc : Nat) (rnti : Nat) (u : ue)
    (slot_ues : slot_ue_map_t) : slot_ue_map_t × ue :=
  let r := u.try_reserve tti_rx cc
  let ins := slot_ue_map_t.insert slot_ues rnti r.1
  let u1 := if ins.2 then r.2 else if r.1.held then { r.2 with busy := false } else r.2
  if (slot_ue_map_t.get ins.1 rnti).empty then (slot_ue_map_t.erase ins.1 rnti, u1)
  else (ins.1, u1)

/-- The loop of `start` over the UE table (lines 25-36). Returns the table and
the reservations after the loop. -/
def start_loop (tti_rx : tti_point) (cc : Nat) :
    ue_map_t → slot_ue_map_t → ue_map_t × slot_ue_map_t
  | [], slot_ues => ([], slot_ues)
  | (rnti, u) :: rest, slot_ues =>
    let r := start_ue tti_rx cc rnti u slot_ues
    let r2 := start_loop tti_rx cc rest r.1
    ((rnti, r.2) :: r2.1, r2.2)

/-- `slot_cc_worker::start(tti_rx_, ue_db)`. -/
def start (G : grid_ops) (s : worker_scope) (tti_rx_ : tti_point) : result worker_scope Unit :=
  if s.worker.running then
    .fatal s "scheduler worker::start() called for active worker"
  else
    let w1 := { s.worker with tti_rx := tti_rx_ }
    let r := start_loop w1.tti_rx w1.cfg.cc s.ue_db w1.slot_ues
    let s1 : worker_scope := { worker := { w1 with slot_ues := r.2 }, ue_db := r.1, grid := s.grid }
    let s2 := s1.res_grid_call G (.new_tti tti_rx_)
    .ok { s2 with worker := { s2.worker with tti_rx := tti_rx_ } } ()

/-- `slot_cc_worker::alloc_dl_ues()`. -/
def alloc_dl_ues (G : grid_ops) (s : worker_scope) : worker_scope :=
  match s.worker.slot_ues with
  | [] => s
  | (_, ue) :: _ =>
    if ue.h_dl = Option.none then s
    else
      let dlmask := rbgmask_t.init s.worker.cfg.nof_rbg
      let dlmask := rbgmask_t.fill dlmask 0 dlmask.length true
      s.res_grid_call G (.alloc_pdsch ue dlmask)

/-- `slot_cc_worker::alloc_ul_ues()`. -/
def alloc_ul_ues (G : grid_ops) (s : worker_scope) : worker_scope :=
  match s.worker.slot_ues with
  | [] => s
  | (_, ue) :: _ =>
    if ue.h_ul = Option.none then s
    else
      let ulmask := rbgmask_t.init s.worker.cfg.nof_rbg
      let ulmask := rbgmask_t.fill ulmask 0 ulmask.length true
      s.res_grid_call G (.alloc_pusch ue ulmask)

/-- `slot_cc_worker::run()`. -/
def run (G : grid_ops) (s : worker_scope) : result worker_scope Unit :=
  if !s.worker.running then
    .fatal s "scheduler worker::run() called for non-active worker"
  else
    let s1 :=
      if s.worker.tti_rx.to_uint &&& 1 = 0 then alloc_ul_ues G (alloc_dl_ues G s)
      else alloc_dl_ues G (alloc_ul_ues G s)
    .ok (s1.res_grid_call G .generate_dcis) ()

/-- `slot_cc_worker::end_tti()`. Clearing `slot_ues` releases the
reservations it holds. -/
def end_tti (s : worker_scope) : result worker_scope Unit :=
  if !s.worker.running then
    .fatal s "scheduler worker::end() called for non-active worker"
  else
    .ok { worker := { s.worker with slot_ues := [], tti_rx := tti_point.invalid }
          ue_db := slot_ue_map_t.release_all s.worker.slot_ues s.ue_db
          grid := s.grid } ()

end slot_cc_worker

/-! ## `sched_worker_manager` -/

/-- A `slot_worker_ctxt`: the semaphore value, the active TTI, the atomic
counter of remaining workers and one worker per carrier. -/
structure slot_worker_ctxt where
  sf_sem : Nat
  tti_rx : tti_point
  worker_count : Int
  workers : List slot_cc_worker
deriving DecidableEq, Repr

/-- The fields of `sched_params` read by the manager: `cfg.cells` and
`cfg.sched_cfg.nof_concurrent_subframes`. -/
structure sched_params where
  cells : List sched_cell_params
  nof_concurrent_subframes : Nat
deriving DecidableEq, Repr

/-- State of a `sched_worker_manager`: the slot contexts, the physical grid
(one ring per carrier) and the UE table it refers to. -/
structure sched_worker_manager where
  slot_ctxts : List slot_worker_ctxt
  phy_grid : List phy_cell_rb_grid
  ue_db : ue_map_t
deriving DecidableEq, Repr

/-- Scheduling result of one direction, `dl_res` (`pdsch_tti`, `pdsch`). -/
structure dl_sched_t where
  pdsch_tti : tti_point
  pdsch : List grant
deriving DecidableEq, Repr

/-- Scheduling result of one direction, `ul_res` (`pusch_tti`, `pusch`). -/
structure ul_sched_t where
  pusch_tti : tti_point
  pusch : List grant
deriving DecidableEq, Repr

/-- The request filled by `run_tti` (`slot_res_t`). -/
structure slot_res_t where
  dl_res : dl_sched_t
  ul_res : ul_sched_t
deriving DecidableEq, Repr

/-- A request before `run_tti` fills it: default-constructed slot indices and
no grants. -/
def slot_res_t.init : slot_res_t :=
  { dl_res := { pdsch_tti := tti_point.invalid, pdsch := [] }
    ul_res := { pusch_tti := tti_point.invalid, pusch := [] } }

namespace sched_worker_manager

/-- The constructor: a ring of `TTIMOD_SZ` empty cells per carrier, and
`nof_concurrent_subframes` contexts, each with its semaphore at 1 and one idle
worker per cell. The capacity `TTIMOD_SZ` of the rings is a constant that is
not among the sources and is taken as a parameter. -/
def init (cfg : sched_params) (TTIMOD_SZ : Nat) (ue_db : ue_map_t) : sched_worker_manager :=
  { slot_ctxts := List.replicate cfg.nof_concurrent_subframes
      { sf_sem := 1, tti_rx := tti_point.invalid, worker_count := 0
        workers := cfg.cells.map (fun c =>
          { cfg := c, tti_rx := tti_point.invalid, slot_ues := [], res_grid := [] }) }
    phy_grid := cfg.cells.map (fun _ =>
      List.replicate TTIMOD_SZ { pdsch_grants := [], pusch_grants := [] })
    ue_db := ue_db }

/-- Index of the context returned by `get_sf(tti_rx)`. -/
def get_sf (m : sched_worker_manager) (tti_rx : tti_point) : Nat :=
  tti_rx.to_uint % m.slot_ctxts.length

/-- `reserve_workers(tti_rx_)`. The result is `none` while `sem_wait` blocks
(semaphore at 0); there is also no result when the manager has no context. -/
def reserve_workers (m : sched_worker_manager) (tti_rx_ : tti_point) :
    Option sched_worker_manager :=
  match m.slot_ctxts[m.get_sf tti_rx_]? with
  | Option.none => Option.none
  | some ctx =>
    if ctx.sf_sem = 0 then Option.none
    else
      let ctx1 : slot_worker_ctxt :=
        { ctx with sf_sem := ctx.sf_sem - 1, tti_rx := tti_rx_,
                   worker_count := (ctx.workers.length : Int) }
      some { m with slot_ctxts := m.slot_ctxts.set (m.get_sf tti_rx_) ctx1 }

/-- Write back what a call on worker `cc` of context `i` left behind. -/
def put (m : sched_worker_manager) (i cc : Nat) (s : worker_scope) : sched_worker_manager :=
  match m.slot_ctxts[i]? with
  | Option.none => m
  | some ctx =>
    { slot_ctxts := m.slot_ctxts.set i { ctx with workers := ctx.workers.set cc s.worker }
      phy_grid := m.phy_grid.set cc s.grid
      ue_db := s.ue_db }

/-- A call `f` on `slot_ctxts[i]->workers[cc]`, whose `res_grid` refers to
`phy_grid[cc]`. An index outside the containers is reported as fatal. -/
def on_worker (m : sched_worker_manager) (i cc : Nat)
    (f : worker_scope → result worker_scope Unit) : result sched_worker_manager Unit :=
  match m.slot_ctxts[i]? with
  | Option.none => .fatal m "out of range"
  | some ctx =>
    match ctx.workers[cc]?, m.phy_grid[cc]? with
    | some w, some g =>
      match f { worker := w, ue_db := m.ue_db, grid := g } with
      | .ok s _ => .ok (m.put i cc s) ()
      | .fatal s msg => .fatal (m.put i cc s) msg
    | _, _ => .fatal m "out of range"

/-- A loop that calls `f` on the workers `ccs` of context `i` in turn. -/
def for_workers (i : Nat) (f : worker_scope → result worker_scope Unit) :
    List Nat → sched_worker_manager → result sched_worker_manager Unit
  | [], m => .ok m ()
  | cc :: ccs, m =>
    match m.on_worker i cc f with
    | .ok m1 _ => for_workers i f ccs m1
    | .fatal m1 msg => .fatal m1 msg

/-- `start_tti(tti_rx_)`. -/
def start_tti (G : grid_ops) (m : sched_worker_manager) (tti_rx_ : tti_point) :
    result sched_worker_manager Unit :=
  match m.slot_ctxts[m.get_sf tti_rx_]? with
  | Option.none => .fatal m "out of range"
  | some ctx =>
    if ctx.tti_rx ≠ tti_rx_ then .fatal m "invalid run_tti(tti, cc) arguments"
    else
      for_workers (m.get_sf tti_rx_) (fun s => slot_cc_worker.start G s ctx.tti_rx)
        (List.range ctx.workers.length) m

/-- Lines 165-169 of `run_tti`: the copy of the scheduling result of carrier
`cc` into the request. -/
def copy_result (TX_ENB_DELAY : Nat) (m : sched_worker_manager) (tti_rx_ : tti_point)
    (cc : Nat) (_tti_req : slot_res_t) : slot_res_t :=
  let pdsch_tti := tti_rx_.add TX_ENB_DELAY
  let pusch_tti := tti_rx_.add TX_ENB_DELAY
  { dl_res := { pdsch_tti := pdsch_tti
                pdsch := (phy_cell_rb_grid.at (m.phy_grid.getD cc []) pdsch_tti.to_uint).pdsch_grants }
    ul_res := { pusch_tti := pusch_tti
                pusch := (phy_cell_rb_grid.at (m.phy_grid.getD cc []) pusch_tti.to_uint).pusch_grants } }

/-- Lines 171-179 of `run_tti`: decrement the counter of context `i`, and
reset one cell of the ring of carrier `cc` when no worker remains. -/
def finish_run (m : sched_worker_manager) (i cc : Nat) (tti_req : slot_res_t) :
    result (sched_worker_manager × slot_res_t) Bool :=
  match m.slot_ctxts[i]? with
  | Option.none => .fatal (m, tti_req) "out of range"
  | some ctx =>
    let rem_workers : Int := ctx.worker_count - 1
    let m1 := { m with slot_ctxts := m.slot_ctxts.set i { ctx with worker_count := rem_workers } }
    if rem_workers < 0 then .fatal (m1, tti_req) "invalid number of calls to run_tti(tti, cc)"
    else if rem_workers = 0 then
      let grid1 := phy_cell_rb_grid.reset_at (m1.phy_grid.getD cc []) ctx.tti_rx.to_uint
      .ok ({ m1 with phy_grid := m1.phy_grid.set cc grid1 }, tti_req) true
    else .ok (m1, tti_req) false

/-- `run_tti(tti_rx_, cc, tti_req)`. The constant `TX_ENB_DELAY` is not among
the sources and is taken as a parameter. -/
def run_tti (G : grid_ops) (TX_ENB_DELAY : Nat) (m : sched_worker_manager)
    (tti_rx_ : tti_point) (cc : Nat) (tti_req : slot_res_t) :
    result (sched_worker_manager × slot_res_t) Bool :=
  match m.slot_ctxts[m.get_sf tti_rx_]? with
  | Option.none => .fatal (m, tti_req) "out of range"
  | some ctx =>
    if ctx.tti_rx ≠ tti_rx_ then .fatal (m, tti_req) "invalid run_tti(tti, cc) arguments"
    else
      match m.on_worker (m.get_sf tti_rx_) cc (slot_cc_worker.run G) with
      | .fatal m1 msg => .fatal (m1, tti_req) msg
      | .ok m1 _ =>
        finish_run m1 (m.get_sf tti_rx_) cc (copy_result TX_ENB_DELAY m1 tti_rx_ cc tti_req)

/-- `end_tti(tti_rx_)`. -/
def end_tti (m : sched_worker_manager) (tti_rx_ : tti_point) :
    result sched_worker_manager Unit :=
  match m.slot_ctxts[m.get_sf tti_rx_]? with
  | Option.none => .fatal m "out of range"
  | some ctx =>
    if ctx.tti_rx ≠ tti_rx_ then .fatal m "invalid run_tti(tti, cc) arguments"
    else if ctx.worker_count ≠ 0 then .fatal m "invalid number of calls to run_tti(tti, cc)"
    else
      match for_workers (m.get_sf tti_rx_) slot_cc_worker.end_tti
          (List.range ctx.workers.length) m with
      | .fatal m1 msg => .fatal m1 msg
      | .ok m1 _ =>
        match m1.slot_ctxts[m.get_sf tti_rx_]? with
        | Option.none => .fatal m1 "out of range"
        | some ctx1 =>
          let ctx2 : slot_worker_ctxt := { ctx1 with sf_sem := ctx1.sf_sem + 1 }
          .ok { m1 with slot_ctxts := m1.slot_ctxts.set (m.get_sf tti_rx_) ctx2 } ()

end sched_worker_manager

/-! ## Observing calls -/

/-- The calls on `res_grid` that step `f` adds to the history of the worker. -/
def new_calls (f : worker_scope → worker_scope) (s : worker_scope) : List grid_call :=
  (f s).worker.res_grid.drop s.worker.res_grid.length

/-! ## Example inputs -/

/-- Modelled from the spec: an update of one cell of the ring. -/
def phy_cell_rb_grid.modify_at (g : phy_cell_rb_grid) (idx : Nat)
    (f : phy_slot_grid → phy_slot_grid) : phy_cell_rb_grid :=
  g.set (idx % g.length) (f (phy_cell_rb_grid.at g idx))

/-- An instance of the grid operations, used to evaluate the model on concrete
inputs: an allocation appends a grant to the cell of the transmission slot of
the reservation (its `tti_rx` plus the delay), the other calls leave the ring
as it is. -/
def grid_ops.record (TX_ENB_DELAY : Nat) : grid_ops :=
  { exec := fun _ c g =>
      match c with
      | .alloc_pdsch ue dlmask =>
        phy_cell_rb_grid.modify_at g (ue.tti_rx.add TX_ENB_DELAY).to_uint
          (fun cell => { cell with pdsch_grants := cell.pdsch_grants ++ [⟨ue.rnti, dlmask⟩] })
      | .alloc_pusch ue ulmask =>
        phy_cell_rb_grid.modify_at g (ue.tti_rx.add TX_ENB_DELAY).to_uint
          (fun cell => { cell with pusch_grants := cell.pusch_grants ++ [⟨ue.rnti, ulmask⟩] })
      | _ => g }

/-- Example: an idle worker of carrier 0 (3 resource-block groups), a ring of
10 cells, and the UE table given. -/
def ex_idle_scope (ue_db : ue_map_t) : worker_scope :=
  { worker := { cfg := { cc := 0, nof_rbg := 3 }, tti_rx := tti_point.invalid, slot_ues := [],
                res_grid := [] }
    ue_db := ue_db
    grid := List.replicate 10 { pdsch_grants := [], pusch_grants := [] } }

/-- Example: a table of two free UEs; the first in iteration order, RNTI 70,
has no pending data, the second, RNTI 71, has pending downlink and uplink
data. -/
def ex_ue_db_second_pending : ue_map_t :=
  [(70, { rnti := 70, busy := false, h_dl := Option.none, h_ul := Option.none }),
   (71, { rnti := 71, busy := false, h_dl := some 0, h_ul := some 0 })]

/-- Example: a table of two UEs with pending downlink and uplink data; the
first, RNTI 70, is held by another worker, the second, RNTI 71, is free. -/
def ex_ue_db_first_busy : ue_map_t :=
  [(70, { rnti := 70, busy := true, h_dl := some 0, h_ul := some 1 }),
   (71, { rnti := 71, busy := false, h_dl := some 0, h_ul := some 1 })]

/-- Example: the worker of `ex_idle_scope` after `start` at TTI `tti`. -/
def ex_running_scope (ue_db : ue_map_t) (tti : tti_point) : worker_scope :=
  (slot_cc_worker.start (grid_ops.record 4) (ex_idle_scope ue_db) tti).state

/-! ## Frame of a loop over workers -/

namespace sched_worker_manager

/-- The frame of a loop over the workers of context `i`: the context keeps its
semaphore, TTI and counter, the other contexts and the sizes are untouched;
the workers visited satisfy `R`, the others are as before. -/
def loop_post (R : slot_cc_worker → Prop) (i : Nat) (ccs : List Nat)
    (m m1 : sched_worker_manager) (ctx : slot_worker_ctxt) : Prop :=
  ∃ ctx1, m1.slot_ctxts[i]? = some ctx1 ∧ ctx1.sf_sem = ctx.sf_sem ∧ ctx1.tti_rx = ctx.tti_rx ∧
    ctx1.worker_count = ctx.worker_count ∧ ctx1.workers.length = ctx.workers.length ∧
    (∀ cc ∈ ccs, ∃ w1, ctx1.workers[cc]? = some w1 ∧ R w1) ∧
    (∀ cc, cc ∉ ccs → ctx1.workers[cc]? = ctx.workers[cc]?) ∧
    m1.slot_ctxts.length = m.slot_ctxts.length ∧
    (∀ j, j ≠ i → m1.slot_ctxts[j]? = m.slot_ctxts[j]?) ∧
    m1.phy_grid.length = m.phy_grid.length ∧ (∀ cc ∈ ccs, cc < m.phy_grid.length)

end sched_worker_manager

/-! ## A context in use -/

namespace sched_worker_manager

/-- The context of TTI `t` is in use for `t`: its active TTI is `t`, its
counter is `k`, its `C` workers are all running and each has its ring. -/
def active (m : sched_worker_manager) (t : tti_point) (C : Nat) (k : Int) : Prop :=
  ∃ ctx, m.slot_ctxts[m.get_sf t]? = some ctx ∧ ctx.tti_rx = t ∧ ctx.worker_count = k ∧
    ctx.workers.length = C ∧ (∀ w ∈ ctx.workers, w.running = true) ∧ C ≤ m.phy_grid.length

end sched_worker_manager

/-! ## Sequences of calls -/

namespace sched_worker_manager

/-- The calls `run_tti(tti_rx_, cc, tti_req)` for the carriers `ccs`, one after
the other: the values they return, or the first failure. -/
def run_tti_seq (G : grid_ops) (TX_ENB_DELAY : Nat) (tti_rx_ : tti_point) (tti_req : slot_res_t) :
    List Nat → sched_worker_manager → result sched_worker_manager (List Bool)
  | [], m => .ok m []
  | cc :: ccs, m =>
    match m.run_tti G TX_ENB_DELAY tti_rx_ cc tti_req with
    | .fatal s msg => .fatal s.1 msg
    | .ok s b =>
      match run_tti_seq G TX_ENB_DELAY tti_rx_ tti_req ccs s.1 with
      | .fatal m2 msg => .fatal m2 msg
      | .ok m2 bs => .ok m2 (b :: bs)

end sched_worker_manager

namespace sched_worker_manager

/-- Number of carrier workers of the context of TTI `t` (`workers.size()`). -/
def nof_workers (m : sched_worker_manager) (t : tti_point) : Nat :=
  match m.slot_ctxts[m.get_sf t]? with
  | Option.none => 0
  | some ctx => ctx.workers.length

/-- The counter `worker_count` of the context of TTI `t`, if there is one. -/
def worker_count (m : sched_worker_manager) (t : tti_point) : Option Int :=
  (m.slot_ctxts[m.get_sf t]?).map (fun ctx => ctx.worker_count)

end sched_worker_manager

/-- Example: two carriers of 3 resource-block groups, two slot contexts. -/
def ex_cfg : sched_params :=
  { cells := [{ cc := 0, nof_rbg := 3 }, { cc := 1, nof_rbg := 3 }], nof_concurrent_subframes := 2 }

/-- Example: a table of two free UEs; RNTI 70 has pending downlink data, RNTI
71 has pending uplink data. -/
def ex_ue_db : ue_map_t :=
  [(70, { rnti := 70, busy := false, h_dl := some 0, h_ul := Option.none }),
   (71, { rnti := 71, busy := false, h_dl := Option.none, h_ul := some 0 })]

/-- Example: a freshly constructed manager with rings of 10 cells. -/
def ex_manager : sched_worker_manager := sched_worker_manager.init ex_cfg 10 ex_ue_db

/-- Example: `ex_manager` after `reserve_workers(t)`. -/
def ex_reserved (t : tti_point) : sched_worker_manager :=
  (ex_manager.reserve_workers t).getD ex_manager

/-- Example: `ex_manager` after `reserve_workers(t)` and `start_tti(t)`, with
a delay of 4 slots. -/
def ex_started (t : tti_point) : sched_worker_manager :=
  ((ex_reserved t).start_tti (grid_ops.record 4) t).state

/-! ## Calls of the driver -/

/-- A call of the external driver on the manager. -/
inductive call where
  | reserve_workers (tti_rx_ : tti_point)
  | start_tti (tti_rx_ : tti_point)
  | run_tti (tti_rx_ : tti_point) (cc : Nat)
  | end_tti (tti_rx_ : tti_point)
deriving DecidableEq, Repr

/-- The TTI argument of a call. -/
def call.tti : call → tti_point
  | .reserve_workers t => t
  | .start_tti t => t
  | .run_tti t _ => t
  | .end_tti t => t

namespace sched_worker_manager

/-- One call on the manager: the state it leaves when it returns normally,
`none` when it blocks or fails an assertion. -/
def step (G : grid_ops) (TX_ENB_DELAY : Nat) (m : sched_worker_manager) :
    call → Option sched_worker_manager
  | .reserve_workers t => m.reserve_workers t
  | .start_tti t =>
    match m.start_tti G t with
    | .ok m1 _ => some m1
    | .fatal _ _ => Option.none
  | .run_tti t cc =>
    match m.run_tti G TX_ENB_DELAY t cc slot_res_t.init with
    | .ok s _ => some s.1
    | .fatal _ _ => Option.none
  | .end_tti t =>
    match m.end_tti t with
    | .ok m1 _ => some m1
    | .fatal _ _ => Option.none

/-- A sequence of calls, each returning normally. -/
def exec (G : grid_ops) (TX_ENB_DELAY : Nat) :
    List call → sched_worker_manager → Option sched_worker_manager
  | [], m => some m
  | c :: cs, m =>
    match m.step G TX_ENB_DELAY c with
    | Option.none => Option.none
    | some m1 => exec G TX_ENB_DELAY cs m1

end sched_worker_manager

/-- Example: the example manager after TTI 0 has been scheduled completely and
TTI 4 has been reserved, started and run on carrier 1 (delay of 4 slots). -/
def ex_before_last_run : sched_worker_manager :=
  (ex_manager.exec (grid_ops.record 4) 4
    [.reserve_workers ⟨0⟩, .start_tti ⟨0⟩, .run_tti ⟨0⟩ 1, .run_tti ⟨0⟩ 0, .end_tti ⟨0⟩,
     .reserve_workers ⟨4⟩, .start_tti ⟨4⟩, .run_tti ⟨4⟩ 1]).getD ex_manager

/-! ## The pipeline of TTIs -/

namespace sched_worker_manager

/-- The values of the semaphores of the contexts. -/
def sems (m : sched_worker_manager) : List Nat := m.slot_ctxts.map (fun ctx => ctx.sf_sem)

end sched_worker_manager

/-- The manager together with the TTIs in flight: those that are between
their `reserve_workers` and their `end_tti`. -/
structure pipeline where
  m : sched_worker_manager
  in_flight : List tti_point
deriving DecidableEq, Repr

namespace pipeline

/-- The pipeline of a freshly constructed manager: no TTI is in flight. -/
def init (cfg : sched_params) (TTIMOD_SZ : Nat) (ue_db : ue_map_t) : pipeline :=
  { m := sched_worker_manager.init cfg TTIMOD_SZ ue_db, in_flight := [] }

/-- One call of the driver that returns normally. A completed
`reserve_workers(t)` puts `t` in flight; `end_tti(t)` is called for a TTI in
flight and takes it out; `start_tti` and `run_tti` may be called at any
time. -/
def step (G : grid_ops) (TX_ENB_DELAY : Nat) (p : pipeline) : call → Option pipeline
  | .reserve_workers t =>
    (p.m.reserve_workers t).map (fun m1 => { m := m1, in_flight := t :: p.in_flight })
  | .end_tti t =>
    if t ∈ p.in_flight then
      (p.m.step G TX_ENB_DELAY (.end_tti t)).map
        (fun m1 => { m := m1, in_flight := p.in_flight.erase t })
    else Option.none
  | .start_tti t =>
    (p.m.step G TX_ENB_DELAY (.start_tti t)).map (fun m1 => { m := m1, in_flight := p.in_flight })
  | .run_tti t cc =>
    (p.m.step G TX_ENB_DELAY (.run_tti t cc)).map
      (fun m1 => { m := m1, in_flight := p.in_flight })

/-- A sequence of calls of the driver, each returning normally. -/
def exec (G : grid_ops) (TX_ENB_DELAY : Nat) : List call → pipeline → Option pipeline
  | [], p => some p
  | c :: cs, p =>
    match p.step G TX_ENB_DELAY c with
    | Option.none => Option.none
    | some p1 => exec G TX_ENB_DELAY cs p1

/-- The TTIs in flight that map to context `i`. -/
def in_flight_on (p : pipeline) (i : Nat) : List tti_point :=
  p.in_flight.filter (fun t => p.m.get_sf t = i)

end pipeline

namespace pipeline

/-- Every semaphore plus the number of TTIs in flight on its context is 1, and
every TTI in flight maps to a context of the manager. -/
def balanced (p : pipeline) : Prop :=
  (∀ i, i < p.m.slot_ctxts.length →
    ∃ k, p.m.sems[i]? = some k ∧ k + (p.in_flight_on i).length = 1) ∧
  (∀ t ∈ p.in_flight, p.m.get_sf t < p.m.slot_ctxts.length)

end pipeline

/-- Example: a configuration with one carrier and three slot contexts. -/
def ex_cfg_depth3 : sched_params :=
  { cells := [{ cc := 0, nof_rbg := 3 }], nof_concurrent_subframes := 3 }

/-! ## Holders of a UE reservation -/

/-- Number of entries a worker keeps in `slot_ues` under the key `rnti`. -/
def slot_cc_worker.key_count (w : slot_cc_worker) (rnti : Nat) : Nat :=
  (w.slot_ues.map Prod.fst).count rnti

/-- A worker's reservations are well formed: an idle worker holds none, and
every entry of `slot_ues` is a held (non-empty) reservation. -/
def slot_cc_worker.wf (w : slot_cc_worker) : Prop :=
  (w.running = false → w.slot_ues = []) ∧ ∀ e ∈ w.slot_ues, e.2.held = true

/-- The reservations of one worker are consistent with the UE table, when
`others rnti` is the number of entries that the other workers keep for
`rnti`: the RNTIs of the table are distinct, a UE is busy exactly when one
entry is kept for it, and no entry is kept for an RNTI outside the table. -/
def local_inv (others : Nat → Nat) (w : slot_cc_worker) (ue_db : ue_map_t) : Prop :=
  (ue_db.map Prod.fst).Nodup ∧
  (∀ p ∈ ue_db, others p.1 + w.key_count p.1 = if p.2.busy then 1 else 0) ∧
  (∀ rnti, rnti ∉ ue_db.map Prod.fst → others rnti + w.key_count rnti = 0) ∧
  w.wf

namespace sched_worker_manager

/-- Number of workers, over all contexts, that hold a reservation of the UE
`rnti` (the UE is in their `slot_ues`). -/
def nof_holders (m : sched_worker_manager) (rnti : Nat) : Nat :=
  (m.slot_ctxts.map (fun ctx =>
    (ctx.workers.filter (fun w => slot_ue_map_t.contains w.slot_ues rnti)).length)).sum

/-- Number of entries, over all workers of all contexts, kept under `rnti`. -/
def key_count (m : sched_worker_manager) (rnti : Nat) : Nat :=
  (m.slot_ctxts.map (fun ctx => (ctx.workers.map (fun w => w.key_count rnti)).sum)).sum

/-- The reservations of all workers are consistent with the UE table. -/
def reservations_consistent (m : sched_worker_manager) : Prop :=
  (m.ue_db.map Prod.fst).Nodup ∧
  (∀ p ∈ m.ue_db, m.key_count p.1 = if p.2.busy then 1 else 0) ∧
  (∀ rnti, rnti ∉ m.ue_db.map Prod.fst → m.key_count rnti = 0) ∧
  (∀ ctx ∈ m.slot_ctxts, ∀ w ∈ ctx.workers, w.wf)

end sched_worker_manager

/-- Example: a table of two free UEs that both have pending downlink data and
no uplink data. -/
def ex_ue_db_two_dl : ue_map_t :=
  [(70, { rnti := 70, busy := false, h_dl := some 0, h_ul := Option.none }),
   (71, { rnti := 71, busy := false, h_dl := some 1, h_ul := Option.none })]

/-! ## Workers before and after a loop -/

namespace sched_worker_manager

/-- A loop over the workers `ccs` of context `i` relates every worker visited
to its state before the loop by `R` and leaves the other workers of the
context as they were. -/
def loop_rel (R : slot_cc_worker → slot_cc_worker → Prop) (i : Nat) (ccs : List Nat)
    (m1 : sched_worker_manager) (ctx : slot_worker_ctxt) : Prop :=
  ∃ ctx1, m1.slot_ctxts[i]? = some ctx1 ∧
    (∀ cc ∈ ccs, ∃ w w1, ctx.workers[cc]? = some w ∧ ctx1.workers[cc]? = some w1 ∧ R w w1) ∧
    (∀ cc, cc ∉ ccs → ctx1.workers[cc]? = ctx.workers[cc]?)

/-- The worker of carrier `cc` in context `i`, if there is one. -/
def worker_at (m : sched_worker_manager) (i cc : Nat) : Option slot_cc_worker :=
  (m.slot_ctxts[i]?).bind (fun ctx => ctx.workers[cc]?)

end sched_worker_manager

/-- Tells the calls `new_tti` from the other calls on `res_grid`. -/
def grid_call.is_new_tti : grid_call → Bool
  | .new_tti _ => true
  | _ => false

/-- In the UE table the UE `rnti` is not reserved. -/
def released_in (rnti : Nat) (ue_db : ue_map_t) : Prop :=
  ∀ p ∈ ue_db, p.1 = rnti → p.2.busy = false

/-- Example: the example manager after TTI 0 has been scheduled completely and
TTI 4 has been reserved, started and run on both carriers. -/
def ex_all_run : sched_worker_manager :=
  (ex_before_last_run.run_tti (grid_ops.record 4) 4 ⟨4⟩ 0 slot_res_t.init).state.1

namespace sched_worker_manager

/-- From `m` to `m2` every worker of context `i` has only added calls other
than `new_tti` to the history of its `res_grid`. -/
def hist_ext (m m2 : sched_worker_manager) (i : Nat) : Prop :=
  ∀ (cc : Nat) (w : slot_cc_worker), m.worker_at i cc = some w →
    ∃ w2 extra, m2.worker_at i cc = some w2 ∧ w2.res_grid = w.res_grid ++ extra ∧
      ∀ c ∈ extra, c.is_new_tti = false

end sched_worker_manager

/-- Example: the example manager after TTI 4 has been reserved, started and
run on the carriers 1 and 0 (delay of 4 slots). -/
def ex_all_run_fresh : sched_worker_manager :=
  (sched_worker_manager.run_tti_seq (grid_ops.record 4) 4 ⟨4⟩ slot_res_t.init [1, 0]
    (ex_started ⟨4⟩)).state

end SchedNr

/-! ## The state holder of the intra-frequency measurement (`intra_measure_base.h`) -/

namespace intra_measure_base

namespace internal_state

/-- The type `internal_state::state_t`. -/
inductive state_t where
  | idle
  | wait
  | receive
  | measure
  | quit
deriving DecidableEq, Repr

end internal_state

/-- The class `internal_state`: the protected state, initially `idle`. Every
method that writes the state holds the mutex for its whole body, so a history
of the object is a sequence of calls; the condition variable only wakes
waiting threads and is not part of the state. -/
structure internal_state where
  state : internal_state.state_t := internal_state.state_t.idle
deriving DecidableEq, Repr

namespace internal_state

/-- `get_state()`. -/
def get_state (self : internal_state) : state_t := self.state

/-- `set_state(new_state)`: the state changes unless it is `quit`. -/
def set_state (self : internal_state) (new_state : state_t) : internal_state :=
  if self.state ≠ state_t.quit then { self with state := new_state } else self

/-- A sequence of calls `set_state(s)`, one for each `s` of `calls` in order. -/
def set_states (self : internal_state) (calls : List state_t) : internal_state :=
  calls.foldl set_state self

end internal_state

/-- Example: the calls `set_state(measure)`, `set_state(quit)`,
`set_state(idle)`, `set_state(receive)`. -/
def ex_calls : List internal_state.state_t := [.measure, .quit, .idle, .receive]

end intra_measure_base

namespace SchedNr

end SchedNr

/-! ## The RRC entity of one UE (`rrc_nr_ue.cc`) -/

namespace rrc_nr

/-- The type `srsran::nr_srb`. -/
inductive nr_srb where
  | srb0
  | srb1
  | srb2
  | srb3
deriving DecidableEq, Repr

/-- The type `activity_timeout_type_t`, in the order of the texts of
`to_string`. -/
inductive activity_timeout_type_t where
  | MSG3_RX_TIMEOUT
  | UE_INACTIVITY_TIMEOUT
  | MSG5_RX_TIMEOUT
  | nulltype
deriving DecidableEq, Repr

/-- The alternatives of `init_ue_id_c` that `handle_rrc_setup_request` looks
at. -/
inductive init_ue_id_types where
  | ng_minus5_g_s_tmsi_part1
  | random_value
  | nulltype
deriving DecidableEq, Repr

/-- The message `rrc_setup_request_s`, reduced to the field the code reads:
the alternative of `rrc_setup_request.ue_id`. -/
structure rrc_setup_request_s where
  ue_id_type : init_ue_id_types
deriving DecidableEq, Repr

/-- The fields of `rrc_reject_ies_s` the code writes. -/
structure rrc_reject_ies_s where
  wait_time_present : Bool := false
  wait_time : Nat := 0
deriving DecidableEq, Repr

/-- The field of `srb_to_add_mod_s` the code writes. -/
structure srb_to_add_mod_s where
  srb_id : Nat := 1
deriving DecidableEq, Repr

/-- The fields of `radio_bearer_cfg_s` the code writes. -/
structure radio_bearer_cfg_s where
  srb_to_add_mod_list_present : Bool := false
  srb_to_add_mod_list : List srb_to_add_mod_s := []
deriving DecidableEq, Repr

/-- The fields of `rrc_setup_ies_s` the code writes. -/
structure rrc_setup_ies_s where
  radio_bearer_cfg : radio_bearer_cfg_s := {}
deriving DecidableEq, Repr

/-- The message `rrc_setup_s`: transaction identifier and the alternative
`rrc_setup` of `crit_exts`. -/
structure rrc_setup_s where
  rrc_transaction_id : Nat := 0
  crit_exts : rrc_setup_ies_s := {}
deriving DecidableEq, Repr

/-- The message `dl_ccch_msg_s` with the two alternatives of `c1` the code
sets. -/
inductive dl_ccch_msg_s where
  | rrc_reject (reject : rrc_reject_ies_s)
  | rrc_setup (setup : rrc_setup_s)
deriving DecidableEq, Repr

/-- A byte buffer (`unique_byte_buffer_t` that is not `nullptr`). -/
abbrev byte_buffer_t := List Nat

/-- A call `parent->rlc->write_sdu(rnti, lcid, sdu)`. -/
structure rlc_write_sdu where
  rnti : Nat
  lcid : Nat
  sdu : byte_buffer_t
deriving DecidableEq, Repr

/-- A call on `activity_timer`; the callback of `set` is
`activity_timer_expired(type)`. -/
inductive timer_call where
  | set (duration_ms : Nat) (type : activity_timeout_type_t)
  | run
  | stop
deriving DecidableEq, Repr

/-- What `ue` uses of its parent `rrc_nr` and of the `srsran` helpers, none of
which is defined in the file: the answer of `ngap->is_amf_connected()`, the
function `pack_into_pdu` (`none` is `nullptr`), the function `srb_to_lcid`,
and the modulus of the counter `transaction_id` (two to the width of its
type). -/
structure parent_t where
  is_amf_connected : Bool
  pack_into_pdu : dl_ccch_msg_s → Option byte_buffer_t
  srb_to_lcid : nr_srb → Nat
  transaction_id_mod : Nat

/-- The members of `rrc_nr::ue` the code writes, with the calls it makes on
its collaborators kept as histories, oldest first: `rlc` holds the calls of
`parent->rlc->write_sdu`, `activity_timer` the calls on the timer, `logger`
the messages of `parent->logger.error`. -/
structure ue where
  rnti : Nat
  transaction_id : Nat
  rlc : List rlc_write_sdu
  activity_timer : List timer_call
  logger : List String
deriving DecidableEq, Repr

/-- The function `resize(n)` of a list of default-constructible elements. -/
def resize {α : Type} (l : List α) (n : Nat) (d : α) : List α :=
  l.take n ++ List.replicate (n - l.length) d

namespace ue

/-- `set_activity(enabled)`; the debug messages are not recorded. -/
def set_activity (u : ue) (enabled : Bool) : ue :=
  if !enabled then
    { u with activity_timer := u.activity_timer ++ [timer_call.stop] }
  else
    { u with activity_timer := u.activity_timer ++ [timer_call.run] }

/-- `set_activity_timeout(type)`. -/
def set_activity_timeout (u : ue) (type : activity_timeout_type_t) : ue :=
  let deadline_ms : Option Nat :=
    match type with
    | .MSG3_RX_TIMEOUT => some 100
    | .MSG5_RX_TIMEOUT => some 5000
    | .UE_INACTIVITY_TIMEOUT => some 10000
    | _ => Option.none
  match deadline_ms with
  | Option.none => { u with logger := u.logger ++ ["Unknown timeout type"] }
  | some d =>
    set_activity { u with activity_timer := u.activity_timer ++ [timer_call.set d type] } true

/-- `send_dl_ccch(dl_ccch_msg)`. -/
def send_dl_ccch (P : parent_t) (u : ue) (dl_ccch_msg : dl_ccch_msg_s) : ue :=
  match P.pack_into_pdu dl_ccch_msg with
  | Option.none => { u with logger := u.logger ++ ["Failed to send DL-CCCH"] }
  | some pdu =>
    { u with rlc := u.rlc ++
        [{ rnti := u.rnti, lcid := P.srb_to_lcid nr_srb.srb0, sdu := pdu }] }

/-- `send_rrc_reject(reject_wait_time_secs)`, the argument an 8-bit value. -/
def send_rrc_reject (P : parent_t) (u : ue) (reject_wait_time_secs : Nat) : ue :=
  let reject : rrc_reject_ies_s := {}
  let reject :=
    if reject_wait_time_secs > 0 then
      { reject with wait_time_present := true, wait_time := reject_wait_time_secs }
    else reject
  send_dl_ccch P u (dl_ccch_msg_s.rrc_reject reject)

/-- `send_rrc_setup()`. -/
def send_rrc_setup (P : parent_t) (u : ue) : ue :=
  let setup : rrc_setup_s := {}
  let setup := { setup with rrc_transaction_id := u.transaction_id % 4 % 2 ^ 8 }
  let u := { u with transaction_id := (u.transaction_id + 1) % P.transaction_id_mod }
  let setup_ies := setup.crit_exts
  let radio_bearer_cfg :=
    { setup_ies.radio_bearer_cfg with srb_to_add_mod_list_present := true }
  let radio_bearer_cfg :=
    { radio_bearer_cfg with
      srb_to_add_mod_list := resize radio_bearer_cfg.srb_to_add_mod_list 1 {} }
  let radio_bearer_cfg :=
    { radio_bearer_cfg with
      srb_to_add_mod_list :=
        radio_bearer_cfg.srb_to_add_mod_list.modify (fun srb1 => { srb1 with srb_id := 1 }) 0 }
  let setup := { setup with crit_exts := { setup_ies with radio_bearer_cfg := radio_bearer_cfg } }
  send_dl_ccch P u (dl_ccch_msg_s.rrc_setup setup)

/-- `handle_rrc_setup_request(msg)`. -/
def handle_rrc_setup_request (P : parent_t) (u : ue) (msg : rrc_setup_request_s) : ue :=
  if !P.is_amf_connected then
    let u := { u with logger := u.logger ++ ["MME isn\x27t connected. Sending Connection Reject"] }
    let max_wait_time_secs := 16
    send_rrc_reject P u max_wait_time_secs
  else
    let u :=
      match msg.ue_id_type with
      | .ng_minus5_g_s_tmsi_part1 => u
      | .random_value => u
      | _ => { u with logger := u.logger ++ ["Unsupported RRCSetupRequest"] }
    let u := send_rrc_setup P u
    set_activity_timeout u activity_timeout_type_t.UE_INACTIVITY_TIMEOUT

end ue

/-- Example: a parent with the AMF connected whose `pack_into_pdu` fails. -/
def ex_parent_no_pdu : parent_t :=
  { is_amf_connected := true, pack_into_pdu := fun _ => Option.none,
    srb_to_lcid := fun _ => 0, transaction_id_mod := 2 ^ 32 }

/-- Example: a parent with the AMF connected whose `pack_into_pdu` gives one
byte for an RRCReject and the transaction identifier and the identities of the
added SRBs for an RRCSetup. -/
def ex_parent : parent_t :=
  { is_amf_connected := true,
    pack_into_pdu := fun msg =>
      match msg with
      | .rrc_reject _ => some [0]
      | .rrc_setup s =>
        some (1 :: s.rrc_transaction_id ::
          s.crit_exts.radio_bearer_cfg.srb_to_add_mod_list.map (fun b => b.srb_id)),
    srb_to_lcid := fun srb =>
      match srb with
      | .srb0 => 0
      | .srb1 => 1
      | .srb2 => 2
      | .srb3 => 3,
    transaction_id_mod := 2 ^ 32 }

/-- Example: a UE with RNTI 0x4601 that has not sent anything. -/
def ex_ue : ue :=
  { rnti := 0x4601, transaction_id := 0, rlc := [], activity_timer := [], logger := [] }

end rrc_nr

namespace SchedNr

end SchedNr

/-! ## Search spaces of the PHY configuration (`phy_cfg_nr.cc`) -/

namespace srsran

/-- The constants of the `srsran` headers that `phy_cfg_nr.cc` names and does
not define; the enumerators of `srsran_dci_format_nr_t` are given by their
values. -/
structure phy_consts where
  SRSRAN_SUCCESS : Int
  SRSRAN_ERROR : Int
  SRSRAN_UE_DL_NR_MAX_NOF_SEARCH_SPACE : Nat
  SRSRAN_UE_DL_NR_MAX_NOF_CORESET : Nat
  SRSRAN_SEARCH_SPACE_MAX_NOF_CANDIDATES_NR : Nat
  srsran_dci_format_nr_0_0 : Nat
  srsran_dci_format_nr_0_1 : Nat
  srsran_dci_format_nr_1_0 : Nat
  srsran_dci_format_nr_1_1 : Nat
  SRSRAN_DCI_FORMAT_NR_COUNT : Nat
deriving DecidableEq, Repr

/-- The enumerators of `srsran_dci_format_nr_t` that the code names are
pairwise different, as the enumerators of one enumeration are. -/
def phy_consts.formats_distinct (K : phy_consts) : Prop :=
  [K.srsran_dci_format_nr_0_0, K.srsran_dci_format_nr_0_1, K.srsran_dci_format_nr_1_0,
   K.srsran_dci_format_nr_1_1, K.SRSRAN_DCI_FORMAT_NR_COUNT].Nodup

/-- The conversion of an `int` to `bool`: every value but 0 is `true`. -/
def int_to_bool (x : Int) : Bool := decide (x ≠ 0)

/-- Modelled from the spec: the macro `SRSRAN_MIN` is not defined in the file;
it gives the smaller of its two arguments. -/
def SRSRAN_MIN (a b : Nat) : Nat := if a < b then a else b

/-- The fields of `srsran_search_space_t` that the functions below read:
`formats` is an array of `SRSRAN_DCI_FORMAT_NR_COUNT` entries. -/
structure srsran_search_space_t where
  coreset_id : Nat
  nof_formats : Nat
  formats : List Nat
deriving DecidableEq, Repr

/-- A CORESET, reduced to its identifier: its content is read only by
`srsran_pdcch_nr_locations_coreset`. -/
structure srsran_coreset_t where
  id : Nat
deriving DecidableEq, Repr

/-- The arrays of `srsran_pdcch_cfg_nr_t` that the functions below read. -/
structure srsran_pdcch_cfg_nr_t where
  search_space_present : List Bool
  search_space : List srsran_search_space_t
  coreset_present : List Bool
  coreset : List srsran_coreset_t
deriving DecidableEq, Repr

/-- A DCI location `{L, ncce}`. -/
structure srsran_dci_location_t where
  L : Nat
  ncce : Nat
deriving DecidableEq, Repr

/-- The member of `phy_cfg_nr_t` that the functions below read. -/
structure phy_cfg_nr_t where
  pdcch : srsran_pdcch_cfg_nr_t
deriving DecidableEq, Repr

/-- The function `srsran_pdcch_nr_locations_coreset(coreset, ss, rnti, L,
slot_idx, ncce)`, which the file calls and does not define: its return value
and the array `ncce` as it leaves it. -/
abbrev locations_fn :=
  srsran_coreset_t → srsran_search_space_t → Nat → Nat → Nat → Int × List Nat

namespace phy_cfg_nr_t

/-- The arrays have the sizes of their declarations and the fields are
32-bit values. -/
def wf (K : phy_consts) (cfg : phy_cfg_nr_t) : Prop :=
  cfg.pdcch.search_space_present.length = K.SRSRAN_UE_DL_NR_MAX_NOF_SEARCH_SPACE ∧
  cfg.pdcch.search_space.length = K.SRSRAN_UE_DL_NR_MAX_NOF_SEARCH_SPACE ∧
  cfg.pdcch.coreset_present.length = K.SRSRAN_UE_DL_NR_MAX_NOF_CORESET ∧
  cfg.pdcch.coreset.length = K.SRSRAN_UE_DL_NR_MAX_NOF_CORESET ∧
  ∀ ss ∈ cfg.pdcch.search_space,
    ss.formats.length = K.SRSRAN_DCI_FORMAT_NR_COUNT ∧ ss.coreset_id < 2 ^ 32 ∧
      ss.nof_formats < 2 ^ 32

/-- `assert_ss_id(ss_id)`; `none` when it reads outside an array. -/
def assert_ss_id (K : phy_consts) (cfg : phy_cfg_nr_t) (ss_id : Nat) : Option Bool :=
  if ss_id > K.SRSRAN_UE_DL_NR_MAX_NOF_SEARCH_SPACE then some false
  else
    match cfg.pdcch.search_space_present[ss_id]? with
    | Option.none => Option.none
    | some present =>
      if !present then some false
      else
        match cfg.pdcch.search_space[ss_id]? with
        | Option.none => Option.none
        | some ss =>
          let coreset_id := ss.coreset_id
          if coreset_id ≥ K.SRSRAN_UE_DL_NR_MAX_NOF_CORESET then some false
          else
            match cfg.pdcch.coreset_present[coreset_id]? with
            | Option.none => Option.none
            | some coreset_present => if !coreset_present then some false else some true

/-- The loop `for (i = 0; i < (uint32_t)n; i++) locations.push_back({L, ncce[i]})`
over the indices `is`; `none` when it reads outside `ncce` or pushes to a full
vector. -/
def push_locations (K : phy_consts) (L : Nat) (ncce : List Nat) :
    List Nat → List srsran_dci_location_t → Option (List srsran_dci_location_t)
  | [], locations => some locations
  | i :: is, locations =>
    match ncce[i]? with
    | Option.none => Option.none
    | some c =>
      if locations.length < K.SRSRAN_SEARCH_SPACE_MAX_NOF_CANDIDATES_NR then
        push_locations K L ncce is (locations ++ [{ L := L, ncce := c }])
      else Option.none

/-- `get_dci_locations(slot_idx, rnti, ss_id, L, locations)`: the value
returned and `locations` as the call leaves it. -/
def get_dci_locations (K : phy_consts) (srsran_pdcch_nr_locations_coreset : locations_fn)
    (cfg : phy_cfg_nr_t) (slot_idx rnti ss_id L : Nat)
    (locations : List srsran_dci_location_t) :
    Option (Bool × List srsran_dci_location_t) :=
  match assert_ss_id K cfg ss_id with
  | Option.none => Option.none
  | some false => some (int_to_bool K.SRSRAN_ERROR, locations)
  | some true =>
    match cfg.pdcch.search_space[ss_id]? with
    | Option.none => Option.none
    | some ss =>
      match cfg.pdcch.coreset[ss.coreset_id]? with
      | Option.none => Option.none
      | some coreset =>
        let (n, ncce) := srsran_pdcch_nr_locations_coreset coreset ss rnti L slot_idx
        if n < K.SRSRAN_SUCCESS then some (false, locations)
        else
          match push_locations K L ncce (List.range (n % 2 ^ 32).toNat) locations with
          | Option.none => Option.none
          | some locations => some (true, locations)

/-- The loop over the formats of a search space, for the indices `is`: the
format returned from inside the loop, `some none` when the loop ends, `none`
when it reads outside the array. -/
def select_format (p : Nat → Bool) (formats : List Nat) : List Nat → Option (Option Nat)
  | [] => some Option.none
  | i :: is =>
    match formats[i]? with
    | Option.none => Option.none
    | some f => if p f then some (some f) else select_format p formats is

/-- `get_dci_format_pdsch(ss_id)`. -/
def get_dci_format_pdsch (K : phy_consts) (cfg : phy_cfg_nr_t) (ss_id : Nat) : Option Nat :=
  match assert_ss_id K cfg ss_id with
  | Option.none => Option.none
  | some false => some K.SRSRAN_DCI_FORMAT_NR_COUNT
  | some true =>
    match cfg.pdcch.search_space[ss_id]? with
    | Option.none => Option.none
    | some ss =>
      let nof_formats := SRSRAN_MIN ss.nof_formats K.SRSRAN_DCI_FORMAT_NR_COUNT
      match select_format
          (fun f => f == K.srsran_dci_format_nr_1_0 || f == K.srsran_dci_format_nr_1_1)
          ss.formats (List.range nof_formats) with
      | Option.none => Option.none
      | some (some f) => some f
      | some Option.none => some K.SRSRAN_DCI_FORMAT_NR_COUNT

/-- `get_dci_format_pusch(ss_id)`. -/
def get_dci_format_pusch (K : phy_consts) (cfg : phy_cfg_nr_t) (ss_id : Nat) : Option Nat :=
  match assert_ss_id K cfg ss_id with
  | Option.none => Option.none
  | some false => some K.SRSRAN_DCI_FORMAT_NR_COUNT
  | some true =>
    match cfg.pdcch.search_space[ss_id]? with
    | Option.none => Option.none
    | some ss =>
      let nof_formats := SRSRAN_MIN ss.nof_formats K.SRSRAN_DCI_FORMAT_NR_COUNT
      match select_format
          (fun f => f == K.srsran_dci_format_nr_0_0 || f == K.srsran_dci_format_nr_0_1)
          ss.formats (List.range nof_formats) with
      | Option.none => Option.none
      | some (some f) => some f
      | some Option.none => some K.SRSRAN_DCI_FORMAT_NR_COUNT

end phy_cfg_nr_t

/-- Example: the constants with two search spaces, two CORESETs, the formats
0_0, 0_1, 1_0, 1_1 numbered from 0 and five other formats before the count. -/
def ex_consts : phy_consts :=
  { SRSRAN_SUCCESS := 0, SRSRAN_ERROR := -1,
    SRSRAN_UE_DL_NR_MAX_NOF_SEARCH_SPACE := 2, SRSRAN_UE_DL_NR_MAX_NOF_CORESET := 2,
    SRSRAN_SEARCH_SPACE_MAX_NOF_CANDIDATES_NR := 8,
    srsran_dci_format_nr_0_0 := 0, srsran_dci_format_nr_0_1 := 1,
    srsran_dci_format_nr_1_0 := 2, srsran_dci_format_nr_1_1 := 3,
    SRSRAN_DCI_FORMAT_NR_COUNT := 9 }

/-- Example: search space 0 absent; search space 1 present on CORESET 1 with
the three formats 0_0, 1_1, 1_0 configured. -/
def ex_phy_cfg : phy_cfg_nr_t :=
  { pdcch :=
      { search_space_present := [false, true],
        search_space :=
          [{ coreset_id := 0, nof_formats := 0, formats := [0, 0, 0, 0, 0, 0, 0, 0, 0] },
           { coreset_id := 1, nof_formats := 3, formats := [0, 3, 2, 0, 0, 0, 0, 0, 0] }],
        coreset_present := [false, true],
        coreset := [{ id := 0 }, { id := 1 }] } }

/-- Example: a locations function that finds two candidates. -/
def ex_locations_fn : locations_fn := fun _ _ _ _ _ => (2, [0, 4, 0, 0, 0, 0, 0, 0])

end srsran

namespace SchedNr

end SchedNr

/-! ## The DMRS of the PBCH (`dmrs_pbch.c`) -/

namespace dmrs_pbch

/-- The macro `DMRS_PBCH_NOF_RE`. -/
def DMRS_PBCH_NOF_RE : Nat := 144

/-- What `dmrs_pbch.c` takes from the headers it includes and does not define,
for a type `F` of `float` values and a type `C` of `cf_t` values: the return
codes, the sizes of the SSB grid, the macros `SRSRAN_FLOOR` and
`SRSRAN_SEQUENCE_MOD`, `M_SQRT1_2`, `isnormal`, the sequence generator (the `n`
complex values that `srsran_sequence_state_init(state, cinit)` followed by
`srsran_sequence_state_gen_f(state, beta, r, 2 * n)` leaves in `r`) and
`srsran_vec_prod_conj_ccc(x, y, z, len)` (the content of `z` afterwards). -/
structure srsran_h (F C : Type) where
  SRSRAN_SUCCESS : Int
  SRSRAN_ERROR_INVALID_INPUTS : Int
  SRSRAN_SSB_BW_SUBC : Nat
  SRSRAN_SSB_NOF_RE : Nat
  SRSRAN_FLOOR : Nat → Nat → Nat
  SRSRAN_SEQUENCE_MOD : Nat → Nat
  M_SQRT1_2 : F
  isnormal : F → Bool
  srsran_sequence_state_gen_f : Nat → F → Nat → List C
  srsran_vec_prod_conj_ccc : List C → List C → Nat → List C

namespace srsran_h

/-- The two macros do what their names say: `SRSRAN_FLOOR(x, 4)` is the
quotient of `x` by 4 and `SRSRAN_SEQUENCE_MOD` leaves a value below `2^31` as
it is. -/
def macros_ok {F C : Type} (E : srsran_h F C) : Prop :=
  (∀ x, E.SRSRAN_FLOOR x 4 = x / 4) ∧ (∀ x, x < 2 ^ 31 → E.SRSRAN_SEQUENCE_MOD x = x)

/-- The SSB grid has 240 subcarriers and 4 symbols, and the generator fills
the `n` complex values it is asked for. -/
def sizes_ok {F C : Type} (E : srsran_h F C) : Prop :=
  E.SRSRAN_SSB_BW_SUBC = 240 ∧ E.SRSRAN_SSB_NOF_RE = 960 ∧
  ∀ cinit beta n, (E.srsran_sequence_state_gen_f cinit beta n).length = n

end srsran_h

/-- The fields of `srsran_dmrs_pbch_cfg_t` that the functions below read, all
32-bit values but `beta`. -/
structure srsran_dmrs_pbch_cfg_t (F : Type) where
  N_id : Nat
  n_hf : Nat
  ssb_idx : Nat
  L_max : Nat
  beta : F

/-- `dmrs_pbch_cinit(cfg)`: the arithmetic is that of `uint64_t`, the result
is converted to `uint32_t`. -/
def dmrs_pbch_cinit {F C : Type} (E : srsran_h F C) (cfg : srsran_dmrs_pbch_cfg_t F) : Nat :=
  let i_ssb : Nat := ((cfg.ssb_idx &&& 0b11) + 4 * cfg.n_hf % 2 ^ 64) % 2 ^ 64
  let i_ssb : Nat := if cfg.L_max == 8 || cfg.L_max == 64 then cfg.ssb_idx &&& 0b111 else i_ssb
  E.SRSRAN_SEQUENCE_MOD
    ((((((i_ssb + 1) % 2 ^ 64 * ((E.SRSRAN_FLOOR cfg.N_id 4 + 1) % 2 ^ 64)) % 2 ^ 64) <<< 11)
        % 2 ^ 64 +
      (((i_ssb + 1) % 2 ^ 64) <<< 6) % 2 ^ 64 + cfg.N_id % 4) % 2 ^ 64) % 2 ^ 32

/-- The values of `k` in `for (k = start; k < stop; k += step)`, in order;
`stop` is at most 240 here, so `k` does not wrap. -/
def for_range (start stop step : Nat) : List Nat :=
  (List.range stop).filter (fun k => decide (start ≤ k) && (k - start) % step == 0)

/-- The state of the loops of `srsran_dmrs_pbch_put`: the grid, the read index
`r_idx`, and the assignments made so far, each as the pair of the index
written in the grid and the index read in `r`. -/
structure put_state (C : Type) where
  ssb_grid : List C
  r_idx : Nat
  writes : List (Nat × Nat)

/-- The assignment `ssb_grid[i] = r[r_idx++]`; `none` when an index is outside
its array. -/
def put_re {C : Type} (r : List C) (s : put_state C) (i : Nat) : Option (put_state C) :=
  match r[s.r_idx]? with
  | Option.none => Option.none
  | some x =>
    if i < s.ssb_grid.length then
      some { ssb_grid := s.ssb_grid.set i x, r_idx := s.r_idx + 1,
             writes := s.writes ++ [(i, s.r_idx)] }
    else Option.none

/-- `srsran_dmrs_pbch_put(cfg, ssb_grid)`, a `NULL` argument being `none`: the
value returned, the grid afterwards and the assignments made; `none` when an
index is outside its array. -/
def srsran_dmrs_pbch_put {F C : Type} (E : srsran_h F C) :
    Option (srsran_dmrs_pbch_cfg_t F) → Option (List C) →
      Option (Int × Option (List C) × List (Nat × Nat))
  | some cfg, some ssb_grid =>
    let v := cfg.N_id % 4
    let beta := if E.isnormal cfg.beta then cfg.beta else E.M_SQRT1_2
    let cinit := dmrs_pbch_cinit E cfg
    let r := E.srsran_sequence_state_gen_f cinit beta DMRS_PBCH_NOF_RE
    let s : put_state C := { ssb_grid := ssb_grid, r_idx := 0, writes := [] }
    ((for_range v E.SRSRAN_SSB_BW_SUBC 4).foldlM
        (fun s k => put_re r s (E.SRSRAN_SSB_BW_SUBC * 1 + k)) s).bind fun s =>
    ((for_range v 48 4).foldlM
        (fun s k => put_re r s (E.SRSRAN_SSB_BW_SUBC * 2 + k)) s).bind fun s =>
    ((for_range (192 + v) E.SRSRAN_SSB_BW_SUBC 4).foldlM
        (fun s k => put_re r s (E.SRSRAN_SSB_BW_SUBC * 2 + k)) s).bind fun s =>
    ((for_range v E.SRSRAN_SSB_BW_SUBC 4).foldlM
        (fun s k => put_re r s (E.SRSRAN_SSB_BW_SUBC * 3 + k)) s).bind fun s =>
    some (E.SRSRAN_SUCCESS, some s.ssb_grid, s.writes)
  | _, ssb_grid => some (E.SRSRAN_ERROR_INVALID_INPUTS, ssb_grid, [])

/-- The state of the loops of `dmrs_pbch_extract_lse`: the array `lse` and the
index `r_idx`. -/
structure lse_state (C : Type) where
  lse : List C
  r_idx : Nat

/-- The assignment `lse[r_idx++] = ssb_grid[i]`; `none` when an index is
outside its array. -/
def get_re {C : Type} (ssb_grid : List C) (s : lse_state C) (i : Nat) : Option (lse_state C) :=
  match ssb_grid[i]? with
  | Option.none => Option.none
  | some x =>
    if s.r_idx < s.lse.length then some { lse := s.lse.set s.r_idx x, r_idx := s.r_idx + 1 }
    else Option.none

/-- The four loops of `dmrs_pbch_extract_lse(cfg, ssb_grid, lse)`: the array
`lse` before the conjugate product. -/
def dmrs_pbch_extract_lse_gather {F C : Type} (E : srsran_h F C) (cfg : srsran_dmrs_pbch_cfg_t F)
    (ssb_grid lse : List C) : Option (List C) :=
  let v := cfg.N_id % 4
  let s : lse_state C := { lse := lse, r_idx := 0 }
  ((for_range v E.SRSRAN_SSB_BW_SUBC 4).foldlM
      (fun s k => get_re ssb_grid s (E.SRSRAN_SSB_BW_SUBC * 1 + k)) s).bind fun s =>
  ((for_range v 48 4).foldlM
      (fun s k => get_re ssb_grid s (E.SRSRAN_SSB_BW_SUBC * 2 + k)) s).bind fun s =>
  ((for_range (192 + v) E.SRSRAN_SSB_BW_SUBC 4).foldlM
      (fun s k => get_re ssb_grid s (E.SRSRAN_SSB_BW_SUBC * 2 + k)) s).bind fun s =>
  ((for_range v E.SRSRAN_SSB_BW_SUBC 4).foldlM
      (fun s k => get_re ssb_grid s (E.SRSRAN_SSB_BW_SUBC * 3 + k)) s).bind fun s =>
  some s.lse

/-- `dmrs_pbch_extract_lse(cfg, ssb_grid, lse)`: the value returned and the
array `lse` afterwards. -/
def dmrs_pbch_extract_lse {F C : Type} (E : srsran_h F C) (cfg : srsran_dmrs_pbch_cfg_t F)
    (ssb_grid lse : List C) : Option (Int × List C) :=
  let beta := if E.isnormal cfg.beta then cfg.beta else E.M_SQRT1_2
  let cinit := dmrs_pbch_cinit E cfg
  let r := E.srsran_sequence_state_gen_f cinit beta DMRS_PBCH_NOF_RE
  (dmrs_pbch_extract_lse_gather E cfg ssb_grid lse).bind fun lse =>
  some (E.SRSRAN_SUCCESS, E.srsran_vec_prod_conj_ccc lse r DMRS_PBCH_NOF_RE)

/-- The generated sequence `r` of both functions. -/
def dmrs_sequence {F C : Type} (E : srsran_h F C) (cfg : srsran_dmrs_pbch_cfg_t F) : List C :=
  E.srsran_sequence_state_gen_f (dmrs_pbch_cinit E cfg)
    (if E.isnormal cfg.beta then cfg.beta else E.M_SQRT1_2) DMRS_PBCH_NOF_RE

/-- The grid indices of the DMRS for the shift `v` in a grid of `bw`
subcarriers per symbol, in the order of the four loops. -/
def dmrs_indices (bw v : Nat) : List Nat :=
  (for_range v bw 4).map (fun k => bw * 1 + k) ++
  (for_range v 48 4).map (fun k => bw * 2 + k) ++
  (for_range (192 + v) bw 4).map (fun k => bw * 2 + k) ++
  (for_range v bw 4).map (fun k => bw * 3 + k)

/-- Example: `float` and `cf_t` values stood for by integers, the macros of
the headers, and a generator that numbers its values from `cinit + beta`. -/
def ex_srsran_h : srsran_h Int Int :=
  { SRSRAN_SUCCESS := 0, SRSRAN_ERROR_INVALID_INPUTS := -2,
    SRSRAN_SSB_BW_SUBC := 240, SRSRAN_SSB_NOF_RE := 960,
    SRSRAN_FLOOR := fun x y => x / y,
    SRSRAN_SEQUENCE_MOD := fun x => x % 2 ^ 31,
    M_SQRT1_2 := 7, isnormal := fun b => b != 0,
    srsran_sequence_state_gen_f := fun cinit beta n =>
      (List.range n).map (fun i : Nat => (cinit : Int) + beta + (i : Int)),
    srsran_vec_prod_conj_ccc := fun x y len => (List.zipWith (fun a b => a * b) x y).take len }

/-- Example: cell 123 in the second half frame, SSB 5 of at most 8. -/
def ex_dmrs_cfg : srsran_dmrs_pbch_cfg_t Int :=
  { N_id := 123, n_hf := 1, ssb_idx := 5, L_max := 8, beta := 0 }

end dmrs_pbch

namespace SchedNr

end SchedNr

namespace dmrs_pbch

/-- Example: an SSB grid of 960 zeros. -/
def ex_ssb_grid : List Int := List.replicate 960 0

/-- Example: an array `lse` of 144 values. -/
def ex_lse : List Int := List.replicate 144 (-1)

end dmrs_pbch

namespace SchedNr

end SchedNr

/-! ## The pool of stacks (`circular_stack_pool.h`) -/

namespace srsran

/-- The value `std::numeric_limits<size_t>::max()` for a `size_t` of 64 bits. -/
def size_t_max : Nat := 2 ^ 64 - 1

/-- The class `linear_allocator` (of `linear_allocator.h`, which the file
includes), reduced to the memory block it was constructed on: `is_init()`
holds from the construction on a block to `clear()`. What its
`allocate(size, alignment)` returns is an argument of the calls below. -/
structure linear_allocator where
  memblock : Option Nat := Option.none
deriving DecidableEq, Repr

namespace linear_allocator

/-- `is_init()`. -/
def is_init (a : linear_allocator) : Bool := a.memblock.isSome

/-- `memblock_ptr()`, `none` being `nullptr`. -/
def memblock_ptr (a : linear_allocator) : Option Nat := a.memblock

/-- `clear()`. -/
def clear (_a : linear_allocator) : linear_allocator := { memblock := Option.none }

end linear_allocator

/-- The structure `mem_block_elem_t` of one stack, without its mutex: every
method holds the mutex of the element for its whole body. -/
structure mem_block_elem_t where
  key : Nat := size_t_max
  count : Nat := 0
  alloc : linear_allocator := {}
deriving DecidableEq, Repr

/-- `mem_block_elem_t::clear()`. -/
def mem_block_elem_t.clear (e : mem_block_elem_t) : mem_block_elem_t :=
  { key := size_t_max, count := 0, alloc := e.alloc.clear }

/-- A call on `central_cache`: `allocate_node(sz)` with the block it returns
(`none` is `nullptr`), or `deallocate_node(ptr)`. -/
inductive cache_call where
  | allocate_node (sz : Nat) (block : Option Nat)
  | deallocate_node (ptr : Option Nat)
deriving DecidableEq, Repr

/-- A warning of the logger: "Failed to allocate memory block from central
cache", or "No space left in memory block with key=... of circular stack
pool". -/
inductive pool_warning where
  | no_block
  | no_space (key : Nat)
deriving DecidableEq, Repr

/-- The class `circular_stack_pool<NofStacks>`: the `NofStacks` elements of
`pools`, the size `get_node_max_size()` of a block of the central cache, and
the calls made on the central cache and on the logger, oldest first. -/
structure circular_stack_pool where
  pools : List mem_block_elem_t
  node_max_size : Nat
  central_cache : List cache_call
  logger : List pool_warning
deriving DecidableEq, Repr

namespace circular_stack_pool

/-- The pool after its constructor. -/
def init (NofStacks node_max_size : Nat) : circular_stack_pool :=
  { pools := List.replicate NofStacks {}, node_max_size := node_max_size,
    central_cache := [], logger := [] }

/-- The end of `allocate` from `void* ptr = elem.alloc.allocate(size,
alignment)` on, for the element `elem` of index `idx`; `ptr` is what the
linear allocator returns. -/
def allocate_from_block (p : circular_stack_pool) (idx : Nat) (elem : mem_block_elem_t)
    (key : Nat) (ptr : Option Nat) : circular_stack_pool × Option Nat :=
  match ptr with
  | Option.none =>
    ({ p with pools := p.pools.set idx elem,
              logger := p.logger ++ [pool_warning.no_space key] }, Option.none)
  | some q =>
    ({ p with pools := p.pools.set idx { elem with count := (elem.count + 1) % 2 ^ 64 } },
      some q)

/-- `allocate(key, size, alignment)`: the pool afterwards and the pointer
returned. `block` is what `central_cache.allocate_node` returns if it is
called and `ptr` what `elem.alloc.allocate(size, alignment)` returns if it is
called. -/
def allocate (p : circular_stack_pool) (key _size _alignment : Nat) (block ptr : Option Nat) :
    circular_stack_pool × Option Nat :=
  let idx := key % p.pools.length
  match p.pools[idx]? with
  | Option.none => (p, Option.none)
  | some elem =>
    if !elem.alloc.is_init then
      let p := { p with central_cache :=
                  p.central_cache ++ [cache_call.allocate_node p.node_max_size block] }
      match block with
      | Option.none => ({ p with logger := p.logger ++ [pool_warning.no_block] }, Option.none)
      | some b =>
        allocate_from_block p idx { elem with key := key, alloc := { memblock := some b } }
          key ptr
    else allocate_from_block p idx elem key ptr

/-- `deallocate(key, p)`; the call `elem.alloc.deallocate(p)` changes nothing of
what is kept of the linear allocator. -/
def deallocate (p : circular_stack_pool) (key _ptr : Nat) : circular_stack_pool :=
  let idx := key % p.pools.length
  match p.pools[idx]? with
  | Option.none => p
  | some elem =>
    let elem := { elem with count := (elem.count + size_t_max) % 2 ^ 64 }
    if elem.count == 0 then
      let ptr := elem.alloc.memblock_ptr
      { p with pools := p.pools.set idx elem.clear,
               central_cache := p.central_cache ++ [cache_call.deallocate_node ptr] }
    else { p with pools := p.pools.set idx elem }

end circular_stack_pool

/-- A call on the pool, with the answers of the central cache and of the
linear allocator for an `allocate`. -/
inductive pool_call where
  | allocate (key size alignment : Nat) (block ptr : Option Nat)
  | deallocate (key ptr : Nat)
deriving DecidableEq, Repr

namespace circular_stack_pool

/-- A sequence of calls from the pool `s.1`, `s.2` being the allocations not
yet released, each as the pair of its key and the pointer returned: the pool
and the allocations not yet released afterwards; `none` when a `deallocate`
releases a pointer that is not among them. -/
def run : List pool_call → circular_stack_pool × List (Nat × Nat) →
    Option (circular_stack_pool × List (Nat × Nat))
  | [], s => some s
  | pool_call.allocate key size alignment block ptr :: cs, s =>
    run cs
      ((s.1.allocate key size alignment block ptr).1,
       match (s.1.allocate key size alignment block ptr).2 with
       | some q => (key, q) :: s.2
       | Option.none => s.2)
  | pool_call.deallocate key ptr :: cs, s =>
    if (key, ptr) ∈ s.2 then run cs (s.1.deallocate key ptr, s.2.erase (key, ptr))
    else Option.none

/-- The number of allocations of `out` that belong to the stack `idx` of
`NofStacks`. -/
def nof_allocations (NofStacks idx : Nat) (out : List (Nat × Nat)) : Nat :=
  out.countP (fun a => a.1 % NofStacks == idx)

/-- The bookkeeping of the element `elem` of index `idx`: its count is the
number of its allocations not yet released; with a positive count it holds a
block; a block it holds came from the central cache; and it holds a block with
a count of zero only if an `allocate` on it found no space in the block. -/
def elem_inv (NofStacks idx : Nat) (p : circular_stack_pool) (out : List (Nat × Nat))
    (elem : mem_block_elem_t) : Prop :=
  elem.count = nof_allocations NofStacks idx out ∧
  (0 < elem.count → elem.alloc.is_init = true) ∧
  (∀ b, elem.alloc.memblock = some b →
    cache_call.allocate_node p.node_max_size (some b) ∈ p.central_cache) ∧
  (elem.alloc.is_init = true → elem.count = 0 →
    ∃ key, pool_warning.no_space key ∈ p.logger ∧ key % NofStacks = idx)

/-- The bookkeeping of all elements of a pool of `NofStacks` stacks. -/
def inv (NofStacks : Nat) (p : circular_stack_pool) (out : List (Nat × Nat)) : Prop :=
  p.pools.length = NofStacks ∧
  ∀ idx elem, p.pools[idx]? = some elem → elem_inv NofStacks idx p out elem

end circular_stack_pool

/-- Example: a pool of two stacks with blocks of 256 bytes. -/
def ex_pool : circular_stack_pool := circular_stack_pool.init 2 256

end srsran

namespace SchedNr

end SchedNr

namespace srsran

/-- Example: on the pool of two stacks, an allocation with key 0 that takes
the block 100 and gets the pointer 1000, an allocation with key 2 (the same
stack) that gets the pointer 1016, and the release of the first. -/
def ex_pool_calls : List pool_call :=
  [pool_call.allocate 0 16 8 (some 100) (some 1000),
   pool_call.allocate 2 16 8 Option.none (some 1016),
   pool_call.deallocate 0 1000]

/-- Example: an allocation of 1000 bytes with key 0 that takes the block 100
from the central cache and finds no space in it. -/
def ex_pool_calls_no_space : List pool_call :=
  [pool_call.allocate 0 1000 8 (some 100) Option.none]

end srsran

namespace SchedNr

/-! ## Theorems -/

/-! ## Lemmas on the worker -/

namespace slot_cc_worker

theorem alloc_dl_ues_cases (G : grid_ops) (s : worker_scope) :
    (alloc_dl_ues G s = s ∧
      (s.worker.slot_ues = [] ∨ ∃ rnti ue rest, s.worker.slot_ues = (rnti, ue) :: rest ∧
        ue.h_dl = Option.none)) ∨
    (∃ rnti ue rest, s.worker.slot_ues = (rnti, ue) :: rest ∧ ue.h_dl ≠ Option.none ∧
      alloc_dl_ues G s = s.res_grid_call G (.alloc_pdsch ue
        (rbgmask_t.fill (rbgmask_t.init s.worker.cfg.nof_rbg) 0
          (rbgmask_t.init s.worker.cfg.nof_rbg).length true))) := by
  unfold alloc_dl_ues
  rcases hs : s.worker.slot_ues with _ | ⟨⟨rnti, ue⟩, rest⟩
  · simp
  · by_cases hd : ue.h_dl = Option.none
    · left
      exact ⟨by simp [hd], Or.inr ⟨rnti, ue, rest, rfl, hd⟩⟩
    · right
      exact ⟨rnti, ue, rest, rfl, hd, by simp [hd]⟩

theorem alloc_ul_ues_cases (G : grid_ops) (s : worker_scope) :
    (alloc_ul_ues G s = s ∧
      (s.worker.slot_ues = [] ∨ ∃ rnti ue rest, s.worker.slot_ues = (rnti, ue) :: rest ∧
        ue.h_ul = Option.none)) ∨
    (∃ rnti ue rest, s.worker.slot_ues = (rnti, ue) :: rest ∧ ue.h_ul ≠ Option.none ∧
      alloc_ul_ues G s = s.res_grid_call G (.alloc_pusch ue
        (rbgmask_t.fill (rbgmask_t.init s.worker.cfg.nof_rbg) 0
          (rbgmask_t.init s.worker.cfg.nof_rbg).length true))) := by
  unfold alloc_ul_ues
  rcases hs : s.worker.slot_ues with _ | ⟨⟨rnti, ue⟩, rest⟩
  · simp
  · by_cases hd : ue.h_ul = Option.none
    · left
      exact ⟨by simp [hd], Or.inr ⟨rnti, ue, rest, rfl, hd⟩⟩
    · right
      exact ⟨rnti, ue, rest, rfl, hd, by simp [hd]⟩

@[simp]
theorem res_grid_call_tti_rx (G : grid_ops) (c : grid_call) (s : worker_scope) :
    (s.res_grid_call G c).worker.tti_rx = s.worker.tti_rx := rfl

@[simp]
theorem res_grid_call_slot_ues (G : grid_ops) (c : grid_call) (s : worker_scope) :
    (s.res_grid_call G c).worker.slot_ues = s.worker.slot_ues := rfl

@[simp]
theorem res_grid_call_cfg (G : grid_ops) (c : grid_call) (s : worker_scope) :
    (s.res_grid_call G c).worker.cfg = s.worker.cfg := rfl

@[simp]
theorem res_grid_call_ue_db (G : grid_ops) (c : grid_call) (s : worker_scope) :
    (s.res_grid_call G c).ue_db = s.ue_db := rfl

@[simp]
theorem res_grid_call_res_grid (G : grid_ops) (c : grid_call) (s : worker_scope) :
    (s.res_grid_call G c).worker.res_grid = s.worker.res_grid ++ [c] := rfl

@[simp]
theorem alloc_dl_ues_tti_rx (G : grid_ops) (s : worker_scope) :
    (alloc_dl_ues G s).worker.tti_rx = s.worker.tti_rx := by
  rcases alloc_dl_ues_cases G s with ⟨h, _⟩ | ⟨_, _, _, _, _, h⟩ <;> simp [h]

@[simp]
theorem alloc_dl_ues_slot_ues (G : grid_ops) (s : worker_scope) :
    (alloc_dl_ues G s).worker.slot_ues = s.worker.slot_ues := by
  rcases alloc_dl_ues_cases G s with ⟨h, _⟩ | ⟨_, _, _, _, _, h⟩ <;> simp [h]

@[simp]
theorem alloc_dl_ues_cfg (G : grid_ops) (s : worker_scope) :
    (alloc_dl_ues G s).worker.cfg = s.worker.cfg := by
  rcases alloc_dl_ues_cases G s with ⟨h, _⟩ | ⟨_, _, _, _, _, h⟩ <;> simp [h]

@[simp]
theorem alloc_dl_ues_ue_db (G : grid_ops) (s : worker_scope) :
    (alloc_dl_ues G s).ue_db = s.ue_db := by
  rcases alloc_dl_ues_cases G s with ⟨h, _⟩ | ⟨_, _, _, _, _, h⟩ <;> simp [h]

@[simp]
theorem alloc_ul_ues_tti_rx (G : grid_ops) (s : worker_scope) :
    (alloc_ul_ues G s).worker.tti_rx = s.worker.tti_rx := by
  rcases alloc_ul_ues_cases G s with ⟨h, _⟩ | ⟨_, _, _, _, _, h⟩ <;> simp [h]

@[simp]
theorem alloc_ul_ues_slot_ues (G : grid_ops) (s : worker_scope) :
    (alloc_ul_ues G s).worker.slot_ues = s.worker.slot_ues := by
  rcases alloc_ul_ues_cases G s with ⟨h, _⟩ | ⟨_, _, _, _, _, h⟩ <;> simp [h]

@[simp]
theorem alloc_ul_ues_cfg (G : grid_ops) (s : worker_scope) :
    (alloc_ul_ues G s).worker.cfg = s.worker.cfg := by
  rcases alloc_ul_ues_cases G s with ⟨h, _⟩ | ⟨_, _, _, _, _, h⟩ <;> simp [h]

@[simp]
theorem alloc_ul_ues_ue_db (G : grid_ops) (s : worker_scope) :
    (alloc_ul_ues G s).ue_db = s.ue_db := by
  rcases alloc_ul_ues_cases G s with ⟨h, _⟩ | ⟨_, _, _, _, _, h⟩ <;> simp [h]

theorem alloc_dl_ues_res_grid (G : grid_ops) (s : worker_scope) :
    (alloc_dl_ues G s).worker.res_grid = s.worker.res_grid ++ new_calls (alloc_dl_ues G) s := by
  unfold new_calls
  rcases alloc_dl_ues_cases G s with ⟨h, _⟩ | ⟨_, _, _, _, _, h⟩ <;> simp [h]

theorem alloc_ul_ues_res_grid (G : grid_ops) (s : worker_scope) :
    (alloc_ul_ues G s).worker.res_grid = s.worker.res_grid ++ new_calls (alloc_ul_ues G) s := by
  unfold new_calls
  rcases alloc_ul_ues_cases G s with ⟨h, _⟩ | ⟨_, _, _, _, _, h⟩ <;> simp [h]

/-- What `run` returns on a running worker. -/
theorem run_running (G : grid_ops) (s : worker_scope) (h : s.worker.running = true) :
    run G s = .ok ((if s.worker.tti_rx.to_uint &&& 1 = 0 then alloc_ul_ues G (alloc_dl_ues G s)
      else alloc_dl_ues G (alloc_ul_ues G s)).res_grid_call G .generate_dcis) () := by
  simp [run, h]

theorem run_keeps_worker (G : grid_ops) (s s1 : worker_scope)
    (h : run G s = .ok s1 ()) :
    s1.worker.tti_rx = s.worker.tti_rx ∧ s1.worker.slot_ues = s.worker.slot_ues ∧
      s1.worker.cfg = s.worker.cfg ∧ s1.ue_db = s.ue_db := by
  unfold run at h
  split at h
  · cases h
  · injection h with h1 _
    subst h1
    split <;> simp

end slot_cc_worker
/-! ## The worker as a state machine -/

/-- C6: the slot worker is a two-state machine idle/running that is not
reentrant. For a TTI (a valid slot index): `start` on an idle worker returns
normally and leaves it running with `tti_rx` set to the given TTI, and on a
running worker it fails its assertion; `run` and `end_tti` return normally on a
running worker, `run` leaving it running and `end_tti` leaving it idle, and on
an idle worker they fail their assertion. A failed assertion leaves the state
as it was. -/
theorem worker_state_machine (G : grid_ops) (s : worker_scope) (tti : tti_point)
    (hv : tti.is_valid = true) :
    (s.worker.running = false →
      ∃ s1, slot_cc_worker.start G s tti = .ok s1 () ∧ s1.worker.running = true ∧
        s1.worker.tti_rx = tti) ∧
    (s.worker.running = true →
      slot_cc_worker.start G s tti =
        .fatal s "scheduler worker::start() called for active worker") ∧
    (s.worker.running = true →
      ∃ s1, slot_cc_worker.run G s = .ok s1 () ∧ s1.worker.running = true ∧
        s1.worker.tti_rx = s.worker.tti_rx) ∧
    (s.worker.running = false →
      slot_cc_worker.run G s = .fatal s "scheduler worker::run() called for non-active worker") ∧
    (s.worker.running = true →
      ∃ s1, slot_cc_worker.end_tti s = .ok s1 () ∧ s1.worker.running = false) ∧
    (s.worker.running = false →
      slot_cc_worker.end_tti s =
        .fatal s "scheduler worker::end() called for non-active worker") := by
  refine ⟨?_, ?_, ?_, ?_, ?_, ?_⟩
  · intro h
    refine ⟨_, by simp [slot_cc_worker.start, h]; rfl, ?_, ?_⟩
    · simpa [slot_cc_worker.running, worker_scope.res_grid_call] using hv
    · simp [worker_scope.res_grid_call]
  · intro h
    simp [slot_cc_worker.start, h]
  · intro h
    refine ⟨_, slot_cc_worker.run_running G s h, ?_⟩
    have hk := slot_cc_worker.run_keeps_worker G s _ (slot_cc_worker.run_running G s h)
    exact ⟨by rw [slot_cc_worker.running, hk.1]; exact h, hk.1⟩
  · intro h
    simp [slot_cc_worker.run, h]
  · intro h
    refine ⟨_, by simp [slot_cc_worker.end_tti, h]; rfl, ?_⟩
    simp [slot_cc_worker.running, tti_point.is_valid, tti_point.invalid, TTI_PERIOD]
  · intro h
    simp [slot_cc_worker.end_tti, h]

/-! ## Order of the allocation steps -/

namespace slot_cc_worker

theorem new_calls_alloc_dl_ues (G : grid_ops) (s : worker_scope) :
    ∀ c ∈ new_calls (alloc_dl_ues G) s, ∃ ue dlmask, c = grid_call.alloc_pdsch ue dlmask := by
  unfold new_calls
  rcases alloc_dl_ues_cases G s with ⟨h, _⟩ | ⟨_, ue, _, _, _, h⟩
  · simp [h]
  · simp [h]

theorem new_calls_alloc_ul_ues (G : grid_ops) (s : worker_scope) :
    ∀ c ∈ new_calls (alloc_ul_ues G) s, ∃ ue ulmask, c = grid_call.alloc_pusch ue ulmask := by
  unfold new_calls
  rcases alloc_ul_ues_cases G s with ⟨h, _⟩ | ⟨_, ue, _, _, _, h⟩
  · simp [h]
  · simp [h]

end slot_cc_worker

/-- C9: parity toggle. On a running worker `run` returns normally. At an even
TTI its state is that of the downlink step, then the uplink step, then
`generate_dcis`, and the calls it adds to the history of `res_grid` are those
of the downlink step, then those of the uplink step, then one `generate_dcis`.
At an odd TTI the uplink step comes first. The allocation steps only add
`alloc_pdsch` (downlink) and `alloc_pusch` (uplink) calls, so `generate_dcis`
is called exactly once, after both steps. -/
theorem run_parity_order (G : grid_ops) (s : worker_scope) (h : s.worker.running = true) :
    ∃ s1, slot_cc_worker.run G s = .ok s1 () ∧
      (s.worker.tti_rx.to_uint % 2 = 0 →
        s1 = (slot_cc_worker.alloc_ul_ues G (slot_cc_worker.alloc_dl_ues G s)).res_grid_call G
              .generate_dcis ∧
        s1.worker.res_grid = s.worker.res_grid ++
          (new_calls (slot_cc_worker.alloc_dl_ues G) s ++
            new_calls (slot_cc_worker.alloc_ul_ues G) (slot_cc_worker.alloc_dl_ues G s) ++
            [grid_call.generate_dcis])) ∧
      (s.worker.tti_rx.to_uint % 2 = 1 →
        s1 = (slot_cc_worker.alloc_dl_ues G (slot_cc_worker.alloc_ul_ues G s)).res_grid_call G
              .generate_dcis ∧
        s1.worker.res_grid = s.worker.res_grid ++
          (new_calls (slot_cc_worker.alloc_ul_ues G) s ++
            new_calls (slot_cc_worker.alloc_dl_ues G) (slot_cc_worker.alloc_ul_ues G s) ++
            [grid_call.generate_dcis])) ∧
      (∀ s0 : worker_scope, ∀ c ∈ new_calls (slot_cc_worker.alloc_dl_ues G) s0,
        ∃ ue dlmask, c = grid_call.alloc_pdsch ue dlmask) ∧
      (∀ s0 : worker_scope, ∀ c ∈ new_calls (slot_cc_worker.alloc_ul_ues G) s0,
        ∃ ue ulmask, c = grid_call.alloc_pusch ue ulmask) ∧
      (s1.worker.res_grid.drop s.worker.res_grid.length).count grid_call.generate_dcis = 1 := by
  refine ⟨_, slot_cc_worker.run_running G s h, ?_, ?_, slot_cc_worker.new_calls_alloc_dl_ues G,
    slot_cc_worker.new_calls_alloc_ul_ues G, ?_⟩
  · intro hp
    have hp1 : s.worker.tti_rx.to_uint &&& 1 = 0 := by rw [Nat.and_one_is_mod]; exact hp
    simp only [hp1, if_true]
    refine ⟨trivial, ?_⟩
    simp [slot_cc_worker.alloc_ul_ues_res_grid, slot_cc_worker.alloc_dl_ues_res_grid]
  · intro hp
    have hp1 : ¬ (s.worker.tti_rx.to_uint &&& 1 = 0) := by rw [Nat.and_one_is_mod]; omega
    simp only [hp1, if_false]
    refine ⟨trivial, ?_⟩
    simp [slot_cc_worker.alloc_ul_ues_res_grid, slot_cc_worker.alloc_dl_ues_res_grid]
  · have hd := slot_cc_worker.new_calls_alloc_dl_ues G
    have hu := slot_cc_worker.new_calls_alloc_ul_ues G
    have e1 : ∀ s0, (new_calls (slot_cc_worker.alloc_dl_ues G) s0).count
        grid_call.generate_dcis = 0 := by
      intro s0
      rw [List.count_eq_zero]
      intro hm
      obtain ⟨_, _, hc⟩ := hd s0 _ hm
      cases hc
    have e2 : ∀ s0, (new_calls (slot_cc_worker.alloc_ul_ues G) s0).count
        grid_call.generate_dcis = 0 := by
      intro s0
      rw [List.count_eq_zero]
      intro hm
      obtain ⟨_, _, hc⟩ := hu s0 _ hm
      cases hc
    split
    · simp [slot_cc_worker.alloc_ul_ues_res_grid, slot_cc_worker.alloc_dl_ues_res_grid, e1, e2]
    · simp [slot_cc_worker.alloc_ul_ues_res_grid, slot_cc_worker.alloc_dl_ues_res_grid, e1, e2]

/-- Witness of C6 at a worker started at TTI 4: a second `start` fails, and
`end_tti` returns it to idle. -/
theorem worker_state_machine_witness :
    (tti_point.mk 5).is_valid = true ∧
    slot_cc_worker.start (grid_ops.record 4) (ex_running_scope ex_ue_db_first_busy ⟨4⟩) ⟨5⟩ =
      .fatal (ex_running_scope ex_ue_db_first_busy ⟨4⟩)
        "scheduler worker::start() called for active worker" ∧
    ∃ s1, slot_cc_worker.end_tti (ex_running_scope ex_ue_db_first_busy ⟨4⟩) = .ok s1 () ∧
      s1.worker.running = false :=
  ⟨by decide,
   (worker_state_machine (grid_ops.record 4) (ex_running_scope ex_ue_db_first_busy ⟨4⟩) ⟨5⟩
      (by decide)).2.1 (by decide),
   (worker_state_machine (grid_ops.record 4) (ex_running_scope ex_ue_db_first_busy ⟨4⟩) ⟨5⟩
      (by decide)).2.2.2.2.1 (by decide)⟩

/-- Witness of C9 at a worker started at the even TTI 4 with one reserved UE
that has pending data in both directions: the downlink grant is recorded
first. -/
theorem run_parity_order_witness :
    (ex_running_scope ex_ue_db_first_busy ⟨4⟩).worker.running = true ∧
    ∃ s1, slot_cc_worker.run (grid_ops.record 4) (ex_running_scope ex_ue_db_first_busy ⟨4⟩) =
        .ok s1 () ∧
      (s1.worker.res_grid.drop
        (ex_running_scope ex_ue_db_first_busy ⟨4⟩).worker.res_grid.length).count
          grid_call.generate_dcis = 1 :=
  ⟨by decide,
   (run_parity_order (grid_ops.record 4) (ex_running_scope ex_ue_db_first_busy ⟨4⟩)
      (by decide)).imp (fun _ hs => ⟨hs.1, hs.2.2.2.2.2⟩)⟩

/-! ## Which UE is granted -/

namespace slot_cc_worker

theorem new_calls_alloc_dl_ues_eq (G : grid_ops) (s : worker_scope) :
    new_calls (alloc_dl_ues G) s =
      match s.worker.slot_ues with
      | [] => []
      | (_, ue) :: _ =>
        if ue.h_dl = Option.none then []
        else [grid_call.alloc_pdsch ue (rbgmask_t.fill (rbgmask_t.init s.worker.cfg.nof_rbg) 0
          (rbgmask_t.init s.worker.cfg.nof_rbg).length true)] := by
  unfold new_calls
  rcases alloc_dl_ues_cases G s with ⟨h, h1 | ⟨_, _, _, h1, h2⟩⟩ | ⟨_, ue, _, h1, h2, h⟩
  · simp [h, h1]
  · simp [h, h1, h2]
  · simp [h, h1, h2]

theorem new_calls_alloc_ul_ues_eq (G : grid_ops) (s : worker_scope) :
    new_calls (alloc_ul_ues G) s =
      match s.worker.slot_ues with
      | [] => []
      | (_, ue) :: _ =>
        if ue.h_ul = Option.none then []
        else [grid_call.alloc_pusch ue (rbgmask_t.fill (rbgmask_t.init s.worker.cfg.nof_rbg) 0
          (rbgmask_t.init s.worker.cfg.nof_rbg).length true)] := by
  unfold new_calls
  rcases alloc_ul_ues_cases G s with ⟨h, h1 | ⟨_, _, _, h1, h2⟩⟩ | ⟨_, ue, _, h1, h2, h⟩
  · simp [h, h1]
  · simp [h, h1, h2]
  · simp [h, h1, h2]

/-- The calls that `run` adds to the history: those of the two allocation steps
(in the order given by the parity of the TTI), then `generate_dcis`. -/
theorem run_new_calls (G : grid_ops) (s s1 : worker_scope) (h : run G s = .ok s1 ()) :
    s1.worker.res_grid.drop s.worker.res_grid.length =
      (if s.worker.tti_rx.to_uint &&& 1 = 0 then
        new_calls (alloc_dl_ues G) s ++ new_calls (alloc_ul_ues G) s
      else new_calls (alloc_ul_ues G) s ++ new_calls (alloc_dl_ues G) s) ++
      [grid_call.generate_dcis] := by
  unfold run at h
  split at h
  · cases h
  · injection h with h1 _
    subst h1
    have e1 : new_calls (alloc_ul_ues G) (alloc_dl_ues G s) = new_calls (alloc_ul_ues G) s := by
      rw [new_calls_alloc_ul_ues_eq, new_calls_alloc_ul_ues_eq]; simp
    have e2 : new_calls (alloc_dl_ues G) (alloc_ul_ues G s) = new_calls (alloc_dl_ues G) s := by
      rw [new_calls_alloc_dl_ues_eq, new_calls_alloc_dl_ues_eq]; simp
    split
    · simp [alloc_ul_ues_res_grid, alloc_dl_ues_res_grid, e1]
    · simp [alloc_ul_ues_res_grid, alloc_dl_ues_res_grid, e2]

end slot_cc_worker

/-- C10, as stated, fails: a worker started at TTI 4 reserves two UEs, of
which the second has pending downlink and uplink data and the first has none;
`run` then records no grant at all, only `generate_dcis`. -/
theorem run_skips_pending_ue :
    (ex_running_scope ex_ue_db_second_pending ⟨4⟩).worker.running = true ∧
    (∃ p ∈ (ex_running_scope ex_ue_db_second_pending ⟨4⟩).worker.slot_ues,
      p.2.h_dl ≠ Option.none) ∧
    (∃ p ∈ (ex_running_scope ex_ue_db_second_pending ⟨4⟩).worker.slot_ues,
      p.2.h_ul ≠ Option.none) ∧
    ∃ s1, slot_cc_worker.run (grid_ops.record 4)
        (ex_running_scope ex_ue_db_second_pending ⟨4⟩) = .ok s1 () ∧
      s1.worker.res_grid.drop
        (ex_running_scope ex_ue_db_second_pending ⟨4⟩).worker.res_grid.length =
          [grid_call.generate_dcis] := by
  refine ⟨by decide, by decide, by decide, _, rfl, by decide⟩

/-- C10, amended: `run` on a running worker returns normally and looks at the
first reserved UE only (`slot_ues.begin()`). When that UE has pending downlink
data (`h_dl` non-null) `run` records exactly one downlink grant, for that UE;
when it has none, or when no UE is reserved, `run` records no downlink grant.
The same holds for the uplink with `h_ul`. -/
theorem run_grants_first_ue (G : grid_ops) (s : worker_scope) (h : s.worker.running = true) :
    ∃ s1, slot_cc_worker.run G s = .ok s1 () ∧
      (∀ rnti ue rest, s.worker.slot_ues = (rnti, ue) :: rest →
        (ue.h_dl ≠ Option.none →
          ∃ dlmask, (s1.worker.res_grid.drop s.worker.res_grid.length).filter
            (fun c => match c with | .alloc_pdsch _ _ => true | _ => false) =
              [grid_call.alloc_pdsch ue dlmask]) ∧
        (ue.h_dl = Option.none →
          ∀ ue1 dlmask, grid_call.alloc_pdsch ue1 dlmask ∉
            s1.worker.res_grid.drop s.worker.res_grid.length) ∧
        (ue.h_ul ≠ Option.none →
          ∃ ulmask, (s1.worker.res_grid.drop s.worker.res_grid.length).filter
            (fun c => match c with | .alloc_pusch _ _ => true | _ => false) =
              [grid_call.alloc_pusch ue ulmask]) ∧
        (ue.h_ul = Option.none →
          ∀ ue1 ulmask, grid_call.alloc_pusch ue1 ulmask ∉
            s1.worker.res_grid.drop s.worker.res_grid.length)) ∧
      (s.worker.slot_ues = [] →
        s1.worker.res_grid.drop s.worker.res_grid.length = [grid_call.generate_dcis]) := by
  refine ⟨_, slot_cc_worker.run_running G s h, ?_, ?_⟩
  · intro rnti ue rest hs
    rw [slot_cc_worker.run_new_calls G s _ (slot_cc_worker.run_running G s h),
      slot_cc_worker.new_calls_alloc_dl_ues_eq, slot_cc_worker.new_calls_alloc_ul_ues_eq, hs]
    refine ⟨?_, ?_, ?_, ?_⟩
    · intro hd
      refine ⟨rbgmask_t.fill (rbgmask_t.init s.worker.cfg.nof_rbg) 0
          (rbgmask_t.init s.worker.cfg.nof_rbg).length true, ?_⟩
      by_cases hu : ue.h_ul = Option.none <;> split <;> simp [hd, hu, List.filter]
    · intro hd ue1 m
      by_cases hu : ue.h_ul = Option.none <;> split <;> simp [hd, hu]
    · intro hu
      refine ⟨rbgmask_t.fill (rbgmask_t.init s.worker.cfg.nof_rbg) 0
          (rbgmask_t.init s.worker.cfg.nof_rbg).length true, ?_⟩
      by_cases hd : ue.h_dl = Option.none <;> split <;> simp [hd, hu, List.filter]
    · intro hu ue1 m
      by_cases hd : ue.h_dl = Option.none <;> split <;> simp [hd, hu]
  · intro hs
    rw [slot_cc_worker.run_new_calls G s _ (slot_cc_worker.run_running G s h),
      slot_cc_worker.new_calls_alloc_dl_ues_eq, slot_cc_worker.new_calls_alloc_ul_ues_eq, hs]
    simp

/-- Witness of the amended C10 at a worker started at TTI 4 whose only
reserved UE has pending data in both directions. -/
theorem run_grants_first_ue_witness :
    (ex_running_scope ex_ue_db_first_busy ⟨4⟩).worker.running = true ∧
    ∃ s1, slot_cc_worker.run (grid_ops.record 4) (ex_running_scope ex_ue_db_first_busy ⟨4⟩) =
      .ok s1 () :=
  ⟨by decide,
   (run_grants_first_ue (grid_ops.record 4) (ex_running_scope ex_ue_db_first_busy ⟨4⟩)
      (by decide)).imp (fun _ hs => hs.1)⟩

/-! ## Reservations made by `start` -/

theorem lookup_eq_none_of_not_mem (m : slot_ue_map_t) (rnti : Nat)
    (h : rnti ∉ m.map Prod.fst) : List.lookup rnti m = Option.none := by
  induction m with
  | nil => rfl
  | cons p rest ih =>
    obtain ⟨k, v⟩ := p
    simp only [List.map_cons, List.mem_cons, not_or] at h
    have hk : (rnti == k) = false := by simpa using h.1
    simp [List.lookup, hk, ih h.2]

theorem lookup_append_of_not_mem (m : slot_ue_map_t) (rnti : Nat) (v : slot_ue)
    (h : rnti ∉ m.map Prod.fst) : List.lookup rnti (m ++ [(rnti, v)]) = some v := by
  induction m with
  | nil => simp [List.lookup]
  | cons p rest ih =>
    obtain ⟨k, w⟩ := p
    simp only [List.map_cons, List.mem_cons, not_or] at h
    have hk : (rnti == k) = false := by simpa using h.1
    simp only [List.cons_append, List.lookup, hk]
    exact ih h.2

theorem erase_of_not_mem (m : slot_ue_map_t) (rnti : Nat)
    (h : rnti ∉ m.map Prod.fst) : slot_ue_map_t.erase m rnti = m := by
  unfold slot_ue_map_t.erase
  rw [List.filter_eq_self]
  intro p hp
  have : p.1 ≠ rnti := fun e => h (e ▸ List.mem_map_of_mem Prod.fst hp)
  simpa using this

theorem lookup_filterMap (f : Nat × ue → Option slot_ue) (l : ue_map_t)
    (hnd : (l.map Prod.fst).Nodup) :
    ∀ p ∈ l, List.lookup p.1 (l.filterMap (fun q => (f q).map (fun v => (q.1, v)))) = f p := by
  induction l with
  | nil => intro p hp; cases hp
  | cons q rest ih =>
    intro p hp
    simp only [List.map_cons, List.nodup_cons] at hnd
    have hkeys : ∀ k, k ∉ rest.map Prod.fst →
        k ∉ (rest.filterMap (fun q => (f q).map (fun v => (q.1, v)))).map Prod.fst := by
      intro k hk hm
      simp only [List.mem_map, List.mem_filterMap, Option.map_eq_some'] at hm
      obtain ⟨e, ⟨q1, hq1, v, _, rfl⟩, rfl⟩ := hm
      exact hk (List.mem_map_of_mem Prod.fst hq1)
    rcases List.mem_cons.mp hp with rfl | hp1
    · rcases hf : f p with _ | v
      · simp only [List.filterMap_cons, hf, Option.map_none']
        exact lookup_eq_none_of_not_mem _ _ (hkeys _ hnd.1)
      · simp [List.filterMap_cons, hf, List.lookup]
    · have hne : (p.1 == q.1) = false := by
        have : p.1 ≠ q.1 := fun e => hnd.1 (e ▸ List.mem_map_of_mem Prod.fst hp1)
        simpa using this
      rcases hf : f q with _ | v
      · simp only [List.filterMap_cons, hf, Option.map_none']
        exact ih hnd.2 p hp1
      · simp only [List.filterMap_cons, hf, Option.map_some', List.lookup, hne]
        exact ih hnd.2 p hp1

namespace slot_cc_worker

/-- One iteration of the loop of `start` when the key is not yet in the map. -/
theorem start_ue_of_not_mem (tti_rx : tti_point) (cc rnti : Nat) (u : ue)
    (acc : slot_ue_map_t) (h : rnti ∉ acc.map Prod.fst) :
    start_ue tti_rx cc rnti u acc =
      (if (u.try_reserve tti_rx cc).1.empty then acc
        else acc ++ [(rnti, (u.try_reserve tti_rx cc).1)], (u.try_reserve tti_rx cc).2) := by
  have hc : slot_ue_map_t.contains acc rnti = false := by
    simp [slot_ue_map_t.contains, lookup_eq_none_of_not_mem acc rnti h]
  have hg : slot_ue_map_t.get (acc ++ [(rnti, (u.try_reserve tti_rx cc).1)]) rnti =
      (u.try_reserve tti_rx cc).1 := by
    simp [slot_ue_map_t.get, lookup_append_of_not_mem acc rnti _ h]
  have he : slot_ue_map_t.erase (acc ++ [(rnti, (u.try_reserve tti_rx cc).1)]) rnti = acc := by
    have := erase_of_not_mem acc rnti h
    unfold slot_ue_map_t.erase at this ⊢
    simp [List.filter_append, this]
  simp only [start_ue, slot_ue_map_t.insert, hc, Bool.false_eq_true, if_false, if_true]
  rw [hg, he]
  split <;> rfl

/-- The loop of `start` on a table with distinct keys, none of them in the map
yet: every UE is left as `try_reserve` leaves it and the non-empty
reservations are appended to the map. -/
theorem start_loop_eq (tti_rx : tti_point) (cc : Nat) (ue_db : ue_map_t) :
    ∀ acc : slot_ue_map_t, (ue_db.map Prod.fst).Nodup →
      (∀ k ∈ ue_db.map Prod.fst, k ∉ acc.map Prod.fst) →
      start_loop tti_rx cc ue_db acc =
        (ue_db.map (fun p => (p.1, (p.2.try_reserve tti_rx cc).2)),
         acc ++ ue_db.filterMap (fun p =>
           if (p.2.try_reserve tti_rx cc).1.empty then Option.none
           else some (p.1, (p.2.try_reserve tti_rx cc).1))) := by
  induction ue_db with
  | nil => intro acc _ _; simp [start_loop]
  | cons p rest ih =>
    intro acc hnd hdisj
    obtain ⟨rnti, u⟩ := p
    simp only [List.map_cons, List.nodup_cons] at hnd
    have hk : rnti ∉ acc.map Prod.fst := hdisj rnti (by simp)
    have hrest : ∀ k ∈ rest.map Prod.fst, k ∉ acc.map Prod.fst :=
      fun k hk1 => hdisj k (by simp only [List.map_cons, List.mem_cons]; exact Or.inr hk1)
    simp only [start_loop, start_ue_of_not_mem tti_rx cc rnti u acc hk]
    by_cases hemp : (u.try_reserve tti_rx cc).1.empty = true
    · simp only [hemp, if_true]
      rw [ih acc hnd.2 hrest]
      simp [List.filterMap_cons, hemp]
    · simp only [hemp, Bool.false_eq_true, if_false]
      rw [ih _ hnd.2]
      · simp [List.filterMap_cons, hemp]
      · intro k hk1
        simp only [List.map_append, List.mem_append, not_or]
        refine ⟨hrest k hk1, ?_⟩
        simp only [List.map_cons, List.map_nil, List.mem_singleton]
        intro e
        exact hnd.1 (e ▸ hk1)

end slot_cc_worker

/-- C7: `start` reserves by skipping failures. On an idle worker (its
`slot_ues` is empty) and a UE table with distinct RNTIs, `start` returns
normally, and afterwards `slot_ues` holds exactly the UEs of the table whose
`try_reserve(tti, cc)` returned a non-empty reservation, each under its RNTI
and in the order of the table; a UE whose attempt failed is absent. -/
theorem start_reserves_skipping_failures (G : grid_ops) (s : worker_scope) (tti : tti_point)
    (hidle : s.worker.running = false) (hempty : s.worker.slot_ues = [])
    (hnd : (s.ue_db.map Prod.fst).Nodup) :
    ∃ s1, slot_cc_worker.start G s tti = .ok s1 () ∧
      s1.worker.slot_ues = s.ue_db.filterMap (fun p =>
        if (p.2.try_reserve tti s.worker.cfg.cc).1.empty then Option.none
        else some (p.1, (p.2.try_reserve tti s.worker.cfg.cc).1)) ∧
      (∀ p ∈ s.ue_db, (p.2.try_reserve tti s.worker.cfg.cc).1.empty = true →
        slot_ue_map_t.contains s1.worker.slot_ues p.1 = false) ∧
      (∀ p ∈ s.ue_db, (p.2.try_reserve tti s.worker.cfg.cc).1.empty = false →
        List.lookup p.1 s1.worker.slot_ues = some (p.2.try_reserve tti s.worker.cfg.cc).1) := by
  have hl := slot_cc_worker.start_loop_eq tti s.worker.cfg.cc s.ue_db [] hnd (by simp)
  have hs : ∃ s1, slot_cc_worker.start G s tti = .ok s1 () ∧
      s1.worker.slot_ues = s.ue_db.filterMap (fun p =>
        if (p.2.try_reserve tti s.worker.cfg.cc).1.empty then Option.none
        else some (p.1, (p.2.try_reserve tti s.worker.cfg.cc).1)) := by
    refine ⟨_, by simp [slot_cc_worker.start, hidle]; rfl, ?_⟩
    simp [worker_scope.res_grid_call, hempty, hl]
  obtain ⟨s1, h1, h2⟩ := hs
  have hf : (fun p : Nat × ue =>
        if (p.2.try_reserve tti s.worker.cfg.cc).1.empty then Option.none
        else some (p.1, (p.2.try_reserve tti s.worker.cfg.cc).1)) =
      (fun q => (if (q.2.try_reserve tti s.worker.cfg.cc).1.empty then Option.none
        else some (q.2.try_reserve tti s.worker.cfg.cc).1).map (fun v => (q.1, v))) := by
    funext p
    split <;> rfl
  have hlk := lookup_filterMap (fun q => if (q.2.try_reserve tti s.worker.cfg.cc).1.empty
    then Option.none else some (q.2.try_reserve tti s.worker.cfg.cc).1) s.ue_db hnd
  refine ⟨s1, h1, h2, ?_, ?_⟩
  · intro p hp hemp
    rw [h2, hf, slot_ue_map_t.contains, hlk p hp]
    simp [hemp]
  · intro p hp hemp
    rw [h2, hf, hlk p hp]
    simp [hemp]

/-- Witness of C7 at an idle worker and a table whose first UE, RNTI 70, is
held by another worker: after `start` at TTI 4, 70 is absent and 71 is
reserved. -/
theorem start_reserves_skipping_failures_witness :
    (ex_idle_scope ex_ue_db_first_busy).worker.running = false ∧
    (ex_idle_scope ex_ue_db_first_busy).worker.slot_ues = [] ∧
    ((ex_idle_scope ex_ue_db_first_busy).ue_db.map Prod.fst).Nodup ∧
    ∃ s1, slot_cc_worker.start (grid_ops.record 4) (ex_idle_scope ex_ue_db_first_busy) ⟨4⟩ =
        .ok s1 () ∧
      slot_ue_map_t.contains s1.worker.slot_ues 70 = false ∧
      slot_ue_map_t.contains s1.worker.slot_ues 71 = true :=
  ⟨by decide, rfl, by decide,
   (start_reserves_skipping_failures (grid_ops.record 4) (ex_idle_scope ex_ue_db_first_busy) ⟨4⟩
      (by decide) rfl (by decide)).imp (fun _ hs =>
        ⟨hs.1,
         hs.2.2.1 (70, { rnti := 70, busy := true, h_dl := some 0, h_ul := some 1 })
           (by decide) (by decide),
         by
          have h := hs.2.2.2 (71, { rnti := 71, busy := false, h_dl := some 0, h_ul := some 1 })
            (by decide) (by decide)
          simp [slot_ue_map_t.contains, h]⟩)⟩

/-! ## Lemmas on the manager -/

namespace sched_worker_manager

theorem put_eq (m : sched_worker_manager) (i cc : Nat) (s : worker_scope)
    (ctx : slot_worker_ctxt) (h : m.slot_ctxts[i]? = some ctx) :
    m.put i cc s =
      { slot_ctxts := m.slot_ctxts.set i { ctx with workers := ctx.workers.set cc s.worker }
        phy_grid := m.phy_grid.set cc s.grid
        ue_db := s.ue_db } := by
  simp [put, h]

/-- What a normal return of `on_worker` means. -/
theorem on_worker_ok (m m1 : sched_worker_manager) (i cc : Nat)
    (f : worker_scope → result worker_scope Unit) (h : m.on_worker i cc f = .ok m1 ()) :
    ∃ ctx w g s1, m.slot_ctxts[i]? = some ctx ∧ ctx.workers[cc]? = some w ∧
      m.phy_grid[cc]? = some g ∧ f { worker := w, ue_db := m.ue_db, grid := g } = .ok s1 () ∧
      m1 = m.put i cc s1 := by
  unfold on_worker at h
  rcases hc : m.slot_ctxts[i]? with _ | ctx
  · simp [hc] at h
  · rcases hw : ctx.workers[cc]? with _ | w
    · simp [hc, hw] at h
    · rcases hg : m.phy_grid[cc]? with _ | g
      · simp [hc, hw, hg] at h
      · simp only [hc, hw, hg] at h
        rcases hf : f { worker := w, ue_db := m.ue_db, grid := g } with ⟨s1, u⟩ | ⟨s1, msg⟩
        · simp only [hf] at h
          injection h with h1 _
          exact ⟨ctx, w, g, s1, rfl, hw, rfl, hf, h1.symm⟩
        · simp [hf] at h

/-- When `on_worker` returns normally. -/
theorem on_worker_eq (m : sched_worker_manager) (i cc : Nat)
    (f : worker_scope → result worker_scope Unit) (ctx : slot_worker_ctxt) (w : slot_cc_worker)
    (g : phy_cell_rb_grid) (s1 : worker_scope) (hc : m.slot_ctxts[i]? = some ctx)
    (hw : ctx.workers[cc]? = some w) (hg : m.phy_grid[cc]? = some g)
    (hf : f { worker := w, ue_db := m.ue_db, grid := g } = .ok s1 ()) :
    m.on_worker i cc f = .ok (m.put i cc s1) () := by
  simp [on_worker, hc, hw, hg, hf]

theorem for_workers_post (i : Nat) (f : worker_scope → result worker_scope Unit)
    (R : slot_cc_worker → Prop) (hR : ∀ s s1, f s = .ok s1 () → R s1.worker) :
    ∀ (ccs : List Nat) (m m1 : sched_worker_manager) (ctx : slot_worker_ctxt), ccs.Nodup →
      m.slot_ctxts[i]? = some ctx → for_workers i f ccs m = .ok m1 () →
      loop_post R i ccs m m1 ctx := by
  intro ccs
  induction ccs with
  | nil =>
    intro m m1 ctx _ hc h
    simp only [for_workers] at h
    injection h with h1 _
    subst h1
    exact ⟨ctx, hc, rfl, rfl, rfl, rfl, by simp, by simp, rfl, by simp, rfl, by simp⟩
  | cons cc rest ih =>
    intro m m1 ctx hnd hc h
    simp only [List.nodup_cons] at hnd
    simp only [for_workers] at h
    rcases ho : m.on_worker i cc f with ⟨m2, u⟩ | ⟨m2, msg⟩
    · simp only [ho] at h
      obtain ⟨ctx0, w, g, s1, hc0, hw, hg, hf, rfl⟩ := on_worker_ok m m2 i cc f ho
      rw [hc] at hc0
      injection hc0 with hc0
      subst hc0
      have hi : i < m.slot_ctxts.length := by
        rcases Nat.lt_or_ge i m.slot_ctxts.length with h1 | h1
        · exact h1
        · rw [List.getElem?_eq_none h1] at hc; cases hc
      have hcc : cc < ctx.workers.length := by
        rcases Nat.lt_or_ge cc ctx.workers.length with h1 | h1
        · exact h1
        · rw [List.getElem?_eq_none h1] at hw; cases hw
      have hgl : cc < m.phy_grid.length := by
        rcases Nat.lt_or_ge cc m.phy_grid.length with h1 | h1
        · exact h1
        · rw [List.getElem?_eq_none h1] at hg; cases hg
      have hp := put_eq m i cc s1 ctx hc
      have hc2 : (m.put i cc s1).slot_ctxts[i]? =
          some { ctx with workers := ctx.workers.set cc s1.worker } := by
        rw [hp]; simp [hi]
      obtain ⟨ctx1, h1, h2, h3, h4, h5, h6, h7, h8, h9, h10, h11⟩ :=
        ih (m.put i cc s1) m1 _ hnd.2 hc2 h
      refine ⟨ctx1, h1, h2, h3, h4, by simpa using h5, ?_, ?_, ?_, ?_, ?_, ?_⟩
      · intro c hcm
        rcases List.mem_cons.mp hcm with rfl | hcm
        · refine ⟨s1.worker, ?_, hR _ _ hf⟩
          rw [h7 c hnd.1]
          simp [hcc]
        · exact h6 c hcm
      · intro c hcm
        simp only [List.mem_cons, not_or] at hcm
        rw [h7 c hcm.2]
        simp [List.getElem?_set, Ne.symm hcm.1]
      · rw [h8, hp]; simp
      · intro j hj
        rw [h9 j hj, hp]
        simp [List.getElem?_set, Ne.symm hj]
      · rw [h10, hp]; simp
      · intro c hcm
        rcases List.mem_cons.mp hcm with rfl | hcm
        · exact hgl
        · have := h11 c hcm
          rw [hp] at this
          simpa using this
    · simp [ho] at h

end sched_worker_manager

namespace sched_worker_manager

theorem lt_length_of_getElem?_eq_some {α : Type} (l : List α) (i : Nat) (a : α)
    (h : l[i]? = some a) : i < l.length := by
  rcases Nat.lt_or_ge i l.length with h1 | h1
  · exact h1
  · rw [List.getElem?_eq_none h1] at h; cases h

theorem for_workers_ok (i : Nat) (f : worker_scope → result worker_scope Unit)
    (Q : slot_cc_worker → Prop) (hQ : ∀ s, Q s.worker → ∃ s1, f s = .ok s1 ()) :
    ∀ (ccs : List Nat) (m : sched_worker_manager) (ctx : slot_worker_ctxt), ccs.Nodup →
      m.slot_ctxts[i]? = some ctx → (∀ cc ∈ ccs, ∃ w, ctx.workers[cc]? = some w ∧ Q w) →
      (∀ cc ∈ ccs, cc < m.phy_grid.length) → ∃ m1, for_workers i f ccs m = .ok m1 () := by
  intro ccs
  induction ccs with
  | nil => intro m ctx _ _ _ _; exact ⟨m, rfl⟩
  | cons cc rest ih =>
    intro m ctx hnd hc hw hg
    simp only [List.nodup_cons] at hnd
    obtain ⟨w, hw1, hq⟩ := hw cc (by simp)
    have hgl := hg cc (by simp)
    obtain ⟨s1, hf⟩ := hQ { worker := w, ue_db := m.ue_db, grid := m.phy_grid[cc] } hq
    have ho := on_worker_eq m i cc f ctx w (m.phy_grid[cc]) s1 hc hw1
      (by simp [hgl]) hf
    have hi := lt_length_of_getElem?_eq_some _ _ _ hc
    have hp := put_eq m i cc s1 ctx hc
    have hc2 : (m.put i cc s1).slot_ctxts[i]? =
        some { ctx with workers := ctx.workers.set cc s1.worker } := by
      rw [hp]; simp [hi]
    obtain ⟨m1, h1⟩ := ih (m.put i cc s1) _ hnd.2 hc2
      (by
        intro c hcm
        obtain ⟨w2, hw2, hq2⟩ := hw c (by simp [hcm])
        refine ⟨w2, ?_, hq2⟩
        have hne : cc ≠ c := fun e => hnd.1 (e ▸ hcm)
        simp [List.getElem?_set, hne, hw2])
      (by
        intro c hcm
        rw [hp]
        simpa using hg c (by simp [hcm]))
    exact ⟨m1, by simp only [for_workers, ho]; exact h1⟩

/-- What a normal return of `finish_run` means. -/
theorem finish_run_ok (m m1 : sched_worker_manager) (i cc : Nat) (r r1 : slot_res_t) (b : Bool)
    (h : finish_run m i cc r = .ok (m1, r1) b) :
    ∃ ctx, m.slot_ctxts[i]? = some ctx ∧ r1 = r ∧ 1 ≤ ctx.worker_count ∧
      b = decide (ctx.worker_count = 1) ∧
      m1.slot_ctxts = m.slot_ctxts.set i { ctx with worker_count := ctx.worker_count - 1 } ∧
      m1.ue_db = m.ue_db ∧
      m1.phy_grid = (if b then m.phy_grid.set cc
          (phy_cell_rb_grid.reset_at (m.phy_grid.getD cc []) ctx.tti_rx.to_uint)
        else m.phy_grid) := by
  unfold finish_run at h
  rcases hc : m.slot_ctxts[i]? with _ | ctx
  · simp [hc] at h
  · simp only [hc] at h
    refine ⟨ctx, rfl, ?_⟩
    by_cases h1 : ctx.worker_count - 1 < 0
    · simp [h1] at h
    · by_cases h2 : ctx.worker_count - 1 = 0
      · simp only [h1, h2, if_false, if_true] at h
        injection h with h3 h4
        injection h3 with h5 h6
        subst h5 h6 h4
        have : ctx.worker_count = 1 := by omega
        simp [this]
      · simp only [h1, h2, if_false] at h
        injection h with h3 h4
        injection h3 with h5 h6
        subst h5 h6 h4
        have : ¬ ctx.worker_count = 1 := by omega
        refine ⟨rfl, by omega, by simp [this], rfl, rfl, by simp⟩

/-- When `finish_run` returns normally. -/
theorem finish_run_eq (m : sched_worker_manager) (i cc : Nat) (r : slot_res_t)
    (ctx : slot_worker_ctxt) (hc : m.slot_ctxts[i]? = some ctx) (hk : 1 ≤ ctx.worker_count) :
    ∃ m1, finish_run m i cc r = .ok (m1, r) (decide (ctx.worker_count = 1)) := by
  unfold finish_run
  simp only [hc]
  have h1 : ¬ ctx.worker_count - 1 < 0 := by omega
  by_cases h2 : ctx.worker_count - 1 = 0
  · have : ctx.worker_count = 1 := by omega
    exact ⟨_, by simp [this]; rfl⟩
  · have : ¬ ctx.worker_count = 1 := by omega
    exact ⟨_, by simp only [h1, h2, if_false, this, decide_False]; rfl⟩

/-- What a normal return of `run_tti` means. -/
theorem run_tti_ok (G : grid_ops) (D : Nat) (m m2 : sched_worker_manager) (t : tti_point)
    (cc : Nat) (r r2 : slot_res_t) (b : Bool) (h : m.run_tti G D t cc r = .ok (m2, r2) b) :
    ∃ ctx m1, m.slot_ctxts[m.get_sf t]? = some ctx ∧ ctx.tti_rx = t ∧
      m.on_worker (m.get_sf t) cc (slot_cc_worker.run G) = .ok m1 () ∧
      finish_run m1 (m.get_sf t) cc (copy_result D m1 t cc r) = .ok (m2, r2) b := by
  unfold run_tti at h
  rcases hc : m.slot_ctxts[m.get_sf t]? with _ | ctx
  · simp [hc] at h
  · simp only [hc] at h
    by_cases ht : ctx.tti_rx = t
    · simp only [ht, ne_eq, not_true_eq_false, if_false] at h
      rcases ho : m.on_worker (m.get_sf t) cc (slot_cc_worker.run G) with ⟨m1, u⟩ | ⟨m1, msg⟩
      · simp only [ho] at h
        exact ⟨ctx, m1, rfl, ht, rfl, h⟩
      · simp [ho] at h
    · simp [ht] at h

end sched_worker_manager

namespace sched_worker_manager

/-- One `run_tti` on a context in use whose counter is at least 1: it returns
normally, returns true exactly when the counter was 1, and leaves the context
in use with the counter decremented. -/
theorem run_tti_active (G : grid_ops) (D : Nat) (m : sched_worker_manager) (t : tti_point)
    (C : Nat) (k : Int) (cc : Nat) (r : slot_res_t) (ha : m.active t C k) (hcc : cc < C)
    (hk : 1 ≤ k) :
    ∃ m2 r2, m.run_tti G D t cc r = .ok (m2, r2) (decide (k = 1)) ∧ m2.active t C (k - 1) := by
  obtain ⟨ctx, hc, ht, hcount, hlen, hrun, hgrid⟩ := ha
  have hi := lt_length_of_getElem?_eq_some _ _ _ hc
  have hccw : cc < ctx.workers.length := by omega
  have hccg : cc < m.phy_grid.length := by omega
  have hwr : (ctx.workers[cc]).running = true := hrun _ (List.getElem_mem _)
  have hf := slot_cc_worker.run_running G
    { worker := ctx.workers[cc], ue_db := m.ue_db, grid := m.phy_grid[cc] } hwr
  have hkeep := slot_cc_worker.run_keeps_worker G _ _ hf
  generalize hs1 : worker_scope.res_grid_call G grid_call.generate_dcis _ = s1 at hf hkeep
  have ho := on_worker_eq m (m.get_sf t) cc (slot_cc_worker.run G) ctx (ctx.workers[cc])
    (m.phy_grid[cc]) s1 hc (by simp [hccw]) (by simp [hccg]) hf
  have hp := put_eq m (m.get_sf t) cc s1 ctx hc
  have hc1 : (m.put (m.get_sf t) cc s1).slot_ctxts[m.get_sf t]? =
      some { ctx with workers := ctx.workers.set cc s1.worker } := by
    rw [hp]; simp [hi]
  obtain ⟨m2, hfin⟩ := finish_run_eq (m.put (m.get_sf t) cc s1) (m.get_sf t) cc
    (copy_result D (m.put (m.get_sf t) cc s1) t cc r) _ hc1 (by simpa [hcount] using hk)
  simp only [hcount] at hfin
  refine ⟨m2, copy_result D (m.put (m.get_sf t) cc s1) t cc r, ?_, ?_⟩
  · simp only [run_tti, hc, ht, ne_eq, not_true_eq_false, if_false, ho]
    exact hfin
  · obtain ⟨ctx1, hc1', _, _, _, hsl, _, hpg⟩ := finish_run_ok _ _ _ _ _ _ _ hfin
    rw [hc1] at hc1'
    injection hc1' with hc1'
    subst hc1'
    have hlen2 : m2.slot_ctxts.length = m.slot_ctxts.length := by
      rw [hsl, hp]; simp
    have hsf : m2.get_sf t = m.get_sf t := by simp [get_sf, hlen2]
    refine ⟨{ ctx with worker_count := ctx.worker_count - 1,
                       workers := ctx.workers.set cc s1.worker },
      by rw [hsf, hsl, hp]; simp [hi], ht, by simp [hcount], by simpa using hlen, ?_, ?_⟩
    · intro w hw
      rcases List.mem_or_eq_of_mem_set hw with h1 | h1
      · exact hrun w h1
      · rw [h1, slot_cc_worker.running, hkeep.1]
        exact hwr
    · rw [hpg]
      split <;> (rw [hp]; simpa using hgrid)

end sched_worker_manager

/-- What a normal return of `start` means for the state of the worker. -/
theorem slot_cc_worker.start_ok (G : grid_ops) (s s1 : worker_scope)
    (t : tti_point) (h : slot_cc_worker.start G s t = .ok s1 ()) :
    s.worker.running = false ∧ (t.is_valid = true → s1.worker.running = true) := by
  unfold slot_cc_worker.start at h
  split at h
  · cases h
  · rename_i hr
    injection h with h _
    subst h
    exact ⟨by simpa using hr,
      fun hv => by simpa [slot_cc_worker.running, worker_scope.res_grid_call] using hv⟩

namespace sched_worker_manager

/-- What a completed `reserve_workers` means. -/
theorem reserve_workers_some (m m1 : sched_worker_manager) (t : tti_point)
    (h : m.reserve_workers t = some m1) :
    ∃ ctx, m.slot_ctxts[m.get_sf t]? = some ctx ∧ 0 < ctx.sf_sem ∧
      m1 = { m with slot_ctxts := (m.slot_ctxts.set (m.get_sf t)
              { ctx with sf_sem := ctx.sf_sem - 1, tti_rx := t,
                         worker_count := (ctx.workers.length : Int) }) } := by
  unfold reserve_workers at h
  rcases hc : m.slot_ctxts[m.get_sf t]? with _ | ctx
  · simp [hc] at h
  · simp only [hc] at h
    by_cases hs : ctx.sf_sem = 0
    · simp [hs] at h
    · simp only [hs, if_false] at h
      injection h with h
      exact ⟨ctx, rfl, Nat.pos_of_ne_zero hs, h.symm⟩

/-- After a `start_tti` that returned normally for a TTI, the context is in
use. -/
theorem start_tti_active (G : grid_ops) (m1 m2 : sched_worker_manager) (t : tti_point)
    (ctx1 : slot_worker_ctxt) (hv : t.is_valid = true)
    (hc : m1.slot_ctxts[m1.get_sf t]? = some ctx1)
    (hs : m1.start_tti G t = .ok m2 ()) :
    ctx1.tti_rx = t ∧ m2.active t ctx1.workers.length ctx1.worker_count := by
  unfold start_tti at hs
  simp only [hc] at hs
  by_cases ht : ctx1.tti_rx = t
  · simp only [ht, ne_eq, not_true_eq_false, if_false] at hs
    refine ⟨ht, ?_⟩
    obtain ⟨ctx2, h1, _, h3, h4, h5, h6, _, h8, _, h10, h11⟩ :=
      for_workers_post (m1.get_sf t) (fun s => slot_cc_worker.start G s t)
        (fun w => w.running = true)
        (fun s s1 hst => (slot_cc_worker.start_ok G s s1 t hst).2 hv)
        (List.range ctx1.workers.length) m1 m2 ctx1 (List.nodup_range _) hc hs
    have hsf : m2.get_sf t = m1.get_sf t := by simp [get_sf, h8]
    refine ⟨ctx2, by rw [hsf]; exact h1, by rw [h3, ht], h4, h5, ?_, ?_⟩
    · intro w hw
      obtain ⟨n, hn, rfl⟩ := List.getElem_of_mem hw
      obtain ⟨w1, hw1, hr⟩ := h6 n (by simpa [h5] using hn)
      rw [List.getElem?_eq_getElem hn] at hw1
      injection hw1 with hw1
      rw [hw1]; exact hr
    · rw [h10]
      rcases Nat.eq_zero_or_pos ctx1.workers.length with h0 | h0
      · omega
      · have := h11 (ctx1.workers.length - 1) (by simp; omega)
        omega
  · simp [ht] at hs

/-- One `run_tti` on a context in use whose counter is 0 trips the assertion
on the number of calls. -/
theorem run_tti_active_zero (G : grid_ops) (D : Nat) (m : sched_worker_manager) (t : tti_point)
    (C : Nat) (cc : Nat) (r : slot_res_t) (ha : m.active t C 0) (hcc : cc < C) :
    ∃ s, m.run_tti G D t cc r = .fatal s "invalid number of calls to run_tti(tti, cc)" := by
  obtain ⟨ctx, hc, ht, hcount, hlen, hrun, hgrid⟩ := ha
  have hi := lt_length_of_getElem?_eq_some _ _ _ hc
  have hccw : cc < ctx.workers.length := by omega
  have hccg : cc < m.phy_grid.length := by omega
  have hwr : (ctx.workers[cc]).running = true := hrun _ (List.getElem_mem _)
  have hf := slot_cc_worker.run_running G
    { worker := ctx.workers[cc], ue_db := m.ue_db, grid := m.phy_grid[cc] } hwr
  generalize hs1 : worker_scope.res_grid_call G grid_call.generate_dcis _ = s1 at hf
  have ho := on_worker_eq m (m.get_sf t) cc (slot_cc_worker.run G) ctx (ctx.workers[cc])
    (m.phy_grid[cc]) s1 hc (by simp [hccw]) (by simp [hccg]) hf
  have hp := put_eq m (m.get_sf t) cc s1 ctx hc
  have hc1 : (m.put (m.get_sf t) cc s1).slot_ctxts[m.get_sf t]? =
      some { ctx with workers := ctx.workers.set cc s1.worker } := by
    rw [hp]; simp [hi]
  simp only [run_tti, hc, ht, ne_eq, not_true_eq_false, if_false, ho, finish_run, hc1, hcount]
  simp

/-- The values returned by `n` calls of `run_tti` on a context whose counter
is `k`: the call that brings the counter to 0 returns true. -/
theorem run_tti_seq_active (G : grid_ops) (D : Nat) (t : tti_point) (C : Nat) (r : slot_res_t) :
    ∀ (ccs : List Nat) (m : sched_worker_manager) (k : Nat), m.active t C k →
      (∀ cc ∈ ccs, cc < C) → ccs.length ≤ k →
      ∃ m3, run_tti_seq G D t r ccs m =
          .ok m3 ((List.range ccs.length).map (fun j : Nat => decide (k = j + 1))) ∧
        m3.active t C ((k - ccs.length : Nat) : Int) := by
  intro ccs
  induction ccs with
  | nil => intro m k ha _ _; exact ⟨m, rfl, by simpa using ha⟩
  | cons cc rest ih =>
    intro m k ha hb hk
    simp only [List.length_cons] at hk
    obtain ⟨m2, r2, h1, h2⟩ := run_tti_active G D m t C k cc r ha (hb cc (by simp))
      (by omega)
    have h2' : m2.active t C ((k - 1 : Nat) : Int) := by
      have : ((k - 1 : Nat) : Int) = (k : Int) - 1 := by omega
      rw [this]; exact h2
    obtain ⟨m3, h3, h4⟩ := ih m2 (k - 1) h2' (fun c hc => hb c (by simp [hc])) (by omega)
    refine ⟨m3, ?_, ?_⟩
    · simp only [run_tti_seq, h1, h3, List.length_cons, List.range_succ_eq_map, List.map_cons,
        List.map_map]
      congr 2
      · rw [decide_eq_decide]
        constructor <;> intro h <;> omega
      · apply List.map_congr_left
        intro j _
        simp only [Function.comp]
        rw [decide_eq_decide]
        constructor <;> intro h <;> omega
    · have : k - (cc :: rest).length = k - 1 - rest.length := by
        simp only [List.length_cons]; omega
      rw [this]; exact h4

/-- More calls of `run_tti` than the counter allows end in a failed
assertion. -/
theorem run_tti_seq_too_many (G : grid_ops) (D : Nat) (t : tti_point) (C : Nat) (r : slot_res_t) :
    ∀ (ccs : List Nat) (m : sched_worker_manager) (k : Nat), m.active t C k →
      (∀ cc ∈ ccs, cc < C) → k < ccs.length →
      ∃ s msg, run_tti_seq G D t r ccs m = .fatal s msg := by
  intro ccs
  induction ccs with
  | nil => intro m k _ _ hk; simp at hk
  | cons cc rest ih =>
    intro m k ha hb hk
    rcases Nat.eq_zero_or_pos k with h0 | h0
    · subst h0
      obtain ⟨s, hs⟩ := run_tti_active_zero G D m t C cc r (by simpa using ha) (hb cc (by simp))
      exact ⟨s.1, "invalid number of calls to run_tti(tti, cc)", by simp only [run_tti_seq, hs]⟩
    · obtain ⟨m2, r2, h1, h2⟩ := run_tti_active G D m t C k cc r ha (hb cc (by simp))
        (by omega)
      have h2' : m2.active t C ((k - 1 : Nat) : Int) := by
        have : ((k - 1 : Nat) : Int) = (k : Int) - 1 := by omega
        rw [this]; exact h2
      obtain ⟨s, msg, h3⟩ := ih m2 (k - 1) h2' (fun c hc => hb c (by simp [hc]))
        (by simp at hk; omega)
      exact ⟨s, msg, by simp only [run_tti_seq, h1, h3]⟩

end sched_worker_manager

namespace sched_worker_manager

/-- On a context in use whose counter is not 0, `end_tti` trips its second
assertion and changes nothing. -/
theorem end_tti_active_pos (m : sched_worker_manager) (t : tti_point) (C : Nat) (k : Int)
    (ha : m.active t C k) (hk : k ≠ 0) :
    m.end_tti t = .fatal m "invalid number of calls to run_tti(tti, cc)" := by
  obtain ⟨ctx, hc, ht, hcount, _⟩ := ha
  simp [end_tti, hc, ht, hcount, hk]

/-- On a context in use whose counter is 0, `end_tti` returns normally. -/
theorem end_tti_active_zero (m : sched_worker_manager) (t : tti_point) (C : Nat)
    (ha : m.active t C 0) : ∃ m1, m.end_tti t = .ok m1 () := by
  obtain ⟨ctx, hc, ht, hcount, hlen, hrun, hgrid⟩ := ha
  obtain ⟨m1, h1⟩ := for_workers_ok (m.get_sf t) slot_cc_worker.end_tti
    (fun w => w.running = true)
    (fun s hs => ⟨_, by simp only [slot_cc_worker.end_tti, hs]; rfl⟩)
    (List.range ctx.workers.length) m ctx (List.nodup_range _) hc
    (fun cc hcc => ⟨ctx.workers.get ⟨cc, List.mem_range.mp hcc⟩,
      by simp [List.mem_range.mp hcc], hrun _ (List.get_mem _ _ _)⟩)
    (fun cc hcc => by have := List.mem_range.mp hcc; omega)
  obtain ⟨ctx1, h2, _⟩ := for_workers_post (m.get_sf t) slot_cc_worker.end_tti
    (fun _ => True) (fun _ _ _ => trivial) _ m m1 ctx (List.nodup_range _) hc h1
  simp only [end_tti, hc, ht, hcount, ne_eq, not_true_eq_false, if_false, h1, h2]
  exact ⟨_, rfl⟩

theorem active_of_reserve_start (G : grid_ops) (m m1 m2 : sched_worker_manager) (t : tti_point)
    (hv : t.is_valid = true) (hr : m.reserve_workers t = some m1)
    (hs : m1.start_tti G t = .ok m2 ()) :
    m2.active t (m.nof_workers t) (m.nof_workers t) := by
  obtain ⟨ctx, hc, _, rfl⟩ := reserve_workers_some m m1 t hr
  have hi := lt_length_of_getElem?_eq_some _ _ _ hc
  have h := start_tti_active G _ m2 t
    { ctx with sf_sem := ctx.sf_sem - 1, tti_rx := t, worker_count := (ctx.workers.length : Int) }
    hv (by
      have hi2 : t.to_uint % m.slot_ctxts.length < m.slot_ctxts.length := hi
      simp [get_sf, hi2]) hs
  simpa [nof_workers, hc] using h.2

end sched_worker_manager

/-- C1: exactly-once completion. For a TTI `t` and a context with `C >= 1`
carrier workers, after `reserve_workers(t)` and `start_tti(t)` any `C` calls
`run_tti(t, cc, ·)` (with `cc < C`) all return normally; the first `C - 1`
return false, the last one returns true, and the counter is 0 afterwards. -/
theorem exactly_once_completion (G : grid_ops) (TX_ENB_DELAY : Nat)
    (m m1 m2 : sched_worker_manager) (t : tti_point) (r : slot_res_t) (ccs : List Nat)
    (hv : t.is_valid = true) (hr : m.reserve_workers t = some m1)
    (hs : m1.start_tti G t = .ok m2 ()) (hC : 1 ≤ m.nof_workers t)
    (hl : ccs.length = m.nof_workers t) (hb : ∀ cc ∈ ccs, cc < m.nof_workers t) :
    ∃ m3, sched_worker_manager.run_tti_seq G TX_ENB_DELAY t r ccs m2 =
        .ok m3 (List.replicate (m.nof_workers t - 1) false ++ [true]) ∧
      m3.worker_count t = some 0 := by
  have ha := sched_worker_manager.active_of_reserve_start G m m1 m2 t hv hr hs
  obtain ⟨m3, h1, h2⟩ := sched_worker_manager.run_tti_seq_active G TX_ENB_DELAY t _ r ccs m2
    (m.nof_workers t) ha hb (by omega)
  refine ⟨m3, ?_, ?_⟩
  · rw [h1, hl]
    congr 1
    generalize m.nof_workers t = C at hC
    obtain ⟨n, rfl⟩ : ∃ n, C = n + 1 := ⟨C - 1, by omega⟩
    rw [List.range_succ, List.map_append]
    simp only [Nat.add_sub_cancel, List.map_cons, List.map_nil, decide_True]
    congr 1
    rw [List.eq_replicate_iff]
    refine ⟨by simp, ?_⟩
    intro b hb
    simp only [List.mem_map, List.mem_range] at hb
    obtain ⟨j, hj, rfl⟩ := hb
    simp
    omega
  · obtain ⟨ctx, hc, _, hcount, _⟩ := h2
    simp [sched_worker_manager.worker_count, hc, hcount, hl]

/-- Witness of C1 at the example manager (two carriers), TTI 4, with the
carriers run in the order 1, 0. -/
theorem exactly_once_completion_witness :
    (tti_point.mk 4).is_valid = true ∧
    ex_manager.reserve_workers ⟨4⟩ = some (ex_reserved ⟨4⟩) ∧
    (ex_reserved ⟨4⟩).start_tti (grid_ops.record 4) ⟨4⟩ = .ok (ex_started ⟨4⟩) () ∧
    ex_manager.nof_workers ⟨4⟩ = 2 ∧
    ∃ m3, sched_worker_manager.run_tti_seq (grid_ops.record 4) 4 ⟨4⟩ slot_res_t.init [1, 0]
        (ex_started ⟨4⟩) =
        .ok m3 (List.replicate (ex_manager.nof_workers ⟨4⟩ - 1) false ++ [true]) ∧
      m3.worker_count ⟨4⟩ = some 0 :=
  ⟨by decide, by rfl, by rfl, by decide,
   exactly_once_completion (grid_ops.record 4) 4 ex_manager (ex_reserved ⟨4⟩) (ex_started ⟨4⟩)
     ⟨4⟩ slot_res_t.init [1, 0] (by decide) (by rfl) (by rfl) (by decide) (by decide) (by decide)⟩

/-- C4: `end_tti(t)` fails fatally unless the counter of the context of `t`
is zero. For a TTI `t` and a context with `C` carrier workers, after
`reserve_workers(t)`, `start_tti(t)` and calls `run_tti(t, cc, ·)` for the
carriers `ccs`: with fewer than `C` calls the calls return normally and
`end_tti(t)` then trips its assertion on the counter and leaves the state as
it is (no worker is ended, the semaphore is not posted); with exactly `C`
calls `end_tti(t)` returns normally; and whenever the calls and `end_tti(t)`
all return normally, exactly `C` calls were made. -/
theorem end_tti_requires_completion (G : grid_ops) (TX_ENB_DELAY : Nat)
    (m m1 m2 : sched_worker_manager) (t : tti_point) (r : slot_res_t) (ccs : List Nat)
    (hv : t.is_valid = true) (hr : m.reserve_workers t = some m1)
    (hs : m1.start_tti G t = .ok m2 ())
    (hb : ∀ cc ∈ ccs, cc < m.nof_workers t) :
    (ccs.length < m.nof_workers t →
      ∃ m3 bs, sched_worker_manager.run_tti_seq G TX_ENB_DELAY t r ccs m2 = .ok m3 bs ∧
        m3.end_tti t = .fatal m3 "invalid number of calls to run_tti(tti, cc)") ∧
    (ccs.length = m.nof_workers t →
      ∃ m3 bs m4, sched_worker_manager.run_tti_seq G TX_ENB_DELAY t r ccs m2 = .ok m3 bs ∧
        m3.end_tti t = .ok m4 ()) ∧
    (∀ m3 bs m4, sched_worker_manager.run_tti_seq G TX_ENB_DELAY t r ccs m2 = .ok m3 bs →
      m3.end_tti t = .ok m4 () → ccs.length = m.nof_workers t) := by
  have ha := sched_worker_manager.active_of_reserve_start G m m1 m2 t hv hr hs
  have hlt : ccs.length < m.nof_workers t →
      ∃ m3 bs, sched_worker_manager.run_tti_seq G TX_ENB_DELAY t r ccs m2 = .ok m3 bs ∧
        m3.end_tti t = .fatal m3 "invalid number of calls to run_tti(tti, cc)" := by
    intro hl
    obtain ⟨m3, h1, h2⟩ := sched_worker_manager.run_tti_seq_active G TX_ENB_DELAY t _ r ccs m2
      (m.nof_workers t) ha hb (by omega)
    exact ⟨m3, _, h1, sched_worker_manager.end_tti_active_pos m3 t _ _ h2 (by omega)⟩
  refine ⟨hlt, ?_, ?_⟩
  · intro hl
    obtain ⟨m3, h1, h2⟩ := sched_worker_manager.run_tti_seq_active G TX_ENB_DELAY t _ r ccs m2
      (m.nof_workers t) ha hb (by omega)
    obtain ⟨m4, h4⟩ := sched_worker_manager.end_tti_active_zero m3 t _ (by simpa [hl] using h2)
    exact ⟨m3, _, m4, h1, h4⟩
  · intro m3 bs m4 h1 h4
    rcases Nat.lt_trichotomy ccs.length (m.nof_workers t) with hl | hl | hl
    · obtain ⟨m3', bs', h1', h4'⟩ := hlt hl
      rw [h1] at h1'
      injection h1' with e1 _
      subst e1
      rw [h4] at h4'
      cases h4'
    · exact hl
    · obtain ⟨s, msg, h5⟩ := sched_worker_manager.run_tti_seq_too_many G TX_ENB_DELAY t _ r ccs
        m2 (m.nof_workers t) ha hb hl
      rw [h1] at h5
      cases h5

/-- Witness of C4 at the example manager (two carriers) and TTI 4, after one
call of `run_tti`. -/
theorem end_tti_requires_completion_witness :
    (tti_point.mk 4).is_valid = true ∧
    ex_manager.reserve_workers ⟨4⟩ = some (ex_reserved ⟨4⟩) ∧
    (ex_reserved ⟨4⟩).start_tti (grid_ops.record 4) ⟨4⟩ = .ok (ex_started ⟨4⟩) () ∧
    ex_manager.nof_workers ⟨4⟩ = 2 ∧
    ∃ m3 bs, sched_worker_manager.run_tti_seq (grid_ops.record 4) 4 ⟨4⟩ slot_res_t.init [0]
        (ex_started ⟨4⟩) = .ok m3 bs ∧
      m3.end_tti ⟨4⟩ = .fatal m3 "invalid number of calls to run_tti(tti, cc)" :=
  ⟨by decide, by rfl, by rfl, by decide,
   (end_tti_requires_completion (grid_ops.record 4) 4 ex_manager (ex_reserved ⟨4⟩)
     (ex_started ⟨4⟩) ⟨4⟩ slot_res_t.init [0] (by decide) (by rfl) (by rfl)
     (by decide)).1 (by decide)⟩

/-! ## The request filled by `run_tti` -/

/-- C2: transmission offset invariant. Whenever `run_tti(t, cc, req)` returns
normally, the request carries `pdsch_tti = pusch_tti = t + TX_ENB_DELAY`, and
its grant lists are those of the cell addressed by `t + TX_ENB_DELAY` in the
ring of carrier `cc`, as the worker of carrier `cc` left that ring after its
`run`. -/
theorem transmission_offset (G : grid_ops) (TX_ENB_DELAY : Nat) (m m2 : sched_worker_manager)
    (t : tti_point) (cc : Nat) (r r2 : slot_res_t) (b : Bool)
    (h : m.run_tti G TX_ENB_DELAY t cc r = .ok (m2, r2) b) :
    r2.dl_res.pdsch_tti = t.add TX_ENB_DELAY ∧ r2.ul_res.pusch_tti = t.add TX_ENB_DELAY ∧
    ∃ m1, m.on_worker (m.get_sf t) cc (slot_cc_worker.run G) = .ok m1 () ∧
      r2.dl_res.pdsch =
        (phy_cell_rb_grid.at (m1.phy_grid.getD cc []) (t.add TX_ENB_DELAY).to_uint).pdsch_grants ∧
      r2.ul_res.pusch =
        (phy_cell_rb_grid.at (m1.phy_grid.getD cc []) (t.add TX_ENB_DELAY).to_uint).pusch_grants := by
  obtain ⟨ctx, m1, _, _, h1, h2⟩ := sched_worker_manager.run_tti_ok G TX_ENB_DELAY m m2 t cc r r2 b h
  obtain ⟨_, _, h3, _⟩ := sched_worker_manager.finish_run_ok _ _ _ _ _ _ _ h2
  subst h3
  exact ⟨rfl, rfl, m1, h1, rfl, rfl⟩

/-- Witness of C2 at the last `run_tti` of TTI 4 on the example manager: the
request is tagged with slot 8 and carries the grant of the cell of slot 8. -/
theorem transmission_offset_witness :
    ∃ m2 r2, ex_before_last_run.run_tti (grid_ops.record 4) 4 ⟨4⟩ 0 slot_res_t.init =
        .ok (m2, r2) true ∧
      r2.dl_res.pdsch_tti = (tti_point.mk 4).add 4 ∧ r2.ul_res.pusch_tti = (tti_point.mk 4).add 4 ∧
      r2.dl_res.pdsch = [{ rnti := 70, mask := [true, true, true] }] :=
  ⟨_, _, rfl,
   (transmission_offset (grid_ops.record 4) 4 ex_before_last_run _ ⟨4⟩ 0 slot_res_t.init _ true
      rfl).1,
   (transmission_offset (grid_ops.record 4) 4 ex_before_last_run _ ⟨4⟩ 0 slot_res_t.init _ true
      rfl).2.1,
   by decide⟩

/-- C3, as stated, fails: on the example manager (rings of 10 cells, delay 4)
the call of `run_tti` that completes TTI 4 finds a grant in cell 4 of carrier
0, left there when TTI 0 was scheduled. After the call cell 4 is empty, and
the cell of the transmission slot 8 still holds the grant just copied into
the request: the cell that is reset is the one addressed by the TTI itself. -/
theorem reset_is_not_at_transmission_slot :
    (phy_cell_rb_grid.at (ex_before_last_run.phy_grid.getD 0 []) 4).pdsch_grants =
      [{ rnti := 70, mask := [true, true, true] }] ∧
    ∃ m2 r2, ex_before_last_run.run_tti (grid_ops.record 4) 4 ⟨4⟩ 0 slot_res_t.init =
        .ok (m2, r2) true ∧
      r2.dl_res.pdsch_tti = ⟨8⟩ ∧
      phy_cell_rb_grid.at (m2.phy_grid.getD 0 []) 4 = { pdsch_grants := [], pusch_grants := [] } ∧
      (phy_cell_rb_grid.at (m2.phy_grid.getD 0 []) ((tti_point.mk 4).add 4).to_uint).pdsch_grants =
        [{ rnti := 70, mask := [true, true, true] }] :=
  ⟨by decide, _, _, rfl, by decide, by decide, by decide⟩

/-- C3, amended: whenever `run_tti(t, cc, req)` returns normally, it returns
true exactly when it brought the counter of the context to zero; in that case
the physical grid after the call is the grid as the worker's `run` left it
with one cell reset, the cell of the ring of carrier `cc` addressed by `t`
(the scheduling TTI); otherwise the grid is as the worker's `run` left it, no
cell is reset. -/
theorem reset_on_completion (G : grid_ops) (TX_ENB_DELAY : Nat) (m m2 : sched_worker_manager)
    (t : tti_point) (cc : Nat) (r r2 : slot_res_t) (b : Bool)
    (h : m.run_tti G TX_ENB_DELAY t cc r = .ok (m2, r2) b) :
    ∃ m1, m.on_worker (m.get_sf t) cc (slot_cc_worker.run G) = .ok m1 () ∧
      (b = true ↔ m2.worker_count t = some 0) ∧
      (∃ k : Int, m1.worker_count t = some k ∧ m2.worker_count t = some (k - 1)) ∧
      (b = true → m2.phy_grid = m1.phy_grid.set cc
        (phy_cell_rb_grid.reset_at (m1.phy_grid.getD cc []) t.to_uint)) ∧
      (b = false → m2.phy_grid = m1.phy_grid) := by
  obtain ⟨ctx, m1, hc, ht, h1, h2⟩ :=
    sched_worker_manager.run_tti_ok G TX_ENB_DELAY m m2 t cc r r2 b h
  obtain ⟨ctx1, hc1, _, hk, hb, hsl, _, hpg⟩ := sched_worker_manager.finish_run_ok _ _ _ _ _ _ _ h2
  have hi1 := sched_worker_manager.lt_length_of_getElem?_eq_some _ _ _ hc1
  obtain ⟨ctx0, w, g, s1, hc0, _, _, _, rfl⟩ := sched_worker_manager.on_worker_ok _ _ _ _ _ h1
  rw [hc] at hc0
  injection hc0 with hc0
  subst hc0
  have hp := sched_worker_manager.put_eq m (m.get_sf t) cc s1 ctx hc
  have hlen1 : (m.put (m.get_sf t) cc s1).slot_ctxts.length = m.slot_ctxts.length := by
    rw [hp]; simp
  have hsf1 : (m.put (m.get_sf t) cc s1).get_sf t = m.get_sf t := by
    show t.to_uint % (m.put (m.get_sf t) cc s1).slot_ctxts.length = _
    rw [hlen1]; rfl
  have hsf2 : m2.get_sf t = m.get_sf t := by
    show t.to_uint % m2.slot_ctxts.length = _
    rw [hsl, List.length_set, hlen1]; rfl
  have htt : ctx1.tti_rx = t := by
    rw [hp] at hc1
    have hi := sched_worker_manager.lt_length_of_getElem?_eq_some _ _ _ hc
    simp [hi] at hc1
    rw [← hc1]; exact ht
  have hw2 : m2.worker_count t = some (ctx1.worker_count - 1) := by
    rw [sched_worker_manager.worker_count, hsf2, hsl]
    simp [hi1]
  have hw1 : (m.put (m.get_sf t) cc s1).worker_count t = some ctx1.worker_count := by
    rw [sched_worker_manager.worker_count, hsf1, hc1]
    rfl
  refine ⟨_, h1, ?_, ⟨ctx1.worker_count, hw1, hw2⟩, ?_, ?_⟩
  · rw [hw2, hb]
    simp
    omega
  · intro hbt
    rw [hpg, htt]; simp [hbt]
  · intro hbf
    rw [hpg]; simp [hbf]

/-- Witness of the amended C3 at the last `run_tti` of TTI 4 on the example
manager. -/
theorem reset_on_completion_witness :
    ∃ m2 r2, ex_before_last_run.run_tti (grid_ops.record 4) 4 ⟨4⟩ 0 slot_res_t.init =
        .ok (m2, r2) true ∧
      ∃ m1, ex_before_last_run.on_worker (ex_before_last_run.get_sf ⟨4⟩) 0
          (slot_cc_worker.run (grid_ops.record 4)) = .ok m1 () ∧
        m2.phy_grid = m1.phy_grid.set 0
          (phy_cell_rb_grid.reset_at (m1.phy_grid.getD 0 []) (tti_point.mk 4).to_uint) :=
  ⟨_, _, rfl,
   (reset_on_completion (grid_ops.record 4) 4 ex_before_last_run _ ⟨4⟩ 0 slot_res_t.init _ true
      rfl).imp (fun _ hs => ⟨hs.1, hs.2.2.2.1 rfl⟩)⟩

/-! ## Semaphores -/

namespace sched_worker_manager

theorem sems_length (m : sched_worker_manager) : m.sems.length = m.slot_ctxts.length := by
  simp [sems]

theorem sems_eq_of_getElem? (m m1 : sched_worker_manager)
    (h : ∀ j : Nat, (m1.slot_ctxts[j]?).map (fun ctx => ctx.sf_sem) =
      (m.slot_ctxts[j]?).map (fun ctx => ctx.sf_sem)) : m1.sems = m.sems := by
  apply List.ext_getElem?
  intro j
  simpa [sems, List.getElem?_map] using h j

theorem sems_put (m : sched_worker_manager) (i cc : Nat) (s : worker_scope) :
    (m.put i cc s).sems = m.sems := by
  apply sems_eq_of_getElem?
  intro j
  rcases hc : m.slot_ctxts[i]? with _ | ctx
  · simp [put, hc]
  · rw [put_eq m i cc s ctx hc]
    by_cases hj : i = j
    · subst hj
      have hi := lt_length_of_getElem?_eq_some _ _ _ hc
      simp [hi, hc]
    · simp [List.getElem?_set, hj]

theorem sems_on_worker (m m1 : sched_worker_manager) (i cc : Nat)
    (f : worker_scope → result worker_scope Unit) (h : m.on_worker i cc f = .ok m1 ()) :
    m1.sems = m.sems := by
  obtain ⟨_, _, _, s1, _, _, _, _, rfl⟩ := on_worker_ok m m1 i cc f h
  exact sems_put m i cc s1

theorem sems_for_workers (i : Nat) (f : worker_scope → result worker_scope Unit) :
    ∀ (ccs : List Nat) (m m1 : sched_worker_manager), for_workers i f ccs m = .ok m1 () →
      m1.sems = m.sems := by
  intro ccs
  induction ccs with
  | nil =>
    intro m m1 h
    simp only [for_workers] at h
    injection h with h _
    rw [h]
  | cons cc rest ih =>
    intro m m1 h
    simp only [for_workers] at h
    rcases ho : m.on_worker i cc f with ⟨m2, u⟩ | ⟨m2, msg⟩
    · simp only [ho] at h
      rw [ih m2 m1 h, sems_on_worker m m2 i cc f ho]
    · simp [ho] at h

theorem sems_start_tti (G : grid_ops) (m m1 : sched_worker_manager) (t : tti_point)
    (h : m.start_tti G t = .ok m1 ()) : m1.sems = m.sems := by
  unfold start_tti at h
  rcases hc : m.slot_ctxts[m.get_sf t]? with _ | ctx
  · simp [hc] at h
  · simp only [hc] at h
    split at h
    · cases h
    · exact sems_for_workers _ _ _ _ _ h

theorem sems_run_tti (G : grid_ops) (D : Nat) (m m2 : sched_worker_manager) (t : tti_point)
    (cc : Nat) (r r2 : slot_res_t) (b : Bool) (h : m.run_tti G D t cc r = .ok (m2, r2) b) :
    m2.sems = m.sems := by
  obtain ⟨ctx, m1, _, _, h1, h2⟩ := run_tti_ok G D m m2 t cc r r2 b h
  obtain ⟨ctx1, hc1, _, _, _, hsl, _, _⟩ := finish_run_ok _ _ _ _ _ _ _ h2
  rw [← sems_on_worker m m1 _ cc _ h1]
  apply sems_eq_of_getElem?
  intro j
  rw [hsl]
  by_cases hj : m.get_sf t = j
  · subst hj
    have hi := lt_length_of_getElem?_eq_some _ _ _ hc1
    simp [hi, hc1]
  · simp [List.getElem?_set, hj]

theorem sems_reserve_workers (m m1 : sched_worker_manager) (t : tti_point)
    (h : m.reserve_workers t = some m1) :
    ∃ k, m.sems[m.get_sf t]? = some (k + 1) ∧ m1.sems = m.sems.set (m.get_sf t) k ∧
      m1.slot_ctxts.length = m.slot_ctxts.length := by
  obtain ⟨ctx, hc, hpos, rfl⟩ := reserve_workers_some m m1 t h
  refine ⟨ctx.sf_sem - 1, ?_, ?_, by simp⟩
  · simp only [sems, List.getElem?_map, hc, Option.map_some']
    congr 1
    omega
  · simp [sems, List.map_set]

theorem sems_end_tti (m m1 : sched_worker_manager) (t : tti_point)
    (h : m.end_tti t = .ok m1 ()) :
    ∃ k, m.sems[m.get_sf t]? = some k ∧ m1.sems = m.sems.set (m.get_sf t) (k + 1) ∧
      m1.slot_ctxts.length = m.slot_ctxts.length := by
  unfold end_tti at h
  rcases hc : m.slot_ctxts[m.get_sf t]? with _ | ctx
  · simp [hc] at h
  · simp only [hc] at h
    split at h
    · cases h
    · split at h
      · cases h
      · rcases hf : for_workers (m.get_sf t) slot_cc_worker.end_tti
            (List.range ctx.workers.length) m with ⟨m2, u⟩ | ⟨m2, msg⟩
        · simp only [hf] at h
          have hs := sems_for_workers _ _ _ _ _ hf
          rcases hc2 : m2.slot_ctxts[m.get_sf t]? with _ | ctx2
          · simp [hc2] at h
          · simp only [hc2] at h
            injection h with h _
            subst h
            have hl : m2.slot_ctxts.length = m.slot_ctxts.length := by
              rw [← sems_length, hs, sems_length]
            refine ⟨ctx2.sf_sem, ?_, ?_, by simpa using hl⟩
            · rw [← hs]
              simp [sems, List.getElem?_map, hc2]
            · rw [← hs]
              simp [sems, List.map_set]
        · simp [hf] at h

end sched_worker_manager

namespace pipeline

theorem in_flight_on_length (m : sched_worker_manager) (l : List tti_point) (i : Nat) :
    (in_flight_on { m := m, in_flight := l } i).length =
      l.countP (fun t => decide (m.get_sf t = i)) := by
  simp [in_flight_on, List.countP_eq_length_filter]

theorem countP_erase_of_mem (q : tti_point → Bool) (l : List tti_point) (t : tti_point)
    (h : t ∈ l) : l.countP q = (l.erase t).countP q + (if q t then 1 else 0) := by
  rw [(List.perm_cons_erase h).countP_eq q, List.countP_cons]

theorem get_sf_congr (m m1 : sched_worker_manager)
    (h : m1.slot_ctxts.length = m.slot_ctxts.length) (t : tti_point) :
    m1.get_sf t = m.get_sf t := by
  simp [sched_worker_manager.get_sf, h]

/-- A call that leaves the semaphores and the TTIs in flight as they are
keeps the pipeline balanced. -/
theorem balanced_of_sems_eq (p : pipeline) (m1 : sched_worker_manager)
    (hs : m1.sems = p.m.sems) (hb : p.balanced) :
    balanced { m := m1, in_flight := p.in_flight } := by
  have hl : m1.slot_ctxts.length = p.m.slot_ctxts.length := by
    rw [← sched_worker_manager.sems_length, hs, sched_worker_manager.sems_length]
  have hg : ∀ t, m1.get_sf t = p.m.get_sf t := get_sf_congr _ _ hl
  refine ⟨?_, ?_⟩
  · intro i hi
    obtain ⟨k, h1, h2⟩ := hb.1 i (by simpa [hl] using hi)
    refine ⟨k, by simpa [hs] using h1, ?_⟩
    simpa [in_flight_on, hg] using h2
  · intro t ht
    simpa [hg, hl] using hb.2 t ht

theorem balanced_init (cfg : sched_params) (cap : Nat) (ue_db : ue_map_t) :
    (init cfg cap ue_db).balanced := by
  refine ⟨?_, by simp [init]⟩
  intro i hi
  refine ⟨1, ?_, by simp [init, in_flight_on]⟩
  simp only [init, sched_worker_manager.init, List.length_replicate] at hi
  simp [init, sched_worker_manager.init, sched_worker_manager.sems, List.getElem?_replicate, hi]

theorem balanced_step (G : grid_ops) (D : Nat) (p p1 : pipeline) (c : call)
    (h : p.step G D c = some p1) (hb : p.balanced) : p1.balanced := by
  cases c with
  | reserve_workers t =>
    simp only [step, Option.map_eq_some'] at h
    obtain ⟨m1, hr, rfl⟩ := h
    obtain ⟨k, h1, h2, hl⟩ := sched_worker_manager.sems_reserve_workers p.m m1 t hr
    have hg : ∀ t, m1.get_sf t = p.m.get_sf t := get_sf_congr _ _ hl
    have hi0 : p.m.get_sf t < p.m.slot_ctxts.length := by
      rw [← sched_worker_manager.sems_length]
      exact sched_worker_manager.lt_length_of_getElem?_eq_some _ _ _ h1
    refine ⟨?_, ?_⟩
    · intro i hi
      obtain ⟨k0, h3, h4⟩ := hb.1 i (by simpa [hl] using hi)
      rw [in_flight_on_length] at h4 ⊢
      simp only [hg, List.countP_cons]
      by_cases hit : p.m.get_sf t = i
      · subst hit
        rw [h1] at h3
        injection h3 with h3
        refine ⟨k, ?_, ?_⟩
        · rw [h2]
          simp [sched_worker_manager.sems_length, hi0]
        · simp
          omega
      · refine ⟨k0, ?_, ?_⟩
        · rw [h2]
          simp [List.getElem?_set, hit, h3]
        · simpa [hit] using h4
    · intro t1 ht1
      simp only [List.mem_cons] at ht1
      rw [hg, hl]
      rcases ht1 with rfl | ht1
      · exact hi0
      · exact hb.2 t1 ht1
  | start_tti t =>
    simp only [step, sched_worker_manager.step, Option.map_eq_some'] at h
    obtain ⟨m1, hr, rfl⟩ := h
    rcases hs : p.m.start_tti G t with ⟨m2, u⟩ | ⟨m2, msg⟩
    · simp only [hs, Option.some.injEq] at hr
      subst hr
      exact balanced_of_sems_eq p m2 (sched_worker_manager.sems_start_tti G _ _ t hs) hb
    · simp [hs] at hr
  | run_tti t cc =>
    simp only [step, sched_worker_manager.step, Option.map_eq_some'] at h
    obtain ⟨m1, hr, rfl⟩ := h
    rcases hs : p.m.run_tti G D t cc slot_res_t.init with ⟨⟨m2, r2⟩, b⟩ | ⟨m2, msg⟩
    · simp only [hs, Option.some.injEq] at hr
      subst hr
      exact balanced_of_sems_eq p m2 (sched_worker_manager.sems_run_tti G D _ _ t cc _ _ _ hs) hb
    · simp [hs] at hr
  | end_tti t =>
    simp only [step] at h
    split at h
    · rename_i hmem
      simp only [sched_worker_manager.step, Option.map_eq_some'] at h
      obtain ⟨m1, hr, rfl⟩ := h
      rcases hs : p.m.end_tti t with ⟨m2, u⟩ | ⟨m2, msg⟩
      · simp only [hs, Option.some.injEq] at hr
        subst hr
        obtain ⟨k, h1, h2, hl⟩ := sched_worker_manager.sems_end_tti p.m m2 t hs
        have hg : ∀ t, m2.get_sf t = p.m.get_sf t := get_sf_congr _ _ hl
        have hi0 : p.m.get_sf t < p.m.slot_ctxts.length := hb.2 t hmem
        refine ⟨?_, ?_⟩
        · intro i hi
          obtain ⟨k0, h3, h4⟩ := hb.1 i (by simpa [hl] using hi)
          rw [in_flight_on_length] at h4 ⊢
          rw [countP_erase_of_mem _ _ t hmem] at h4
          simp only [hg]
          by_cases hit : p.m.get_sf t = i
          · subst hit
            rw [h1] at h3
            injection h3 with h3
            refine ⟨k + 1, ?_, ?_⟩
            · rw [h2]
              simp [sched_worker_manager.sems_length, hi0]
            · simp at h4
              omega
          · refine ⟨k0, ?_, ?_⟩
            · rw [h2]
              simp [List.getElem?_set, hit, h3]
            · simpa [hit] using h4
        · intro t1 ht1
          rw [hg, hl]
          exact hb.2 t1 (List.mem_of_mem_erase ht1)
      · simp [hs] at hr
    · cases h

theorem balanced_exec (G : grid_ops) (D : Nat) :
    ∀ (cs : List call) (p p1 : pipeline), exec G D cs p = some p1 → p.balanced → p1.balanced := by
  intro cs
  induction cs with
  | nil =>
    intro p p1 h hb
    simp only [exec, Option.some.injEq] at h
    rw [← h]; exact hb
  | cons c rest ih =>
    intro p p1 h hb
    simp only [exec] at h
    rcases hs : p.step G D c with _ | p2
    · simp [hs] at h
    · simp only [hs] at h
      exact ih p2 p1 h (balanced_step G D p p2 c hs hb)

end pipeline

/-! ## Pipeline serialization -/

namespace pipeline

theorem length_step (G : grid_ops) (D : Nat) (p p1 : pipeline) (c : call)
    (h : p.step G D c = some p1) : p1.m.slot_ctxts.length = p.m.slot_ctxts.length := by
  have hsl : ∀ m1 : sched_worker_manager, m1.sems = p.m.sems →
      m1.slot_ctxts.length = p.m.slot_ctxts.length := by
    intro m1 hs
    rw [← sched_worker_manager.sems_length, hs, sched_worker_manager.sems_length]
  cases c with
  | reserve_workers t =>
    simp only [step, Option.map_eq_some'] at h
    obtain ⟨m1, hr, rfl⟩ := h
    obtain ⟨_, _, _, hl⟩ := sched_worker_manager.sems_reserve_workers p.m m1 t hr
    exact hl
  | start_tti t =>
    simp only [step, sched_worker_manager.step, Option.map_eq_some'] at h
    obtain ⟨m1, hr, rfl⟩ := h
    rcases hs : p.m.start_tti G t with ⟨m2, u⟩ | ⟨m2, msg⟩
    · simp only [hs, Option.some.injEq] at hr
      subst hr
      exact hsl _ (sched_worker_manager.sems_start_tti G _ _ t hs)
    · simp [hs] at hr
  | run_tti t cc =>
    simp only [step, sched_worker_manager.step, Option.map_eq_some'] at h
    obtain ⟨m1, hr, rfl⟩ := h
    rcases hs : p.m.run_tti G D t cc slot_res_t.init with ⟨⟨m2, r2⟩, b⟩ | ⟨m2, msg⟩
    · simp only [hs, Option.some.injEq] at hr
      subst hr
      exact hsl _ (sched_worker_manager.sems_run_tti G D _ _ t cc _ _ _ hs)
    · simp [hs] at hr
  | end_tti t =>
    simp only [step] at h
    split at h
    · simp only [sched_worker_manager.step, Option.map_eq_some'] at h
      obtain ⟨m1, hr, rfl⟩ := h
      rcases hs : p.m.end_tti t with ⟨m2, u⟩ | ⟨m2, msg⟩
      · simp only [hs, Option.some.injEq] at hr
        subst hr
        obtain ⟨_, _, _, hl⟩ := sched_worker_manager.sems_end_tti p.m m2 t hs
        exact hl
      · simp [hs] at hr
    · cases h

theorem length_exec (G : grid_ops) (D : Nat) :
    ∀ (cs : List call) (p p1 : pipeline), exec G D cs p = some p1 →
      p1.m.slot_ctxts.length = p.m.slot_ctxts.length := by
  intro cs
  induction cs with
  | nil =>
    intro p p1 h
    simp only [exec, Option.some.injEq] at h
    rw [← h]
  | cons c rest ih =>
    intro p p1 h
    simp only [exec] at h
    rcases hs : p.step G D c with _ | p2
    · simp [hs] at h
    · simp only [hs] at h
      rw [ih p2 p1 h, length_step G D p p2 c hs]

end pipeline

/-- C5, as stated, fails at the wraparound of the slot index: with a pipeline
depth of 3, TTI 10239 maps to context 0 and TTI 10239 + 3, which is slot 2,
maps to context 2; and `reserve_workers` of that TTI completes while TTI 10239
is still in flight. -/
theorem pipeline_wraparound_counterexample :
    (tti_point.mk 10239).is_valid = true ∧
    (sched_worker_manager.init ex_cfg_depth3 10 []).slot_ctxts.length = 3 ∧
    (sched_worker_manager.init ex_cfg_depth3 10 []).get_sf ⟨10239⟩ = 0 ∧
    (sched_worker_manager.init ex_cfg_depth3 10 []).get_sf ((tti_point.mk 10239).add 3) = 2 ∧
    ∃ p, (pipeline.init ex_cfg_depth3 10 []).exec (grid_ops.record 4) 4
        [.reserve_workers ⟨10239⟩, .reserve_workers ((tti_point.mk 10239).add 3)] = some p ∧
      p.in_flight = [(tti_point.mk 10239).add 3, ⟨10239⟩] :=
  ⟨by decide, by decide, by decide, by decide, _, rfl, by decide⟩

/-- C5, amended. For a manager with `N` contexts and a TTI `t`, the TTIs `t`
and `t + N` map to the same context when `t + N` does not wrap around the
period of the slot index, or when `N` divides that period. In every state
reached from a freshly constructed manager by calls of the driver that return
normally, where `end_tti(t)` is called for a TTI in flight: the manager has
`nof_concurrent_subframes` contexts, at most one TTI is in flight on each
context, and while a TTI is in flight `reserve_workers` of every TTI that maps
to the same context cannot complete. -/
theorem pipeline_serialization (G : grid_ops) (TX_ENB_DELAY : Nat) (cfg : sched_params)
    (TTIMOD_SZ : Nat) (ue_db : ue_map_t) (calls : List call) (p : pipeline)
    (h : (pipeline.init cfg TTIMOD_SZ ue_db).exec G TX_ENB_DELAY calls = some p) :
    (∀ t : tti_point, t.is_valid = true →
      (t.to_uint + p.m.slot_ctxts.length < TTI_PERIOD ∨ p.m.slot_ctxts.length ∣ TTI_PERIOD) →
      p.m.get_sf (t.add p.m.slot_ctxts.length) = p.m.get_sf t) ∧
    p.m.slot_ctxts.length = cfg.nof_concurrent_subframes ∧
    (∀ i, (p.in_flight_on i).length ≤ 1) ∧
    (∀ t ∈ p.in_flight, ∀ t1 : tti_point, p.m.get_sf t1 = p.m.get_sf t →
      p.m.reserve_workers t1 = Option.none) := by
  have hb := pipeline.balanced_exec G TX_ENB_DELAY calls _ p h
    (pipeline.balanced_init cfg TTIMOD_SZ ue_db)
  refine ⟨?_, ?_, ?_, ?_⟩
  · intro t hv hN
    simp only [tti_point.is_valid, decide_eq_true_eq] at hv
    simp only [sched_worker_manager.get_sf, tti_point.add, tti_point.to_uint] at hN ⊢
    generalize p.m.slot_ctxts.length = N at hN ⊢
    rcases hN with hN | hN
    · have h1 : (t.tti_val + N) % 2 ^ 32 = t.tti_val + N := by
        apply Nat.mod_eq_of_lt
        simp only [TTI_PERIOD] at hN
        omega
      rw [h1, Nat.mod_eq_of_lt hN, Nat.add_mod_right]
    · have hle : N ≤ TTI_PERIOD := Nat.le_of_dvd (by decide) hN
      have h1 : (t.tti_val + N) % 2 ^ 32 = t.tti_val + N := by
        apply Nat.mod_eq_of_lt
        simp only [TTI_PERIOD] at hle hv
        omega
      rw [h1, Nat.mod_mod_of_dvd _ hN, Nat.add_mod_right]
  · rw [pipeline.length_exec G TX_ENB_DELAY calls _ p h]
    simp [pipeline.init, sched_worker_manager.init]
  · intro i
    rcases Nat.lt_or_ge i p.m.slot_ctxts.length with hi | hi
    · obtain ⟨k, _, h2⟩ := hb.1 i hi
      omega
    · have : p.in_flight_on i = [] := by
        simp only [pipeline.in_flight_on, List.filter_eq_nil_iff, decide_eq_true_eq]
        intro t ht e
        have := hb.2 t ht
        omega
      simp [this]
  · intro t ht t1 he
    obtain ⟨k, h1, h2⟩ := hb.1 (p.m.get_sf t) (hb.2 t ht)
    have hpos : 0 < (p.in_flight_on (p.m.get_sf t)).length := by
      apply List.length_pos_of_mem (a := t)
      simp [pipeline.in_flight_on, ht]
    have hk : k = 0 := by omega
    subst hk
    simp only [sched_worker_manager.sems, List.getElem?_map, Option.map_eq_some'] at h1
    obtain ⟨ctx, hc, hs⟩ := h1
    simp [sched_worker_manager.reserve_workers, he, hc, hs]

/-- Witness of the amended C5 on the example manager (two contexts): after
`reserve_workers(4)`, TTI 4 is in flight on context 0 and `reserve_workers(6)`
cannot complete. -/
theorem pipeline_serialization_witness :
    ∃ p, (pipeline.init ex_cfg 10 ex_ue_db).exec (grid_ops.record 4) 4
        [.reserve_workers ⟨4⟩, .start_tti ⟨4⟩, .run_tti ⟨4⟩ 0] = some p ∧
      p.in_flight = [⟨4⟩] ∧ p.m.reserve_workers ((tti_point.mk 4).add 2) = Option.none :=
  ⟨_, rfl, by decide,
   (pipeline_serialization (grid_ops.record 4) 4 ex_cfg 10 ex_ue_db
      [.reserve_workers ⟨4⟩, .start_tti ⟨4⟩, .run_tti ⟨4⟩ 0] _ rfl).2.2.2 ⟨4⟩ (by decide)
      ((tti_point.mk 4).add 2) (by decide)⟩

/-- Remark on the step relation of `pipeline_serialization`: the assertions do
not catch a `start_tti(t)` and `end_tti(t)` made again after TTI `t` was ended
and without a new `reserve_workers(t)`; that `end_tti` posts the semaphore a
second time, after which TTIs 4 and 6 both reserve context 0 of the example
manager. This is why `end_tti` is a step of a TTI in flight there. -/
theorem unreserved_end_tti_posts_twice :
    (ex_manager.exec (grid_ops.record 4) 4
      [.reserve_workers ⟨4⟩, .start_tti ⟨4⟩, .run_tti ⟨4⟩ 0, .run_tti ⟨4⟩ 1, .end_tti ⟨4⟩,
       .start_tti ⟨4⟩, .end_tti ⟨4⟩]).map (fun m => m.sems) = some [2, 1] ∧
    (ex_manager.exec (grid_ops.record 4) 4
      [.reserve_workers ⟨4⟩, .start_tti ⟨4⟩, .run_tti ⟨4⟩ 0, .run_tti ⟨4⟩ 1, .end_tti ⟨4⟩,
       .start_tti ⟨4⟩, .end_tti ⟨4⟩, .reserve_workers ⟨4⟩, .reserve_workers ⟨6⟩]).map
        (fun m => m.sems) = some [0, 1] :=
  ⟨by decide, by decide⟩

/-! ## Reservations -/

theorem sum_map_set {α : Type} (f : α → Nat) (l : List α) (i : Nat) (a x : α)
    (h : l[i]? = some a) : ((l.set i x).map f).sum + f a = (l.map f).sum + f x := by
  induction l generalizing i with
  | nil => simp at h
  | cons b rest ih =>
    cases i with
    | zero =>
      simp only [List.getElem?_cons_zero, Option.some.injEq] at h
      subst h
      simp only [List.set_cons_zero, List.map_cons, List.sum_cons]
      omega
    | succ n =>
      simp only [List.getElem?_cons_succ] at h
      have := ih n h
      simp only [List.set_cons_succ, List.map_cons, List.sum_cons]
      omega

namespace sched_worker_manager

/-- The entries kept by the workers other than worker `cc` of context `i`:
the total is theirs plus that worker's, before and after a `put`. -/
theorem key_count_put (m : sched_worker_manager) (i cc : Nat) (ctx : slot_worker_ctxt)
    (w : slot_cc_worker) (hc : m.slot_ctxts[i]? = some ctx) (hw : ctx.workers[cc]? = some w) :
    ∃ others : Nat → Nat, (∀ rnti, m.key_count rnti = others rnti + w.key_count rnti) ∧
      ∀ (s1 : worker_scope) rnti,
        (m.put i cc s1).key_count rnti = others rnti + s1.worker.key_count rnti := by
  have h1 : ∀ (x : slot_cc_worker) rnti,
      ((ctx.workers.set cc x).map (fun w => w.key_count rnti)).sum + w.key_count rnti =
        (ctx.workers.map (fun w => w.key_count rnti)).sum + x.key_count rnti :=
    fun x rnti => sum_map_set (fun w => w.key_count rnti) ctx.workers cc w x hw
  have h2 : ∀ (x : slot_cc_worker) rnti,
      (m.put i cc { worker := x, ue_db := [], grid := [] }).key_count rnti +
          (ctx.workers.map (fun w => w.key_count rnti)).sum =
        m.key_count rnti + ((ctx.workers.set cc x).map (fun w => w.key_count rnti)).sum := by
    intro x rnti
    rw [put_eq m i cc _ ctx hc]
    exact sum_map_set (fun c : slot_worker_ctxt => (c.workers.map (fun w => w.key_count rnti)).sum)
      m.slot_ctxts i ctx { ctx with workers := ctx.workers.set cc x } hc
  have h3 : ∀ (s1 : worker_scope) rnti, (m.put i cc s1).key_count rnti =
      (m.put i cc { worker := s1.worker, ue_db := [], grid := [] }).key_count rnti := by
    intro s1 rnti
    rw [put_eq m i cc _ ctx hc, put_eq m i cc _ ctx hc]
    rfl
  refine ⟨fun rnti => m.key_count rnti - w.key_count rnti, ?_, ?_⟩
  · intro rnti
    have a := h1 { w with slot_ues := [] } rnti
    have b := h2 { w with slot_ues := [] } rnti
    simp only [slot_cc_worker.key_count, List.map_nil, List.count_nil] at a b ⊢
    omega
  · intro s1 rnti
    rw [h3]
    have a := h1 s1.worker rnti
    have b := h2 s1.worker rnti
    have a0 := h1 { w with slot_ues := [] } rnti
    have b0 := h2 { w with slot_ues := [] } rnti
    simp only [slot_cc_worker.key_count, List.map_nil, List.count_nil] at a b a0 b0 ⊢
    omega

/-- A call on one worker that keeps the worker's reservations consistent with
the table, whatever the other workers hold, keeps the manager consistent. -/
theorem on_worker_consistent (m m1 : sched_worker_manager) (i cc : Nat)
    (f : worker_scope → result worker_scope Unit)
    (hf : ∀ (others : Nat → Nat) (s s1 : worker_scope), f s = .ok s1 () →
      local_inv others s.worker s.ue_db → local_inv others s1.worker s1.ue_db)
    (h : m.on_worker i cc f = .ok m1 ()) (hinv : m.reservations_consistent) :
    m1.reservations_consistent := by
  obtain ⟨ctx, w, g, s1, hc, hw, _, hfs, rfl⟩ := on_worker_ok m m1 i cc f h
  obtain ⟨others, ho, ho1⟩ := key_count_put m i cc ctx w hc hw
  obtain ⟨i1, i2, i3, i4⟩ := hinv
  have hctx : ctx ∈ m.slot_ctxts := List.getElem?_mem hc
  have hwm : w ∈ ctx.workers := List.getElem?_mem hw
  have hl := hf others { worker := w, ue_db := m.ue_db, grid := g } s1 hfs
    ⟨i1, fun p hp => by rw [← ho]; exact i2 p hp, fun r hr => by rw [← ho]; exact i3 r hr,
      i4 ctx hctx w hwm⟩
  obtain ⟨l1, l2, l3, l4⟩ := hl
  have hp := put_eq m i cc s1 ctx hc
  refine ⟨by rw [hp]; exact l1, ?_, ?_, ?_⟩
  · intro p hp1
    rw [ho1]
    exact l2 p (by rw [hp] at hp1; exact hp1)
  · intro r hr
    rw [ho1]
    exact l3 r (by rw [hp] at hr; exact hr)
  · intro c hcm w1 hw1
    rw [hp] at hcm
    rcases List.mem_or_eq_of_mem_set hcm with hcm | rfl
    · exact i4 c hcm w1 hw1
    · rcases List.mem_or_eq_of_mem_set hw1 with hw1 | rfl
      · exact i4 ctx hctx w1 hw1
      · exact l4

theorem for_workers_consistent (i : Nat) (f : worker_scope → result worker_scope Unit)
    (hf : ∀ (others : Nat → Nat) (s s1 : worker_scope), f s = .ok s1 () →
      local_inv others s.worker s.ue_db → local_inv others s1.worker s1.ue_db) :
    ∀ (ccs : List Nat) (m m1 : sched_worker_manager), for_workers i f ccs m = .ok m1 () →
      m.reservations_consistent → m1.reservations_consistent := by
  intro ccs
  induction ccs with
  | nil =>
    intro m m1 h hinv
    simp only [for_workers] at h
    injection h with h _
    rw [← h]; exact hinv
  | cons cc rest ih =>
    intro m m1 h hinv
    simp only [for_workers] at h
    rcases ho : m.on_worker i cc f with ⟨m2, u⟩ | ⟨m2, msg⟩
    · simp only [ho] at h
      exact ih m2 m1 h (on_worker_consistent m m2 i cc f hf ho hinv)
    · simp [ho] at h

end sched_worker_manager

theorem release_all_eq (l : slot_ue_map_t) (hl : ∀ e ∈ l, e.2.held = true) :
    ∀ ue_db : ue_map_t, slot_ue_map_t.release_all l ue_db =
      ue_db.map (fun p => if p.1 ∈ l.map Prod.fst then (p.1, { p.2 with busy := false }) else p) := by
  induction l with
  | nil => intro ue_db; simp [slot_ue_map_t.release_all]
  | cons e rest ih =>
    intro ue_db
    obtain ⟨rnti, s⟩ := e
    have hs : s.held = true := hl (rnti, s) (by simp)
    rw [slot_ue_map_t.release_all, ih (fun e he => hl e (by simp [he]))]
    simp only [slot_ue.release, hs, if_true, List.map_map]
    apply List.map_congr_left
    intro p _
    simp only [Function.comp, List.map_cons, List.mem_cons]
    by_cases h1 : p.1 = rnti
    · simp [h1]
    · rw [if_neg h1]
      simp only [h1, false_or]

theorem keys_filterMap_sublist (f : Nat × ue → Option slot_ue) (l : ue_map_t) :
    List.Sublist ((l.filterMap (fun q => (f q).map (fun v => (q.1, v)))).map Prod.fst)
      (l.map Prod.fst) := by
  induction l with
  | nil => simp
  | cons q rest ih =>
    rcases hf : f q with _ | v
    · simp only [List.filterMap_cons, hf, Option.map_none', List.map_cons]
      exact List.Sublist.cons _ ih
    · simp only [List.filterMap_cons, hf, Option.map_some', List.map_cons]
      exact List.Sublist.cons₂ _ ih

/-- Number of entries that the reservations built by `start` keep under a
key: one for a UE of the table that was reserved, none otherwise. -/
theorem count_keys_filterMap (f : Nat × ue → Option slot_ue) (l : ue_map_t)
    (hnd : (l.map Prod.fst).Nodup) :
    (∀ p ∈ l, ((l.filterMap (fun q => (f q).map (fun v => (q.1, v)))).map Prod.fst).count p.1 =
      if (f p).isSome then 1 else 0) ∧
    (∀ rnti, rnti ∉ l.map Prod.fst →
      ((l.filterMap (fun q => (f q).map (fun v => (q.1, v)))).map Prod.fst).count rnti = 0) := by
  have hsub := keys_filterMap_sublist f l
  have hnd2 := hnd.sublist hsub
  have hlk := lookup_filterMap f l hnd
  refine ⟨?_, ?_⟩
  · intro p hp
    rw [List.count_eq_of_nodup hnd2]
    have := hlk p hp
    rcases hf : f p with _ | v
    · rw [hf] at this
      have hnm : p.1 ∉ (l.filterMap (fun q => (f q).map (fun v => (q.1, v)))).map Prod.fst := by
        intro hm
        simp only [List.mem_map] at hm
        obtain ⟨e, he, hk⟩ := hm
        have hne : List.lookup p.1 (l.filterMap (fun q => (f q).map (fun v => (q.1, v)))) ≠
            Option.none := by
          intro hcontra
          rw [List.lookup_eq_none_iff] at hcontra
          have := hcontra e he
          simp [hk] at this
        exact hne this
      simp [hnm]
    · rw [hf] at this
      have hm : p.1 ∈ (l.filterMap (fun q => (f q).map (fun v => (q.1, v)))).map Prod.fst := by
        simp only [List.mem_map, List.mem_filterMap, Option.map_eq_some']
        exact ⟨(p.1, v), ⟨p, hp, v, hf, rfl⟩, rfl⟩
      simp [hm]
  · intro rnti hr
    rw [List.count_eq_zero]
    exact fun hm => hr (hsub.subset hm)

namespace slot_cc_worker

/-- What a normal return of `start` leaves in the worker and the table. -/
theorem start_ok_eq (G : grid_ops) (s s1 : worker_scope) (t : tti_point)
    (h : start G s t = .ok s1 ()) :
    s1.worker.slot_ues = (start_loop t s.worker.cfg.cc s.ue_db s.worker.slot_ues).2 ∧
    s1.ue_db = (start_loop t s.worker.cfg.cc s.ue_db s.worker.slot_ues).1 ∧
    s1.worker.tti_rx = t := by
  unfold start at h
  split at h
  · cases h
  · injection h with h _
    subst h
    exact ⟨rfl, rfl, rfl⟩

theorem run_local_inv (G : grid_ops) (others : Nat → Nat) (s s1 : worker_scope)
    (h : run G s = .ok s1 ()) (hinv : local_inv others s.worker s.ue_db) :
    local_inv others s1.worker s1.ue_db := by
  obtain ⟨h1, h2, _, h4⟩ := run_keeps_worker G s s1 h
  obtain ⟨i1, i2, i3, i4⟩ := hinv
  refine ⟨by rw [h4]; exact i1, ?_, ?_, ?_⟩
  · intro p hp
    rw [h4] at hp
    simpa [key_count, h2] using i2 p hp
  · intro r hr
    rw [h4] at hr
    simpa [key_count, h2] using i3 r hr
  · exact ⟨fun hr => by rw [h2]; exact i4.1 (by simpa [running, h1] using hr),
      fun e he => i4.2 e (by rw [h2] at he; exact he)⟩

theorem end_tti_local_inv (others : Nat → Nat) (s s1 : worker_scope)
    (h : end_tti s = .ok s1 ()) (hinv : local_inv others s.worker s.ue_db) :
    local_inv others s1.worker s1.ue_db := by
  obtain ⟨i1, i2, i3, i4⟩ := hinv
  unfold end_tti at h
  split at h
  · cases h
  · injection h with h _
    subst h
    simp only [release_all_eq _ i4.2]
    have hkeys : (s.ue_db.map (fun p => if p.1 ∈ s.worker.slot_ues.map Prod.fst
        then (p.1, { p.2 with busy := false }) else p)).map Prod.fst = s.ue_db.map Prod.fst := by
      rw [List.map_map]
      apply List.map_congr_left
      intro p _
      simp only [Function.comp]
      split <;> rfl
    refine ⟨by rw [hkeys]; exact i1, ?_, ?_, ⟨fun _ => rfl, by simp⟩⟩
    · intro p1 hp1
      simp only [List.mem_map] at hp1
      obtain ⟨p, hp, rfl⟩ := hp1
      have h2 := i2 p hp
      simp only [key_count, List.map_nil, List.count_nil, Nat.add_zero] at h2 ⊢
      by_cases hm : p.1 ∈ s.worker.slot_ues.map Prod.fst
      · have hpos : 0 < (s.worker.slot_ues.map Prod.fst).count p.1 := List.count_pos_iff.mpr hm
        have hm1 : ∃ a ∈ s.worker.slot_ues, a.1 = p.1 := List.mem_map.mp hm
        simp only [hm1, if_true]
        have h0 : others p.1 = 0 := by split at h2 <;> omega
        simp [h0]
      · have hz : (s.worker.slot_ues.map Prod.fst).count p.1 = 0 := List.count_eq_zero.mpr hm
        have hm1 : ¬ ∃ a ∈ s.worker.slot_ues, a.1 = p.1 := fun h => hm (List.mem_map.mpr h)
        simp only [hm1, if_false]
        omega
    · intro r hr
      rw [hkeys] at hr
      have h3 := i3 r hr
      simp only [key_count, List.map_nil, List.count_nil, Nat.add_zero] at h3 ⊢
      omega

theorem start_local_inv (G : grid_ops) (t : tti_point) (hv : t.is_valid = true)
    (others : Nat → Nat) (s s1 : worker_scope)
    (h : start G s t = .ok s1 ()) (hinv : local_inv others s.worker s.ue_db) :
    local_inv others s1.worker s1.ue_db := by
  obtain ⟨i1, i2, i3, i4⟩ := hinv
  obtain ⟨hidle, hrun⟩ := start_ok G s s1 t h
  obtain ⟨e1, e2, _⟩ := start_ok_eq G s s1 t h
  have hempty := i4.1 hidle
  rw [hempty, start_loop_eq t s.worker.cfg.cc s.ue_db [] i1 (by simp)] at e1 e2
  simp only [List.nil_append] at e1 e2
  have hf : (fun p : Nat × ue =>
        if (p.2.try_reserve t s.worker.cfg.cc).1.empty then Option.none
        else some (p.1, (p.2.try_reserve t s.worker.cfg.cc).1)) =
      (fun q => (if (q.2.try_reserve t s.worker.cfg.cc).1.empty then Option.none
        else some (q.2.try_reserve t s.worker.cfg.cc).1).map (fun v => (q.1, v))) := by
    funext p
    split <;> rfl
  rw [hf] at e1
  obtain ⟨c1, c2⟩ := count_keys_filterMap (fun q => if (q.2.try_reserve t s.worker.cfg.cc).1.empty
    then Option.none else some (q.2.try_reserve t s.worker.cfg.cc).1) s.ue_db i1
  have hkeys : s1.ue_db.map Prod.fst = s.ue_db.map Prod.fst := by
    rw [e2, List.map_map]
    rfl
  refine ⟨by rw [hkeys]; exact i1, ?_, ?_, ⟨fun hr => by simp [hrun hv] at hr, ?_⟩⟩
  · intro p1 hp1
    rw [e2] at hp1
    simp only [List.mem_map] at hp1
    obtain ⟨p, hp, rfl⟩ := hp1
    have h2 := i2 p hp
    have hc := c1 p hp
    simp only [key_count, hempty, List.map_nil, List.count_nil, Nat.add_zero, e1] at h2 ⊢
    rw [hc]
    have hres : (p.2.try_reserve t s.worker.cfg.cc).1.empty = p.2.busy ∧
        (p.2.try_reserve t s.worker.cfg.cc).2.busy = true := by
      unfold ue.try_reserve
      by_cases hb : p.2.busy = true <;> simp [hb, slot_ue.empty, slot_ue.none]
    rw [hres.1]
    simp only [hres.2, if_true]
    by_cases hb : p.2.busy = true
    · simp [hb] at h2 ⊢
      omega
    · simp [hb] at h2 ⊢
      omega
  · intro r hr
    rw [hkeys] at hr
    have h3 := i3 r hr
    have hc := c2 r hr
    simp only [key_count, hempty, List.map_nil, List.count_nil, Nat.add_zero, e1] at h3 ⊢
    omega
  · intro e he
    rw [e1] at he
    simp only [List.mem_filterMap, Option.map_eq_some'] at he
    obtain ⟨p, _, v, hv1, rfl⟩ := he
    split at hv1
    · cases hv1
    · rename_i hne
      injection hv1 with hv1
      subst hv1
      simpa [slot_ue.empty] using hne

end slot_cc_worker

namespace sched_worker_manager

theorem map_set_same {α β : Type} (f : α → β) (l : List α) (i : Nat) (a x : α)
    (h : l[i]? = some a) (hf : f x = f a) : (l.set i x).map f = l.map f := by
  apply List.ext_getElem?
  intro j
  by_cases hj : i = j
  · subst hj
    have hi := lt_length_of_getElem?_eq_some _ _ _ h
    have ha : l[i] = a := by
      rw [List.getElem?_eq_getElem hi] at h
      exact Option.some.inj h
    simp [List.getElem?_map, hi, hf, ha]
  · simp [List.getElem?_map, List.getElem?_set, hj]

/-- The consistency of the reservations only depends on the UE table and on
the workers of the contexts. -/
theorem consistent_congr (m m1 : sched_worker_manager) (hdb : m1.ue_db = m.ue_db)
    (hw : m1.slot_ctxts.map (fun c => c.workers) = m.slot_ctxts.map (fun c => c.workers))
    (h : m.reservations_consistent) : m1.reservations_consistent := by
  have hk : ∀ rnti, m1.key_count rnti = m.key_count rnti := by
    intro rnti
    have e : ∀ l : List slot_worker_ctxt,
        l.map (fun ctx => (ctx.workers.map (fun w => w.key_count rnti)).sum) =
          (l.map (fun c => c.workers)).map
            (fun ws => (ws.map (fun w : slot_cc_worker => w.key_count rnti)).sum) := by
      intro l
      rw [List.map_map]
      rfl
    rw [key_count, key_count, e, e, hw]
  obtain ⟨i1, i2, i3, i4⟩ := h
  refine ⟨by rw [hdb]; exact i1, ?_, ?_, ?_⟩
  · intro p hp
    rw [hk]
    exact i2 p (by rw [hdb] at hp; exact hp)
  · intro r hr
    rw [hk]
    exact i3 r (by rw [hdb] at hr; exact hr)
  · intro c hc w hwm
    have : c.workers ∈ m1.slot_ctxts.map (fun c => c.workers) := List.mem_map_of_mem _ hc
    rw [hw, List.mem_map] at this
    obtain ⟨c0, hc0, e⟩ := this
    exact i4 c0 hc0 w (by rw [e]; exact hwm)

theorem consistent_init (cfg : sched_params) (cap : Nat) (ue_db : ue_map_t)
    (hnd : (ue_db.map Prod.fst).Nodup) (hfree : ∀ p ∈ ue_db, p.2.busy = false) :
    (init cfg cap ue_db).reservations_consistent := by
  have hk : ∀ rnti, (init cfg cap ue_db).key_count rnti = 0 := by
    intro rnti
    simp only [key_count, init, List.map_replicate, List.map_map]
    rw [List.sum_replicate]
    have : (List.map ((fun w : slot_cc_worker => w.key_count rnti) ∘ fun c =>
        ({ cfg := c, tti_rx := tti_point.invalid, slot_ues := [], res_grid := [] } :
          slot_cc_worker)) cfg.cells).sum = 0 := by
      rw [List.sum_eq_zero]
      intro x hx
      simp only [List.mem_map, Function.comp] at hx
      obtain ⟨_, _, rfl⟩ := hx
      rfl
    simp [this]
  refine ⟨hnd, ?_, fun r _ => hk r, ?_⟩
  · intro p hp
    rw [hk]
    simp [init] at hp
    simp [hfree p hp]
  · intro c hc w hw
    simp only [init, List.mem_replicate] at hc
    obtain ⟨_, rfl⟩ := hc
    simp only [List.mem_map] at hw
    obtain ⟨_, _, rfl⟩ := hw
    exact ⟨fun _ => rfl, by simp⟩

theorem consistent_step (G : grid_ops) (D : Nat) (m m1 : sched_worker_manager) (c : call)
    (hv : c.tti.is_valid = true) (h : m.step G D c = some m1)
    (hinv : m.reservations_consistent) : m1.reservations_consistent := by
  cases c with
  | reserve_workers t =>
    simp only [step] at h
    obtain ⟨ctx, hc, _, rfl⟩ := reserve_workers_some m m1 t h
    exact consistent_congr m _ rfl (map_set_same _ _ _ ctx _ hc rfl) hinv
  | start_tti t =>
    simp only [step] at h
    rcases hs : m.start_tti G t with ⟨m2, u⟩ | ⟨m2, msg⟩
    · simp only [hs, Option.some.injEq] at h
      subst h
      unfold start_tti at hs
      rcases hc : m.slot_ctxts[m.get_sf t]? with _ | ctx
      · simp [hc] at hs
      · simp only [hc] at hs
        split at hs
        · cases hs
        · rename_i ht
          have ht : ctx.tti_rx = t := by simpa using ht
          rw [ht] at hs
          exact for_workers_consistent _ _
            (fun o s s1 => slot_cc_worker.start_local_inv G t hv o s s1) _ _ _ hs hinv
    · simp [hs] at h
  | run_tti t cc =>
    simp only [step] at h
    rcases hs : m.run_tti G D t cc slot_res_t.init with ⟨⟨m2, r2⟩, b⟩ | ⟨m2, msg⟩
    · simp only [hs, Option.some.injEq] at h
      subst h
      obtain ⟨ctx, m3, _, _, h1, h2⟩ := run_tti_ok G D m m2 t cc _ r2 b hs
      have h3 := on_worker_consistent m m3 _ cc _
        (fun o s s1 => slot_cc_worker.run_local_inv G o s s1) h1 hinv
      obtain ⟨ctx1, hc1, _, _, _, hsl, hdb, _⟩ := finish_run_ok _ _ _ _ _ _ _ h2
      exact consistent_congr m3 m2 hdb
        (by rw [hsl]; exact map_set_same _ _ _ ctx1 _ hc1 rfl) h3
    · simp [hs] at h
  | end_tti t =>
    simp only [step] at h
    rcases hs : m.end_tti t with ⟨m2, u⟩ | ⟨m2, msg⟩
    · simp only [hs, Option.some.injEq] at h
      subst h
      unfold end_tti at hs
      rcases hc : m.slot_ctxts[m.get_sf t]? with _ | ctx
      · simp [hc] at hs
      · simp only [hc] at hs
        split at hs
        · cases hs
        · split at hs
          · cases hs
          · rcases hf : for_workers (m.get_sf t) slot_cc_worker.end_tti
                (List.range ctx.workers.length) m with ⟨m3, u⟩ | ⟨m3, msg⟩
            · simp only [hf] at hs
              have h3 := for_workers_consistent _ _
                (fun o s s1 => slot_cc_worker.end_tti_local_inv o s s1) _ _ _ hf hinv
              rcases hc3 : m3.slot_ctxts[m.get_sf t]? with _ | ctx3
              · simp [hc3] at hs
              · simp only [hc3] at hs
                injection hs with hs _
                subst hs
                exact consistent_congr m3 _ rfl (map_set_same _ _ _ ctx3 _ hc3 rfl) h3
            · simp [hf] at hs
    · simp [hs] at h

theorem consistent_exec (G : grid_ops) (D : Nat) :
    ∀ (cs : List call) (m m1 : sched_worker_manager), (∀ c ∈ cs, c.tti.is_valid = true) →
      exec G D cs m = some m1 → m.reservations_consistent → m1.reservations_consistent := by
  intro cs
  induction cs with
  | nil =>
    intro m m1 _ h hinv
    simp only [exec, Option.some.injEq] at h
    rw [← h]; exact hinv
  | cons c rest ih =>
    intro m m1 hv h hinv
    simp only [exec] at h
    rcases hs : m.step G D c with _ | m2
    · simp [hs] at h
    · simp only [hs] at h
      exact ih m2 m1 (fun c1 hc1 => hv c1 (by simp [hc1])) h
        (consistent_step G D m m2 c (hv c (by simp)) hs hinv)

theorem nof_holders_le_key_count (m : sched_worker_manager) (rnti : Nat) :
    m.nof_holders rnti ≤ m.key_count rnti := by
  have hw : ∀ ws : List slot_cc_worker,
      (ws.filter (fun w => slot_ue_map_t.contains w.slot_ues rnti)).length ≤
        (ws.map (fun w => w.key_count rnti)).sum := by
    intro ws
    induction ws with
    | nil => simp
    | cons w rest ih =>
      simp only [List.filter_cons, List.map_cons, List.sum_cons]
      split
      · rename_i hcont
        have : 0 < w.key_count rnti := by
          rw [slot_cc_worker.key_count, List.count_pos_iff]
          by_contra hn
          simp [slot_ue_map_t.contains, lookup_eq_none_of_not_mem _ _ hn] at hcont
        simp only [List.length_cons]
        omega
      · omega
  unfold nof_holders key_count
  generalize m.slot_ctxts = l
  induction l with
  | nil => simp
  | cons c rest ih =>
    simp only [List.map_cons, List.sum_cons]
    have := hw c.workers
    omega

end sched_worker_manager

/-- C8: mutual exclusion of UE reservations. From a freshly constructed
manager over a UE table with distinct RNTIs and no UE reserved, after any
sequence of driver calls for TTIs (valid slot indices) that return normally,
every UE is in the `slot_ues` of at most one worker, over all carriers and
all contexts. -/
theorem ue_mutual_exclusion (G : grid_ops) (TX_ENB_DELAY : Nat) (cfg : sched_params)
    (TTIMOD_SZ : Nat) (ue_db : ue_map_t) (calls : List call) (m : sched_worker_manager)
    (hnd : (ue_db.map Prod.fst).Nodup) (hfree : ∀ p ∈ ue_db, p.2.busy = false)
    (hv : ∀ c ∈ calls, c.tti.is_valid = true)
    (h : (sched_worker_manager.init cfg TTIMOD_SZ ue_db).exec G TX_ENB_DELAY calls = some m) :
    ∀ rnti, m.nof_holders rnti ≤ 1 := by
  intro rnti
  obtain ⟨_, i2, i3, _⟩ := sched_worker_manager.consistent_exec G TX_ENB_DELAY calls _ m hv h
    (sched_worker_manager.consistent_init cfg TTIMOD_SZ ue_db hnd hfree)
  have hle := sched_worker_manager.nof_holders_le_key_count m rnti
  by_cases hm : rnti ∈ m.ue_db.map Prod.fst
  · simp only [List.mem_map] at hm
    obtain ⟨p, hp, rfl⟩ := hm
    have := i2 p hp
    split at this <;> omega
  · have := i3 rnti hm
    omega

/-- Witness of C8 on the example manager: after TTI 4 and TTI 5 have both been
reserved and started, on two contexts of two carriers each, UE 70 is held by
exactly one worker. -/
theorem ue_mutual_exclusion_witness :
    ∃ m, ex_manager.exec (grid_ops.record 4) 4
        [.reserve_workers ⟨4⟩, .start_tti ⟨4⟩, .reserve_workers ⟨5⟩, .start_tti ⟨5⟩] = some m ∧
      m.nof_holders 70 = 1 ∧ ∀ rnti, m.nof_holders rnti ≤ 1 :=
  ⟨_, rfl, by decide,
   ue_mutual_exclusion (grid_ops.record 4) 4 ex_cfg 10 ex_ue_db
     [.reserve_workers ⟨4⟩, .start_tti ⟨4⟩, .reserve_workers ⟨5⟩, .start_tti ⟨5⟩] _
     (by decide) (by decide) (by decide) rfl⟩

end SchedNr

namespace SchedNr

/-! ## Masks and scenarios of `run` -/

/-- The mask built by `rbgmask_t mask(n); mask.fill(0, mask.size(), true)`: `n`
bits, all set. -/
theorem full_mask_eq (n : Nat) :
    rbgmask_t.fill (rbgmask_t.init n) 0 (rbgmask_t.init n).length true = List.replicate n true := by
  rw [List.eq_replicate_iff]
  refine ⟨by simp [rbgmask_t.fill, rbgmask_t.init], ?_⟩
  intro b hb
  simp only [rbgmask_t.fill, List.mem_map] at hb
  obtain ⟨p, hp, rfl⟩ := hb
  have := List.fst_lt_of_mem_enum hp
  simp [this]

namespace slot_cc_worker

theorem new_calls_alloc_dl_ues_mask (G : grid_ops) (s : worker_scope) :
    ∀ c ∈ new_calls (alloc_dl_ues G) s,
      ∃ ue, c = grid_call.alloc_pdsch ue (List.replicate s.worker.cfg.nof_rbg true) := by
  intro c hc
  rw [new_calls_alloc_dl_ues_eq, full_mask_eq] at hc
  split at hc
  · cases hc
  · split at hc
    · cases hc
    · exact ⟨_, List.mem_singleton.mp hc⟩

theorem new_calls_alloc_ul_ues_mask (G : grid_ops) (s : worker_scope) :
    ∀ c ∈ new_calls (alloc_ul_ues G) s,
      ∃ ue, c = grid_call.alloc_pusch ue (List.replicate s.worker.cfg.nof_rbg true) := by
  intro c hc
  rw [new_calls_alloc_ul_ues_eq, full_mask_eq] at hc
  split at hc
  · cases hc
  · split at hc
    · cases hc
    · exact ⟨_, List.mem_singleton.mp hc⟩

/-- A call added by `run` is a call of one of the allocation steps or the
final `generate_dcis`. -/
theorem mem_run_new_calls (G : grid_ops) (s s1 : worker_scope) (h : run G s = .ok s1 ())
    (c : grid_call) (hc : c ∈ s1.worker.res_grid.drop s.worker.res_grid.length) :
    c ∈ new_calls (alloc_dl_ues G) s ∨ c ∈ new_calls (alloc_ul_ues G) s ∨
      c = grid_call.generate_dcis := by
  rw [run_new_calls G s s1 h] at hc
  simp only [List.mem_append, List.mem_singleton] at hc
  rcases hc with hc | hc
  · split at hc
    · rcases List.mem_append.mp hc with h1 | h1
      · exact Or.inl h1
      · exact Or.inr (Or.inl h1)
    · rcases List.mem_append.mp hc with h1 | h1
      · exact Or.inr (Or.inl h1)
      · exact Or.inl h1
  · exact Or.inr (Or.inr hc)

end slot_cc_worker

/-- C11: full-mask grant. Every `alloc_pdsch` and every `alloc_pusch` call that
`run` adds to the history of `res_grid` carries a mask of length
`cfg.cell_cfg.nof_rbg` in which every bit is set. -/
theorem run_grants_full_mask (G : grid_ops) (s s1 : worker_scope)
    (h : slot_cc_worker.run G s = .ok s1 ()) :
    ∀ c ∈ s1.worker.res_grid.drop s.worker.res_grid.length, ∀ ue mask,
      (c = grid_call.alloc_pdsch ue mask ∨ c = grid_call.alloc_pusch ue mask) →
      mask.length = s.worker.cfg.nof_rbg ∧ (∀ b ∈ mask, b = true) ∧
        mask = List.replicate s.worker.cfg.nof_rbg true := by
  intro c hc ue mask hcm
  have hm : mask = List.replicate s.worker.cfg.nof_rbg true := by
    rcases slot_cc_worker.mem_run_new_calls G s s1 h c hc with h1 | h1 | h1
    · obtain ⟨u, hu⟩ := slot_cc_worker.new_calls_alloc_dl_ues_mask G s c h1
      rcases hcm with h2 | h2
      · rw [h2] at hu
        injection hu with _ hu
      · rw [h2] at hu
        cases hu
    · obtain ⟨u, hu⟩ := slot_cc_worker.new_calls_alloc_ul_ues_mask G s c h1
      rcases hcm with h2 | h2
      · rw [h2] at hu
        cases hu
      · rw [h2] at hu
        injection hu with _ hu
    · rcases hcm with h2 | h2 <;> (rw [h2] at h1; cases h1)
  subst hm
  exact ⟨by simp, fun b hb => (List.mem_replicate.mp hb).2, rfl⟩

/-- Witness of C11 at a worker started at TTI 4 whose only reserved UE has
pending data in both directions: both grants carry the mask of three set
bits. -/
theorem run_grants_full_mask_witness :
    ∃ s1, slot_cc_worker.run (grid_ops.record 4) (ex_running_scope ex_ue_db_first_busy ⟨4⟩) =
        .ok s1 () ∧
      (s1.worker.res_grid.drop
        (ex_running_scope ex_ue_db_first_busy ⟨4⟩).worker.res_grid.length).length = 3 ∧
      ∀ c ∈ s1.worker.res_grid.drop
          (ex_running_scope ex_ue_db_first_busy ⟨4⟩).worker.res_grid.length, ∀ ue mask,
        (c = grid_call.alloc_pdsch ue mask ∨ c = grid_call.alloc_pusch ue mask) →
        mask.length = 3 ∧ (∀ b ∈ mask, b = true) ∧ mask = List.replicate 3 true :=
  ⟨_, rfl, by decide,
   run_grants_full_mask (grid_ops.record 4) (ex_running_scope ex_ue_db_first_busy ⟨4⟩) _ rfl⟩

end SchedNr

namespace SchedNr

/-- C12: basic round robin. When a running worker at an even TTI has reserved
two UEs of which the first has pending downlink data and no uplink data (in
particular when both have), `run` returns normally and the calls it adds to
the history of `res_grid` are exactly one `alloc_pdsch`, for the first of the
two UEs and with the mask of `nof_rbg` set bits, followed by one
`generate_dcis`: no uplink grant is recorded. -/
theorem basic_round_robin (G : grid_ops) (s : worker_scope) (rnti1 rnti2 : Nat)
    (ue1 ue2 : slot_ue) (hrun : s.worker.running = true)
    (heven : s.worker.tti_rx.to_uint % 2 = 0)
    (hues : s.worker.slot_ues = [(rnti1, ue1), (rnti2, ue2)])
    (hdl1 : ue1.h_dl ≠ Option.none) (hul1 : ue1.h_ul = Option.none) :
    ∃ s1, slot_cc_worker.run G s = .ok s1 () ∧
      s1.worker.res_grid.drop s.worker.res_grid.length =
        [grid_call.alloc_pdsch ue1 (List.replicate s.worker.cfg.nof_rbg true),
         grid_call.generate_dcis] ∧
      (∀ ue ulmask, grid_call.alloc_pusch ue ulmask ∉
        s1.worker.res_grid.drop s.worker.res_grid.length) ∧
      (s1.worker.res_grid.drop s.worker.res_grid.length).count grid_call.generate_dcis = 1 := by
  have hr := slot_cc_worker.run_running G s hrun
  generalize worker_scope.res_grid_call G grid_call.generate_dcis _ = s1 at hr
  have hnew := slot_cc_worker.run_new_calls G s s1 hr
  have hp : s.worker.tti_rx.to_uint &&& 1 = 0 := by rw [Nat.and_one_is_mod]; exact heven
  rw [slot_cc_worker.new_calls_alloc_dl_ues_eq, slot_cc_worker.new_calls_alloc_ul_ues_eq,
    full_mask_eq, hues] at hnew
  simp only [hp, if_true, hdl1, hul1, if_false, List.append_nil, List.singleton_append] at hnew
  refine ⟨s1, hr, hnew, ?_, ?_⟩
  · intro ue m
    rw [hnew]
    simp
  · rw [hnew]
    simp

/-- Witness of C12 at a worker started at TTI 4 over two UEs with pending
downlink data only. -/
theorem basic_round_robin_witness :
    ∃ s1, slot_cc_worker.run (grid_ops.record 4) (ex_running_scope ex_ue_db_two_dl ⟨4⟩) =
        .ok s1 () ∧
      s1.worker.res_grid.drop (ex_running_scope ex_ue_db_two_dl ⟨4⟩).worker.res_grid.length =
        [grid_call.alloc_pdsch
           { held := true, rnti := 70, tti_rx := ⟨4⟩, cc := 0, h_dl := some 0,
             h_ul := Option.none }
           (List.replicate (ex_running_scope ex_ue_db_two_dl ⟨4⟩).worker.cfg.nof_rbg true),
         grid_call.generate_dcis] :=
  (basic_round_robin (grid_ops.record 4) (ex_running_scope ex_ue_db_two_dl ⟨4⟩) 70 71
    { held := true, rnti := 70, tti_rx := ⟨4⟩, cc := 0, h_dl := some 0, h_ul := Option.none }
    { held := true, rnti := 71, tti_rx := ⟨4⟩, cc := 0, h_dl := some 1, h_ul := Option.none }
    (by decide) (by decide) (by decide) (by decide) rfl).imp
    (fun _ hs => ⟨hs.1, hs.2.1⟩)

/-- C13: resource exhaustion is not fatal. On a running worker that reserved
no UE (`slot_ues` is empty), `run` returns normally; all it does is the call
of `generate_dcis`: no downlink and no uplink grant is recorded, and the UE
table and the (empty) reservations are left as they are, whatever the table
holds. -/
theorem run_without_ues (G : grid_ops) (s : worker_scope) (hrun : s.worker.running = true)
    (hues : s.worker.slot_ues = []) :
    slot_cc_worker.run G s = .ok (s.res_grid_call G .generate_dcis) () ∧
    (s.res_grid_call G .generate_dcis).worker.res_grid.drop s.worker.res_grid.length =
      [grid_call.generate_dcis] ∧
    (∀ ue mask, grid_call.alloc_pdsch ue mask ∉
      (s.res_grid_call G .generate_dcis).worker.res_grid.drop s.worker.res_grid.length) ∧
    (∀ ue mask, grid_call.alloc_pusch ue mask ∉
      (s.res_grid_call G .generate_dcis).worker.res_grid.drop s.worker.res_grid.length) ∧
    (s.res_grid_call G .generate_dcis).ue_db = s.ue_db ∧
    (s.res_grid_call G .generate_dcis).worker.slot_ues = [] ∧
    (∀ ue_db : ue_map_t, slot_cc_worker.run G { s with ue_db := ue_db } =
      .ok (worker_scope.res_grid_call G .generate_dcis { s with ue_db := ue_db }) ()) := by
  have hdl : ∀ s0 : worker_scope, s0.worker.slot_ues = [] →
      slot_cc_worker.alloc_dl_ues G s0 = s0 := by
    intro s0 h0
    simp [slot_cc_worker.alloc_dl_ues, h0]
  have hul : ∀ s0 : worker_scope, s0.worker.slot_ues = [] →
      slot_cc_worker.alloc_ul_ues G s0 = s0 := by
    intro s0 h0
    simp [slot_cc_worker.alloc_ul_ues, h0]
  have hr : ∀ s0 : worker_scope, s0.worker.running = true → s0.worker.slot_ues = [] →
      slot_cc_worker.run G s0 = .ok (s0.res_grid_call G .generate_dcis) () := by
    intro s0 h1 h0
    rw [slot_cc_worker.run_running G s0 h1, hdl s0 h0, hul s0 h0, hdl s0 h0]
    simp
  refine ⟨hr s hrun hues, by simp, by simp, by simp, rfl, hues, ?_⟩
  intro ue_db
  exact hr _ hrun hues

/-- Witness of C13 at a worker started at TTI 4 over an empty UE table. -/
theorem run_without_ues_witness :
    (ex_running_scope [] ⟨4⟩).worker.running = true ∧
    (ex_running_scope [] ⟨4⟩).worker.slot_ues = [] ∧
    slot_cc_worker.run (grid_ops.record 4) (ex_running_scope [] ⟨4⟩) =
      .ok ((ex_running_scope [] ⟨4⟩).res_grid_call (grid_ops.record 4) .generate_dcis) () :=
  ⟨by decide, by decide,
   (run_without_ues (grid_ops.record 4) (ex_running_scope [] ⟨4⟩) (by decide) (by decide)).1⟩

end SchedNr

namespace SchedNr

/-! ## Contracts of the manager calls -/

/-- C14: `reserve_workers(t)` acts on the context with index
`t.to_uint() % N`, which is smaller than `N` whenever the manager has
`N >= 1` contexts. It completes when the semaphore of that context is
positive; it then takes the semaphore, sets the active TTI of the context to
`t` and its counter to the number of its workers, and leaves its workers, all
other contexts, the grid and the UE table as they are. -/
theorem reserve_workers_sets_context (m : sched_worker_manager) (t : tti_point)
    (hN : 1 ≤ m.slot_ctxts.length) :
    m.get_sf t = t.to_uint % m.slot_ctxts.length ∧ m.get_sf t < m.slot_ctxts.length ∧
    ∃ ctx, m.slot_ctxts[m.get_sf t]? = some ctx ∧
      (0 < ctx.sf_sem → ∃ m1, m.reserve_workers t = some m1) ∧
      (ctx.sf_sem = 0 → m.reserve_workers t = Option.none) ∧
      ∀ m1, m.reserve_workers t = some m1 →
        (∃ ctx1, m1.slot_ctxts[m.get_sf t]? = some ctx1 ∧ ctx1.tti_rx = t ∧
          ctx1.worker_count = (ctx.workers.length : Int) ∧ ctx1.workers = ctx.workers ∧
          ctx1.sf_sem + 1 = ctx.sf_sem) ∧
        (∀ j : Nat, j ≠ m.get_sf t → m1.slot_ctxts[j]? = m.slot_ctxts[j]?) ∧
        m1.slot_ctxts.length = m.slot_ctxts.length ∧
        m1.phy_grid = m.phy_grid ∧ m1.ue_db = m.ue_db := by
  have hlt : m.get_sf t < m.slot_ctxts.length := Nat.mod_lt _ hN
  refine ⟨rfl, hlt, m.slot_ctxts[m.get_sf t], by simp [hlt], ?_, ?_, ?_⟩
  · intro hpos
    have : ¬ (m.slot_ctxts[m.get_sf t]).sf_sem = 0 := by omega
    exact ⟨_, by simp [sched_worker_manager.reserve_workers, hlt, this]; rfl⟩
  · intro hz
    simp [sched_worker_manager.reserve_workers, hlt, hz]
  · intro m1 h
    obtain ⟨ctx, hc, hpos, rfl⟩ := sched_worker_manager.reserve_workers_some m m1 t h
    have hctx : ctx = m.slot_ctxts[m.get_sf t] := by
      rw [List.getElem?_eq_getElem hlt] at hc
      exact (Option.some.inj hc).symm
    subst hctx
    refine ⟨⟨{ m.slot_ctxts[m.get_sf t] with
        sf_sem := (m.slot_ctxts[m.get_sf t]).sf_sem - 1, tti_rx := t,
        worker_count := ((m.slot_ctxts[m.get_sf t]).workers.length : Int) },
      by simp [hlt], rfl, rfl, rfl, by simp only; omega⟩, ?_, by simp, rfl, rfl⟩
    intro j hj
    simp [List.getElem?_set, Ne.symm hj]

/-- Witness of C14 on the example manager (two contexts): TTI 5 maps to
context 1 and `reserve_workers(5)` completes. -/
theorem reserve_workers_sets_context_witness :
    1 ≤ ex_manager.slot_ctxts.length ∧ ex_manager.get_sf ⟨5⟩ = 1 ∧
    ex_manager.get_sf ⟨5⟩ < ex_manager.slot_ctxts.length ∧
    (ex_manager.reserve_workers ⟨5⟩).isSome = true :=
  ⟨by decide, by decide,
   (reserve_workers_sets_context ex_manager ⟨5⟩ (by decide)).2.1, by decide⟩

/-- C15: a mismatched TTI is a fatal usage error. When the TTI `t1` differs
from the active TTI of the context it maps to, each of `start_tti(t1)`,
`run_tti(t1, cc, req)` and `end_tti(t1)` fails its first assertion with the
state (and the request) as they were: no worker is started, run or ended, the
counter is not decremented and the semaphore is not posted. -/
theorem mismatched_tti_is_fatal (G : grid_ops) (TX_ENB_DELAY : Nat) (m : sched_worker_manager)
    (t1 : tti_point) (ctx : slot_worker_ctxt) (cc : Nat) (r : slot_res_t)
    (hc : m.slot_ctxts[m.get_sf t1]? = some ctx) (hne : ctx.tti_rx ≠ t1) :
    m.start_tti G t1 = .fatal m "invalid run_tti(tti, cc) arguments" ∧
    m.run_tti G TX_ENB_DELAY t1 cc r = .fatal (m, r) "invalid run_tti(tti, cc) arguments" ∧
    m.end_tti t1 = .fatal m "invalid run_tti(tti, cc) arguments" := by
  refine ⟨?_, ?_, ?_⟩
  · simp [sched_worker_manager.start_tti, hc, hne]
  · simp [sched_worker_manager.run_tti, hc, hne]
  · simp [sched_worker_manager.end_tti, hc, hne]

/-- Witness of C15 on the example manager (two contexts) while TTI 4 is
active on context 0: the calls for TTI 4 + 2 fail. -/
theorem mismatched_tti_is_fatal_witness :
    (ex_started ⟨4⟩).get_sf ((tti_point.mk 4).add 2) = (ex_started ⟨4⟩).get_sf ⟨4⟩ ∧
    (ex_started ⟨4⟩).start_tti (grid_ops.record 4) ((tti_point.mk 4).add 2) =
      .fatal (ex_started ⟨4⟩) "invalid run_tti(tti, cc) arguments" ∧
    (ex_started ⟨4⟩).run_tti (grid_ops.record 4) 4 ((tti_point.mk 4).add 2) 0 slot_res_t.init =
      .fatal (ex_started ⟨4⟩, slot_res_t.init) "invalid run_tti(tti, cc) arguments" ∧
    (ex_started ⟨4⟩).end_tti ((tti_point.mk 4).add 2) =
      .fatal (ex_started ⟨4⟩) "invalid run_tti(tti, cc) arguments" :=
  ⟨by decide,
   mismatched_tti_is_fatal (grid_ops.record 4) 4 (ex_started ⟨4⟩) ((tti_point.mk 4).add 2)
     ((ex_started ⟨4⟩).slot_ctxts.get ⟨0, by decide⟩) 0 slot_res_t.init (by decide) (by decide)⟩

end SchedNr

namespace SchedNr

/-! ## Loops over the workers of a context -/

namespace sched_worker_manager

theorem for_workers_rel (i : Nat) (f : worker_scope → result worker_scope Unit)
    (R : slot_cc_worker → slot_cc_worker → Prop)
    (hR : ∀ s s1, f s = .ok s1 () → R s.worker s1.worker) :
    ∀ (ccs : List Nat) (m m1 : sched_worker_manager) (ctx : slot_worker_ctxt), ccs.Nodup →
      m.slot_ctxts[i]? = some ctx → for_workers i f ccs m = .ok m1 () →
      loop_rel R i ccs m1 ctx := by
  intro ccs
  induction ccs with
  | nil =>
    intro m m1 ctx _ hc h
    simp only [for_workers] at h
    injection h with h1 _
    subst h1
    exact ⟨ctx, hc, by simp, by simp⟩
  | cons cc rest ih =>
    intro m m1 ctx hnd hc h
    simp only [List.nodup_cons] at hnd
    simp only [for_workers] at h
    rcases ho : m.on_worker i cc f with ⟨m2, u⟩ | ⟨m2, msg⟩
    · simp only [ho] at h
      obtain ⟨ctx0, w, g, s1, hc0, hw, hg, hf, rfl⟩ := on_worker_ok m m2 i cc f ho
      rw [hc] at hc0
      injection hc0 with hc0
      subst hc0
      have hi := lt_length_of_getElem?_eq_some _ _ _ hc
      have hcc := lt_length_of_getElem?_eq_some _ _ _ hw
      have hp := put_eq m i cc s1 ctx hc
      have hc2 : (m.put i cc s1).slot_ctxts[i]? =
          some { ctx with workers := ctx.workers.set cc s1.worker } := by
        rw [hp]; simp [hi]
      obtain ⟨ctx1, h1, h6, h7⟩ := ih (m.put i cc s1) m1 _ hnd.2 hc2 h
      refine ⟨ctx1, h1, ?_, ?_⟩
      · intro c hcm
        rcases List.mem_cons.mp hcm with rfl | hcm
        · refine ⟨w, s1.worker, hw, ?_, hR _ _ hf⟩
          rw [h7 c hnd.1]
          simp [hcc]
        · obtain ⟨w0, w1, hw0, hw1, hr⟩ := h6 c hcm
          have hne : cc ≠ c := fun e => hnd.1 (e ▸ hcm)
          refine ⟨w0, w1, ?_, hw1, hr⟩
          simpa [List.getElem?_set, hne] using hw0
      · intro c hcm
        simp only [List.mem_cons, not_or] at hcm
        rw [h7 c hcm.2]
        simp [List.getElem?_set, Ne.symm hcm.1]
    · simp [ho] at h

end sched_worker_manager

end SchedNr

namespace SchedNr

theorem slot_cc_worker.start_of_idle (G : grid_ops) (s : worker_scope) (t : tti_point)
    (h : s.worker.running = false) : ∃ s1, slot_cc_worker.start G s t = .ok s1 () := by
  simp only [slot_cc_worker.start, h]
  exact ⟨_, rfl⟩

/-- C16: `start_tti(t)` starts every carrier worker. When the active TTI of
the context of `t` is `t` (a valid slot index), its `C` workers are all idle
and every carrier has its ring, `start_tti(t)` returns normally; afterwards
the context still has `C` workers, each of them running with
`tti_rx = t`, its semaphore, active TTI and counter are as before, and every
other context, with its workers, is unchanged. -/
theorem start_tti_starts_all (G : grid_ops) (m : sched_worker_manager) (t : tti_point)
    (ctx : slot_worker_ctxt) (hv : t.is_valid = true)
    (hc : m.slot_ctxts[m.get_sf t]? = some ctx) (ht : ctx.tti_rx = t)
    (hidle : ∀ w ∈ ctx.workers, w.running = false)
    (hg : ctx.workers.length ≤ m.phy_grid.length) :
    ∃ m1 ctx1, m.start_tti G t = .ok m1 () ∧ m1.slot_ctxts[m.get_sf t]? = some ctx1 ∧
      ctx1.workers.length = ctx.workers.length ∧
      (∀ w ∈ ctx1.workers, w.running = true ∧ w.tti_rx = t) ∧
      ctx1.tti_rx = t ∧ ctx1.worker_count = ctx.worker_count ∧ ctx1.sf_sem = ctx.sf_sem ∧
      m1.slot_ctxts.length = m.slot_ctxts.length ∧
      (∀ j : Nat, j ≠ m.get_sf t → m1.slot_ctxts[j]? = m.slot_ctxts[j]?) := by
  obtain ⟨m1, h1⟩ := sched_worker_manager.for_workers_ok (m.get_sf t)
    (fun s => slot_cc_worker.start G s t) (fun w => w.running = false)
    (fun s hs => slot_cc_worker.start_of_idle G s t hs)
    (List.range ctx.workers.length) m ctx (List.nodup_range _) hc
    (fun cc hcc => ⟨ctx.workers.get ⟨cc, List.mem_range.mp hcc⟩,
      by simp [List.mem_range.mp hcc], hidle _ (List.get_mem _ _ _)⟩)
    (fun cc hcc => by have := List.mem_range.mp hcc; omega)
  obtain ⟨ctx1, h2, h3, h4, h5, h6, h7, _, h9, h10, _, _⟩ :=
    sched_worker_manager.for_workers_post (m.get_sf t) (fun s => slot_cc_worker.start G s t)
      (fun w => w.running = true ∧ w.tti_rx = t)
      (fun s s1 hst => ⟨(slot_cc_worker.start_ok G s s1 t hst).2 hv,
        (slot_cc_worker.start_ok_eq G s s1 t hst).2.2⟩)
      (List.range ctx.workers.length) m m1 ctx (List.nodup_range _) hc h1
  refine ⟨m1, ctx1, ?_, h2, h6, ?_, by rw [h4, ht], h5, h3, h9, h10⟩
  · simp only [sched_worker_manager.start_tti, hc, ht, ne_eq, not_true_eq_false, if_false]
    rw [← ht]
    exact ht ▸ h1
  · intro w hw
    obtain ⟨n, hn, rfl⟩ := List.getElem_of_mem hw
    obtain ⟨w1, hw1, hr⟩ := h7 n (by simpa [h6] using hn)
    rw [List.getElem?_eq_getElem hn] at hw1
    injection hw1 with hw1
    rw [hw1]; exact hr

/-- Witness of C16 on the example manager after `reserve_workers(4)`. -/
theorem start_tti_starts_all_witness :
    ∃ m1 ctx1, (ex_reserved ⟨4⟩).start_tti (grid_ops.record 4) ⟨4⟩ = .ok m1 () ∧
      m1.slot_ctxts[(ex_reserved ⟨4⟩).get_sf ⟨4⟩]? = some ctx1 ∧ ctx1.workers.length = 2 ∧
      ∀ w ∈ ctx1.workers, w.running = true ∧ w.tti_rx = ⟨4⟩ :=
  (start_tti_starts_all (grid_ops.record 4) (ex_reserved ⟨4⟩) ⟨4⟩
    ((ex_reserved ⟨4⟩).slot_ctxts.get ⟨0, by decide⟩) (by decide) (by decide) (by decide)
    (by decide) (by decide)).imp
    (fun _ h1 => h1.imp (fun _ h2 => ⟨h2.1, h2.2.1, h2.2.2.1, h2.2.2.2.1⟩))

end SchedNr

namespace SchedNr

/-! ## Release of the reservations -/

theorem released_in_release (s : slot_ue) (rnti rnti1 : Nat) (ue_db : ue_map_t)
    (h : released_in rnti1 ue_db) : released_in rnti1 (s.release rnti ue_db) := by
  unfold slot_ue.release
  split
  · intro p hp hk
    simp only [List.mem_map] at hp
    obtain ⟨q, hq, rfl⟩ := hp
    by_cases hq1 : q.1 = rnti
    · simp [hq1]
    · simp only [hq1, if_false] at hk ⊢
      exact h q hq hk
  · exact h

theorem released_in_release_self (s : slot_ue) (rnti : Nat) (ue_db : ue_map_t)
    (hs : s.held = true) : released_in rnti (s.release rnti ue_db) := by
  unfold slot_ue.release
  simp only [hs, if_true]
  intro p hp hk
  simp only [List.mem_map] at hp
  obtain ⟨q, hq, rfl⟩ := hp
  by_cases hq1 : q.1 = rnti
  · simp [hq1]
  · simp only [hq1, if_false] at hk

theorem released_in_release_all (rnti1 : Nat) :
    ∀ (l : slot_ue_map_t) (ue_db : ue_map_t), released_in rnti1 ue_db →
      released_in rnti1 (slot_ue_map_t.release_all l ue_db) := by
  intro l
  induction l with
  | nil => intro ue_db h; exact h
  | cons e rest ih =>
    intro ue_db h
    obtain ⟨rnti, s⟩ := e
    exact ih _ (released_in_release s rnti rnti1 ue_db h)

/-- Clearing `slot_ues` releases every UE it holds. -/
theorem released_in_release_all_mem :
    ∀ (l : slot_ue_map_t) (ue_db : ue_map_t), ∀ e ∈ l, e.2.held = true →
      released_in e.1 (slot_ue_map_t.release_all l ue_db) := by
  intro l
  induction l with
  | nil => intro ue_db e he; cases he
  | cons e0 rest ih =>
    intro ue_db e he hh
    obtain ⟨rnti, s⟩ := e0
    rcases List.mem_cons.mp he with rfl | he1
    · exact released_in_release_all _ rest _ (released_in_release_self s rnti ue_db hh)
    · exact ih _ e he1 hh

namespace slot_cc_worker

/-- What a normal return of `end_tti` leaves in the worker and the table. -/
theorem end_tti_ok_eq (s s1 : worker_scope) (h : end_tti s = .ok s1 ()) :
    s.worker.running = true ∧ s1.worker.running = false ∧ s1.worker.slot_ues = [] ∧
      s1.worker.res_grid = s.worker.res_grid ∧
      s1.ue_db = slot_ue_map_t.release_all s.worker.slot_ues s.ue_db := by
  unfold end_tti at h
  split at h
  · cases h
  · rename_i hr
    injection h with h _
    subst h
    exact ⟨by simpa using hr,
      by simp [running, tti_point.is_valid, tti_point.invalid, TTI_PERIOD], rfl, rfl, rfl⟩

end slot_cc_worker

namespace sched_worker_manager

/-- The loop of `end_tti` over the workers releases every UE held by a worker
it visits, and reserves none. -/
theorem for_workers_end_released (i : Nat) :
    ∀ (ccs : List Nat) (m m1 : sched_worker_manager) (ctx : slot_worker_ctxt), ccs.Nodup →
      m.slot_ctxts[i]? = some ctx → for_workers i slot_cc_worker.end_tti ccs m = .ok m1 () →
      (∀ rnti, released_in rnti m.ue_db → released_in rnti m1.ue_db) ∧
      (∀ cc ∈ ccs, ∀ w, ctx.workers[cc]? = some w → ∀ e ∈ w.slot_ues, e.2.held = true →
        released_in e.1 m1.ue_db) := by
  intro ccs
  induction ccs with
  | nil =>
    intro m m1 ctx _ hc h
    simp only [for_workers] at h
    injection h with h1 _
    subst h1
    exact ⟨fun _ h => h, by simp⟩
  | cons cc rest ih =>
    intro m m1 ctx hnd hc h
    simp only [List.nodup_cons] at hnd
    simp only [for_workers] at h
    rcases ho : m.on_worker i cc slot_cc_worker.end_tti with ⟨m2, u⟩ | ⟨m2, msg⟩
    · simp only [ho] at h
      obtain ⟨ctx0, w, g, s1, hc0, hw, hg, hf, rfl⟩ := on_worker_ok m m2 i cc _ ho
      rw [hc] at hc0
      injection hc0 with hc0
      subst hc0
      have hi := lt_length_of_getElem?_eq_some _ _ _ hc
      have hp := put_eq m i cc s1 ctx hc
      have hc2 : (m.put i cc s1).slot_ctxts[i]? =
          some { ctx with workers := ctx.workers.set cc s1.worker } := by
        rw [hp]; simp [hi]
      obtain ⟨k1, k2⟩ := ih (m.put i cc s1) m1 _ hnd.2 hc2 h
      have hdb : (m.put i cc s1).ue_db = slot_ue_map_t.release_all w.slot_ues m.ue_db := by
        rw [hp]
        exact (slot_cc_worker.end_tti_ok_eq _ s1 hf).2.2.2.2
      refine ⟨?_, ?_⟩
      · intro rnti hr
        exact k1 rnti (by rw [hdb]; exact released_in_release_all rnti _ _ hr)
      · intro c hcm w0 hw0 e he hh
        rcases List.mem_cons.mp hcm with rfl | hcm
        · rw [hw] at hw0
          injection hw0 with hw0
          subst hw0
          exact k1 e.1 (by rw [hdb]; exact released_in_release_all_mem _ _ e he hh)
        · have hne : cc ≠ c := fun e => hnd.1 (e ▸ hcm)
          exact k2 c hcm w0 (by simpa [List.getElem?_set, hne] using hw0) e he hh
    · simp [ho] at h

end sched_worker_manager

end SchedNr

namespace SchedNr

/-- C17: `end_tti(t)` releases everything the TTI held. When the active TTI of
the context of `t` is `t`, its counter is 0, its workers are all running and
every carrier has its ring, the loop over the workers returns normally without
touching any semaphore, and `end_tti(t)` returns normally with that state in
which the semaphore of the context is posted once. Afterwards every worker of
the context is idle with an empty `slot_ues`, every UE that a worker of the
context held is released in the UE table, the other contexts are unchanged,
and `reserve_workers` of any TTI that maps to the context completes. -/
theorem end_tti_releases_all (m : sched_worker_manager) (t : tti_point)
    (ctx : slot_worker_ctxt) (hc : m.slot_ctxts[m.get_sf t]? = some ctx) (ht : ctx.tti_rx = t)
    (hcount : ctx.worker_count = 0) (hrun : ∀ w ∈ ctx.workers, w.running = true)
    (hg : ctx.workers.length ≤ m.phy_grid.length) :
    ∃ m1 ctx1 m2 ctx2,
      sched_worker_manager.for_workers (m.get_sf t) slot_cc_worker.end_tti
        (List.range ctx.workers.length) m = .ok m1 () ∧
      m1.sems = m.sems ∧ m1.slot_ctxts[m.get_sf t]? = some ctx1 ∧
      m.end_tti t = .ok m2 () ∧
      m2 = { m1 with slot_ctxts :=
              (m1.slot_ctxts.set (m.get_sf t) { ctx1 with sf_sem := ctx1.sf_sem + 1 }) } ∧
      m2.slot_ctxts[m.get_sf t]? = some ctx2 ∧
      ctx2.sf_sem = ctx.sf_sem + 1 ∧ ctx2.workers.length = ctx.workers.length ∧
      (∀ w ∈ ctx2.workers, w.running = false ∧ w.slot_ues = []) ∧
      (∀ j : Nat, j ≠ m.get_sf t → m2.slot_ctxts[j]? = m.slot_ctxts[j]?) ∧
      (∀ w ∈ ctx.workers, ∀ e ∈ w.slot_ues, e.2.held = true → released_in e.1 m2.ue_db) ∧
      (∀ t1 : tti_point, m2.get_sf t1 = m.get_sf t → ∃ m3, m2.reserve_workers t1 = some m3) := by
  obtain ⟨m1, h1⟩ := sched_worker_manager.for_workers_ok (m.get_sf t) slot_cc_worker.end_tti
    (fun w => w.running = true)
    (fun s hs => ⟨_, by simp only [slot_cc_worker.end_tti, hs]; rfl⟩)
    (List.range ctx.workers.length) m ctx (List.nodup_range _) hc
    (fun cc hcc => ⟨ctx.workers.get ⟨cc, List.mem_range.mp hcc⟩,
      by simp [List.mem_range.mp hcc], hrun _ (List.get_mem _ _ _)⟩)
    (fun cc hcc => by have := List.mem_range.mp hcc; omega)
  obtain ⟨ctx1, h2, h3, _, _, h6, h7, _, h9, h10, _, _⟩ :=
    sched_worker_manager.for_workers_post (m.get_sf t) slot_cc_worker.end_tti
      (fun w => w.running = false ∧ w.slot_ues = [])
      (fun s s1 hst => ⟨(slot_cc_worker.end_tti_ok_eq s s1 hst).2.1,
        (slot_cc_worker.end_tti_ok_eq s s1 hst).2.2.1⟩)
      (List.range ctx.workers.length) m m1 ctx (List.nodup_range _) hc h1
  obtain ⟨_, k2⟩ := sched_worker_manager.for_workers_end_released (m.get_sf t)
    (List.range ctx.workers.length) m m1 ctx (List.nodup_range _) hc h1
  have hi1 := sched_worker_manager.lt_length_of_getElem?_eq_some _ _ _ h2
  have hend : m.end_tti t = .ok { m1 with slot_ctxts :=
      (m1.slot_ctxts.set (m.get_sf t) { ctx1 with sf_sem := ctx1.sf_sem + 1 }) } () := by
    simp only [sched_worker_manager.end_tti, hc, ht, hcount, ne_eq, not_true_eq_false, if_false,
      h1, h2]
  refine ⟨m1, ctx1, _, { ctx1 with sf_sem := ctx1.sf_sem + 1 }, h1,
    sched_worker_manager.sems_for_workers _ _ _ _ _ h1, h2, hend, rfl, by simp [hi1],
    by simp [h3], h6, ?_, ?_, ?_, ?_⟩
  · intro w hw
    obtain ⟨n, hn, rfl⟩ := List.getElem_of_mem hw
    obtain ⟨w1, hw1, hr⟩ := h7 n (by simpa [h6] using hn)
    simp only at hn
    rw [List.getElem?_eq_getElem hn] at hw1
    injection hw1 with hw1
    have : (ctx1.workers[n]) = w1 := hw1
    simpa [this] using hr
  · intro j hj
    simp only [List.getElem?_set, Ne.symm hj, if_false]
    exact h10 j hj
  · intro w hw e he hh
    obtain ⟨n, hn, rfl⟩ := List.getElem_of_mem hw
    exact k2 n (List.mem_range.mpr hn) _ (List.getElem?_eq_getElem hn) e he hh
  · intro t1 ht1
    simp only [sched_worker_manager.reserve_workers, ht1]
    simp [hi1]

/-- Witness of C17 on the example manager after both carriers have run TTI 4:
`end_tti(4)` returns normally and posts the semaphore of context 0 once. -/
theorem end_tti_releases_all_witness :
    ∃ (m1 : sched_worker_manager) (ctx1 : slot_worker_ctxt) (m2 : sched_worker_manager)
      (ctx2 : slot_worker_ctxt),
      ex_all_run.end_tti ⟨4⟩ = .ok m2 () ∧
      m2 = { m1 with slot_ctxts :=
              (m1.slot_ctxts.set (ex_all_run.get_sf ⟨4⟩) { ctx1 with sf_sem := ctx1.sf_sem + 1 }) } ∧
      ctx2.sf_sem = 0 + 1 ∧
      ∀ w ∈ ctx2.workers, w.running = false ∧ w.slot_ues = [] :=
  (end_tti_releases_all ex_all_run ⟨4⟩ (ex_all_run.slot_ctxts.get ⟨0, by decide⟩) (by decide)
    (by decide) (by decide) (by decide) (by decide)).imp
    (fun _ h1 => h1.imp (fun _ h2 => h2.imp (fun _ h3 => h3.imp (fun _ h4 =>
      ⟨h4.2.2.2.1, h4.2.2.2.2.1, h4.2.2.2.2.2.2.1, h4.2.2.2.2.2.2.2.2.1⟩))))

end SchedNr

namespace SchedNr

/-! ## Histories of the calls on `res_grid` -/

namespace slot_cc_worker

theorem start_res_grid (G : grid_ops) (s s1 : worker_scope) (t : tti_point)
    (h : start G s t = .ok s1 ()) :
    s1.worker.res_grid = s.worker.res_grid ++ [grid_call.new_tti t] := by
  unfold start at h
  split at h
  · cases h
  · injection h with h _
    subst h
    rfl

theorem run_res_grid (G : grid_ops) (s s1 : worker_scope) (h : run G s = .ok s1 ()) :
    ∃ extra, s1.worker.res_grid = s.worker.res_grid ++ extra ∧
      ∀ c ∈ extra, c.is_new_tti = false := by
  refine ⟨s1.worker.res_grid.drop s.worker.res_grid.length, ?_, ?_⟩
  · unfold run at h
    split at h
    · cases h
    · injection h with h1 _
      subst h1
      split <;> simp [alloc_ul_ues_res_grid, alloc_dl_ues_res_grid]
  · intro c hc
    rcases mem_run_new_calls G s s1 h c hc with h1 | h1 | h1
    · obtain ⟨_, _, rfl⟩ := new_calls_alloc_dl_ues G s c h1
      rfl
    · obtain ⟨_, _, rfl⟩ := new_calls_alloc_ul_ues G s c h1
      rfl
    · subst h1
      rfl

end slot_cc_worker

namespace sched_worker_manager

theorem hist_ext_refl (m : sched_worker_manager) (i : Nat) : hist_ext m m i :=
  fun _ w hw => ⟨w, [], hw, by simp, by simp⟩

theorem hist_ext_trans (m m2 m3 : sched_worker_manager) (i : Nat) (h1 : hist_ext m m2 i)
    (h2 : hist_ext m2 m3 i) : hist_ext m m3 i := by
  intro cc w hw
  obtain ⟨w2, e2, hw2, hr2, hn2⟩ := h1 cc w hw
  obtain ⟨w3, e3, hw3, hr3, hn3⟩ := h2 cc w2 hw2
  refine ⟨w3, e2 ++ e3, hw3, by rw [hr3, hr2, List.append_assoc], ?_⟩
  intro c hc
  rcases List.mem_append.mp hc with h | h
  · exact hn2 c h
  · exact hn3 c h

theorem worker_at_put (m : sched_worker_manager) (i cc : Nat) (s1 : worker_scope)
    (ctx : slot_worker_ctxt) (w : slot_cc_worker) (hc : m.slot_ctxts[i]? = some ctx)
    (hw : ctx.workers[cc]? = some w) :
    (m.put i cc s1).worker_at i cc = some s1.worker ∧
    ∀ c : Nat, c ≠ cc → (m.put i cc s1).worker_at i c = m.worker_at i c := by
  have hi := lt_length_of_getElem?_eq_some _ _ _ hc
  have hcc := lt_length_of_getElem?_eq_some _ _ _ hw
  rw [put_eq m i cc s1 ctx hc]
  refine ⟨by simp [worker_at, hi, hcc], ?_⟩
  intro c hne
  simp [worker_at, hi, hc, List.getElem?_set, Ne.symm hne]

theorem worker_at_congr (m m1 : sched_worker_manager)
    (h : m1.slot_ctxts.map (fun c => c.workers) = m.slot_ctxts.map (fun c => c.workers))
    (i cc : Nat) : m1.worker_at i cc = m.worker_at i cc := by
  have e : ∀ m0 : sched_worker_manager, m0.worker_at i cc =
      ((m0.slot_ctxts.map (fun c => c.workers))[i]?).bind (fun ws => ws[cc]?) := by
    intro m0
    simp only [worker_at, List.getElem?_map]
    cases m0.slot_ctxts[i]? <;> rfl
  rw [e, e, h]

/-- One `run_tti` only adds calls other than `new_tti` to the histories. -/
theorem run_tti_hist (G : grid_ops) (D : Nat) (m m2 : sched_worker_manager) (t : tti_point)
    (cc : Nat) (r r2 : slot_res_t) (b : Bool) (h : m.run_tti G D t cc r = .ok (m2, r2) b) :
    hist_ext m m2 (m.get_sf t) := by
  obtain ⟨ctx, m1, hc, _, h1, h2⟩ := run_tti_ok G D m m2 t cc r r2 b h
  obtain ⟨ctx0, w, g, s1, hc0, hw, _, hf, rfl⟩ := on_worker_ok _ _ _ _ _ h1
  obtain ⟨ctx1, hc1, _, _, _, hsl, _, _⟩ := finish_run_ok _ _ _ _ _ _ _ h2
  have hcong : ∀ i c, m2.worker_at i c = (m.put (m.get_sf t) cc s1).worker_at i c :=
    worker_at_congr _ _ (by rw [hsl]; exact map_set_same _ _ _ ctx1 _ hc1 rfl)
  obtain ⟨p1, p2⟩ := worker_at_put m (m.get_sf t) cc s1 ctx0 w hc0 hw
  intro c w0 hw0
  by_cases hcc : c = cc
  · subst hcc
    have : w0 = w := by
      simp only [worker_at, hc0, Option.some_bind, hw] at hw0
      exact (Option.some.inj hw0).symm
    subst this
    obtain ⟨extra, he, hn⟩ := slot_cc_worker.run_res_grid G _ s1 hf
    exact ⟨s1.worker, extra, by rw [hcong, p1], he, hn⟩
  · exact ⟨w0, [], by rw [hcong, p2 c hcc]; exact hw0, by simp, by simp⟩

theorem run_tti_seq_hist (G : grid_ops) (D : Nat) (t : tti_point) (r : slot_res_t) :
    ∀ (ccs : List Nat) (m m3 : sched_worker_manager) (bs : List Bool),
      run_tti_seq G D t r ccs m = .ok m3 bs →
      m3.slot_ctxts.length = m.slot_ctxts.length ∧ hist_ext m m3 (m.get_sf t) := by
  intro ccs
  induction ccs with
  | nil =>
    intro m m3 bs h
    simp only [run_tti_seq] at h
    injection h with h1 _
    subst h1
    exact ⟨rfl, hist_ext_refl _ _⟩
  | cons cc rest ih =>
    intro m m3 bs h
    simp only [run_tti_seq] at h
    rcases h1 : m.run_tti G D t cc r with ⟨⟨m2, r2⟩, b⟩ | ⟨s, msg⟩
    · simp only [h1] at h
      rcases h2 : run_tti_seq G D t r rest m2 with ⟨m4, bs4⟩ | ⟨s, msg⟩
      · simp only [h2] at h
        injection h with h3 _
        subst h3
        obtain ⟨hl, hh⟩ := ih m2 m4 bs4 h2
        have hl2 : m2.slot_ctxts.length = m.slot_ctxts.length := by
          rw [← sems_length, sems_run_tti G D m m2 t cc r r2 b h1, sems_length]
        have hsf : m2.get_sf t = m.get_sf t := by simp [get_sf, hl2]
        rw [hsf] at hh
        exact ⟨by rw [hl, hl2], hist_ext_trans _ _ _ _ (run_tti_hist G D m m2 t cc r r2 b h1) hh⟩
      · simp [h2] at h
    · simp [h1] at h

end sched_worker_manager

end SchedNr

namespace SchedNr

namespace sched_worker_manager

/-- A worker of context `i` is one of the first `C` workers the loops visit. -/
theorem worker_at_lt (m : sched_worker_manager) (i cc : Nat) (ctx : slot_worker_ctxt)
    (w : slot_cc_worker) (hc : m.slot_ctxts[i]? = some ctx) (hw : m.worker_at i cc = some w) :
    ctx.workers[cc]? = some w ∧ cc ∈ List.range ctx.workers.length := by
  simp only [worker_at, hc, Option.some_bind] at hw
  exact ⟨hw, List.mem_range.mpr (lt_length_of_getElem?_eq_some _ _ _ hw)⟩

/-- Every worker of the context adds one `new_tti(t)` during `start_tti(t)`. -/
theorem start_tti_hist (G : grid_ops) (m m2 : sched_worker_manager) (t : tti_point)
    (h : m.start_tti G t = .ok m2 ()) :
    ∀ (cc : Nat) (w : slot_cc_worker), m.worker_at (m.get_sf t) cc = some w →
      ∃ w2, m2.worker_at (m.get_sf t) cc = some w2 ∧
        w2.res_grid = w.res_grid ++ [grid_call.new_tti t] := by
  unfold start_tti at h
  rcases hc : m.slot_ctxts[m.get_sf t]? with _ | ctx
  · simp [hc] at h
  · simp only [hc] at h
    split at h
    · cases h
    · rename_i ht
      have ht : ctx.tti_rx = t := by simpa using ht
      rw [ht] at h
      obtain ⟨ctx1, h1, h2, _⟩ := for_workers_rel (m.get_sf t)
        (fun s => slot_cc_worker.start G s t)
        (fun w w1 => w1.res_grid = w.res_grid ++ [grid_call.new_tti t])
        (fun s s1 hst => slot_cc_worker.start_res_grid G s s1 t hst)
        (List.range ctx.workers.length) m m2 ctx (List.nodup_range _) hc h
      intro cc w hw
      obtain ⟨hw1, hcc⟩ := worker_at_lt m _ cc ctx w hc hw
      obtain ⟨w0, w1, hw0, hw1', hr⟩ := h2 cc hcc
      rw [hw1] at hw0
      injection hw0 with hw0
      subst hw0
      exact ⟨w1, by simp [worker_at, h1, hw1'], hr⟩

/-- No worker of the context calls its `res_grid` during `end_tti(t)`. -/
theorem end_tti_hist (m m2 : sched_worker_manager) (t : tti_point)
    (h : m.end_tti t = .ok m2 ()) :
    ∀ (cc : Nat) (w : slot_cc_worker), m.worker_at (m.get_sf t) cc = some w →
      ∃ w2, m2.worker_at (m.get_sf t) cc = some w2 ∧ w2.res_grid = w.res_grid := by
  unfold end_tti at h
  rcases hc : m.slot_ctxts[m.get_sf t]? with _ | ctx
  · simp [hc] at h
  · simp only [hc] at h
    split at h
    · cases h
    · split at h
      · cases h
      · rcases hf : for_workers (m.get_sf t) slot_cc_worker.end_tti
            (List.range ctx.workers.length) m with ⟨m3, u⟩ | ⟨m3, msg⟩
        · simp only [hf] at h
          obtain ⟨ctx1, h1, h2, _⟩ := for_workers_rel (m.get_sf t) slot_cc_worker.end_tti
            (fun w w1 => w1.res_grid = w.res_grid)
            (fun s s1 hst => (slot_cc_worker.end_tti_ok_eq s s1 hst).2.2.2.1)
            (List.range ctx.workers.length) m m3 ctx (List.nodup_range _) hc hf
          simp only [h1] at h
          injection h with h _
          subst h
          have hi1 := lt_length_of_getElem?_eq_some _ _ _ h1
          intro cc w hw
          obtain ⟨hw1, hcc⟩ := worker_at_lt m _ cc ctx w hc hw
          obtain ⟨w0, w1, hw0, hw1', hr⟩ := h2 cc hcc
          rw [hw1] at hw0
          injection hw0 with hw0
          subst hw0
          exact ⟨w1, by simp [worker_at, hi1, hw1'], hr⟩
        · simp [hf] at h

end sched_worker_manager

/-- C18: grid reset before allocation. In the call sequence
`reserve_workers(t)`, `start_tti(t)`, `run_tti(t, cc, ·)` for the carriers
`ccs`, `end_tti(t)`, all returning normally, every worker of the context of
`t` adds to the history of its `res_grid` one call `new_tti(t)` followed by
calls that are all different from `new_tti` (`alloc_pdsch`, `alloc_pusch`,
`generate_dcis`): `new_tti` is called exactly once for the TTI, with argument
`t`, before every allocation call. -/
theorem new_tti_once_before_alloc (G : grid_ops) (TX_ENB_DELAY : Nat)
    (m m1 m2 m3 m4 : sched_worker_manager) (t : tti_point) (r : slot_res_t) (ccs : List Nat)
    (bs : List Bool) (hr : m.reserve_workers t = some m1) (hs : m1.start_tti G t = .ok m2 ())
    (hrun : sched_worker_manager.run_tti_seq G TX_ENB_DELAY t r ccs m2 = .ok m3 bs)
    (he : m3.end_tti t = .ok m4 ()) :
    ∀ (cc : Nat) (w : slot_cc_worker), m.worker_at (m.get_sf t) cc = some w →
      ∃ w4 rest, m4.worker_at (m.get_sf t) cc = some w4 ∧
        w4.res_grid = w.res_grid ++ grid_call.new_tti t :: rest ∧
        (∀ c ∈ rest, c.is_new_tti = false) ∧
        (w4.res_grid.drop w.res_grid.length).count (grid_call.new_tti t) = 1 ∧
        (w4.res_grid.drop w.res_grid.length).head? = some (grid_call.new_tti t) := by
  intro cc w hw
  obtain ⟨ctx, hc, _, rfl⟩ := sched_worker_manager.reserve_workers_some m m1 t hr
  have hw1 : sched_worker_manager.worker_at
      { m with slot_ctxts := (m.slot_ctxts.set (m.get_sf t)
          { ctx with sf_sem := ctx.sf_sem - 1, tti_rx := t,
                     worker_count := (ctx.workers.length : Int) }) } (m.get_sf t) cc = some w := by
    have hmap := sched_worker_manager.map_set_same (fun c : slot_worker_ctxt => c.workers)
      m.slot_ctxts (m.get_sf t) ctx
      { ctx with sf_sem := ctx.sf_sem - 1, tti_rx := t,
                 worker_count := (ctx.workers.length : Int) } hc rfl
    rw [sched_worker_manager.worker_at_congr m _ hmap]
    exact hw
  have hsf1 : sched_worker_manager.get_sf
      { m with slot_ctxts := (m.slot_ctxts.set (m.get_sf t)
          { ctx with sf_sem := ctx.sf_sem - 1, tti_rx := t,
                     worker_count := (ctx.workers.length : Int) }) } t = m.get_sf t := by
    simp [sched_worker_manager.get_sf]
  have hst := sched_worker_manager.start_tti_hist G _ m2 t hs
  rw [hsf1] at hst
  obtain ⟨w2, hw2, hr2⟩ := hst cc w hw1
  have hl2 : m2.slot_ctxts.length = m.slot_ctxts.length := by
    rw [← sched_worker_manager.sems_length, sched_worker_manager.sems_start_tti G _ m2 t hs,
      sched_worker_manager.sems_length]
    simp
  have hsf2 : m2.get_sf t = m.get_sf t := by simp [sched_worker_manager.get_sf, hl2]
  obtain ⟨hl3, hh⟩ := sched_worker_manager.run_tti_seq_hist G TX_ENB_DELAY t r ccs m2 m3 bs hrun
  rw [hsf2] at hh
  obtain ⟨w3, extra, hw3, hr3, hn3⟩ := hh cc w2 hw2
  have hsf3 : m3.get_sf t = m.get_sf t := by simp [sched_worker_manager.get_sf, hl3, hl2]
  have hen := sched_worker_manager.end_tti_hist m3 m4 t he
  rw [hsf3] at hen
  obtain ⟨w4, hw4, hr4⟩ := hen cc w3 hw3
  have hres : w4.res_grid = w.res_grid ++ grid_call.new_tti t :: extra := by
    rw [hr4, hr3, hr2, List.append_assoc]
    rfl
  refine ⟨w4, extra, hw4, hres, hn3, ?_, ?_⟩
  · rw [hres, List.drop_left, List.count_cons_self]
    have : extra.count (grid_call.new_tti t) = 0 := by
      rw [List.count_eq_zero]
      intro hm
      have := hn3 _ hm
      simp [grid_call.is_new_tti] at this
    omega
  · rw [hres, List.drop_left]
    rfl

/-- Witness of C18 on the example manager (two carriers, TTI 4, carriers run
in the order 1, 0): the worker of carrier 0 starts with an empty history and
ends with one `new_tti(4)` at its head. -/
theorem new_tti_once_before_alloc_witness :
    ex_manager.reserve_workers ⟨4⟩ = some (ex_reserved ⟨4⟩) ∧
    (ex_reserved ⟨4⟩).start_tti (grid_ops.record 4) ⟨4⟩ = .ok (ex_started ⟨4⟩) () ∧
    sched_worker_manager.run_tti_seq (grid_ops.record 4) 4 ⟨4⟩ slot_res_t.init [1, 0]
      (ex_started ⟨4⟩) = .ok ex_all_run_fresh [false, true] ∧
    ex_all_run_fresh.end_tti ⟨4⟩ = .ok (ex_all_run_fresh.end_tti ⟨4⟩).state () ∧
    ∃ (w4 : slot_cc_worker) (rest : List grid_call),
      (ex_all_run_fresh.end_tti ⟨4⟩).state.worker_at (ex_manager.get_sf ⟨4⟩) 0 = some w4 ∧
      w4.res_grid = [] ++ grid_call.new_tti ⟨4⟩ :: rest ∧
      (∀ c ∈ rest, c.is_new_tti = false) ∧
      (w4.res_grid.drop 0).count (grid_call.new_tti ⟨4⟩) = 1 ∧
      (w4.res_grid.drop 0).head? = some (grid_call.new_tti ⟨4⟩) :=
  ⟨by rfl, by rfl, by rfl, by rfl,
   new_tti_once_before_alloc (grid_ops.record 4) 4 ex_manager (ex_reserved ⟨4⟩)
     (ex_started ⟨4⟩) ex_all_run_fresh (ex_all_run_fresh.end_tti ⟨4⟩).state ⟨4⟩ slot_res_t.init
     [1, 0] [false, true] (by rfl) (by rfl) (by rfl) (by rfl) 0
     ((ex_manager.slot_ctxts.get ⟨0, by decide⟩).workers.get ⟨0, by decide⟩) (by rfl)⟩

end SchedNr

/-! ## The state holder of the intra-frequency measurement -/

namespace intra_measure_base

namespace internal_state

theorem set_state_of_quit (st : internal_state) (s : state_t) (h : st.state = state_t.quit) :
    st.set_state s = st := by
  simp [set_state, h]

theorem set_states_of_quit (calls : List state_t) :
    ∀ st : internal_state, st.state = state_t.quit → st.set_states calls = st := by
  induction calls with
  | nil => intro st _; rfl
  | cons s rest ih =>
    intro st h
    simp only [set_states, List.foldl_cons]
    rw [set_state_of_quit st s h]
    exact ih st h

theorem set_states_append (st : internal_state) (l1 l2 : List state_t) :
    st.set_states (l1 ++ l2) = (st.set_states l1).set_states l2 := by
  simp [set_states, List.foldl_append]

end internal_state

/-- C19: the state holder never leaves `quit`. For every initial state and
every sequence `calls` of `set_state` calls, if `get_state` returns `quit`
after the first `i` calls it returns `quit` after the first `j` calls for
every `j ≥ i`; and when the state is not `quit`, `set_state(s)` makes the
state exactly `s`, for every `s`. -/
theorem quit_is_absorbing (st : internal_state) (calls : List internal_state.state_t)
    (s : internal_state.state_t) :
    (∀ i j : Nat, i ≤ j →
      (st.set_states (calls.take i)).get_state = internal_state.state_t.quit →
      (st.set_states (calls.take j)).get_state = internal_state.state_t.quit) ∧
    (st.get_state ≠ internal_state.state_t.quit → (st.set_state s).get_state = s) := by
  constructor
  · intro i j hij h
    obtain ⟨k, rfl⟩ := Nat.exists_eq_add_of_le hij
    rw [List.take_add, internal_state.set_states_append,
      internal_state.set_states_of_quit _ _ h]
    exact h
  · intro h
    simp only [internal_state.get_state] at h
    simp [internal_state.set_state, internal_state.get_state, h]

/-- Witness of C19: from the initial state, after `measure`, `quit`, `idle`,
`receive` the state is `quit` from the second call on, and `set_state(wait)`
on the initial state gives `wait`. -/
theorem quit_is_absorbing_witness :
    (({} : internal_state).set_states (ex_calls.take 2)).get_state =
      internal_state.state_t.quit ∧
    (({} : internal_state).set_states (ex_calls.take 4)).get_state =
      internal_state.state_t.quit ∧
    (({} : internal_state).set_state internal_state.state_t.wait).get_state =
      internal_state.state_t.wait :=
  ⟨by decide,
   (quit_is_absorbing {} ex_calls internal_state.state_t.wait).1 2 4 (by decide) (by decide),
   (quit_is_absorbing {} ex_calls internal_state.state_t.wait).2 (by decide)⟩

end intra_measure_base

/-! ## The reply to an RRCSetupRequest -/

namespace rrc_nr

namespace ue

theorem send_dl_ccch_rlc (P : parent_t) (u : ue) (m : dl_ccch_msg_s) :
    (∀ pdu, P.pack_into_pdu m = some pdu →
      (send_dl_ccch P u m).rlc =
        u.rlc ++ [{ rnti := u.rnti, lcid := P.srb_to_lcid nr_srb.srb0, sdu := pdu }]) ∧
    (P.pack_into_pdu m = Option.none → (send_dl_ccch P u m).rlc = u.rlc) := by
  constructor
  · intro pdu h
    simp [send_dl_ccch, h]
  · intro h
    simp [send_dl_ccch, h]

theorem set_activity_timeout_rlc (u : ue) (type : activity_timeout_type_t) :
    (set_activity_timeout u type).rlc = u.rlc := by
  cases type <;> rfl

/-- The message `send_rrc_setup` hands to `send_dl_ccch`. -/
theorem send_rrc_setup_eq (P : parent_t) (u : ue) :
    send_rrc_setup P u =
      send_dl_ccch P { u with transaction_id := (u.transaction_id + 1) % P.transaction_id_mod }
        (dl_ccch_msg_s.rrc_setup
          { rrc_transaction_id := u.transaction_id % 4 % 2 ^ 8,
            crit_exts := { radio_bearer_cfg :=
              { srb_to_add_mod_list_present := true,
                srb_to_add_mod_list := [{ srb_id := 1 }] } } }) := by
  rfl

end ue

/-- Counterexample to C20 as stated: with the AMF connected, when
`pack_into_pdu` returns `nullptr` the handler of an RRCSetupRequest sends
nothing to RLC. -/
theorem rrc_setup_not_sent_when_packing_fails :
    ex_parent_no_pdu.is_amf_connected = true ∧
    (ex_ue.handle_rrc_setup_request ex_parent_no_pdu ⟨init_ue_id_types.random_value⟩).rlc = [] ∧
    (ex_ue.handle_rrc_setup_request ex_parent_no_pdu ⟨init_ue_id_types.random_value⟩).logger =
      ["Failed to send DL-CCCH"] := by
  decide

/-- C20 (amended): RRC connection establishment reply. For every UE and every
RRCSetupRequest handled while the AMF is connected, `handle_rrc_setup_request`
builds one DL-CCCH message, an RRCSetup whose radio bearer configuration has
an `srb_to_add_mod_list` of exactly one entry with `srb_id` 1. When
`pack_into_pdu` returns a buffer for it, exactly one call
`write_sdu(rnti, srb_to_lcid(srb0), pdu)` is added to RLC, with the own RNTI of
the UE and that buffer; when `pack_into_pdu` returns `nullptr` nothing is sent.
No RRCReject is built or sent. -/
theorem rrc_setup_reply (P : parent_t) (u : ue) (msg : rrc_setup_request_s)
    (hamf : P.is_amf_connected = true) :
    ∃ setup : rrc_setup_s,
      setup.crit_exts.radio_bearer_cfg.srb_to_add_mod_list_present = true ∧
      setup.crit_exts.radio_bearer_cfg.srb_to_add_mod_list.length = 1 ∧
      setup.crit_exts.radio_bearer_cfg.srb_to_add_mod_list.map (fun b => b.srb_id) = [1] ∧
      (∀ pdu, P.pack_into_pdu (dl_ccch_msg_s.rrc_setup setup) = some pdu →
        (u.handle_rrc_setup_request P msg).rlc =
          u.rlc ++ [{ rnti := u.rnti, lcid := P.srb_to_lcid nr_srb.srb0, sdu := pdu }]) ∧
      (P.pack_into_pdu (dl_ccch_msg_s.rrc_setup setup) = Option.none →
        (u.handle_rrc_setup_request P msg).rlc = u.rlc) := by
  refine ⟨{ rrc_transaction_id := u.transaction_id % 4 % 2 ^ 8,
            crit_exts := { radio_bearer_cfg :=
              { srb_to_add_mod_list_present := true,
                srb_to_add_mod_list := [{ srb_id := 1 }] } } }, rfl, rfl, rfl, ?_, ?_⟩
  · intro pdu h
    obtain ⟨ty⟩ := msg
    cases ty <;>
    · simp only [ue.handle_rrc_setup_request, hamf, Bool.not_true, Bool.false_eq_true, if_false,
        ue.set_activity_timeout_rlc, ue.send_rrc_setup_eq]
      rw [(ue.send_dl_ccch_rlc P _ _).1 pdu h]
  · intro h
    obtain ⟨ty⟩ := msg
    cases ty <;>
    · simp only [ue.handle_rrc_setup_request, hamf, Bool.not_true, Bool.false_eq_true, if_false,
        ue.set_activity_timeout_rlc, ue.send_rrc_setup_eq]
      rw [(ue.send_dl_ccch_rlc P _ _).2 h]

/-- Witness of C20 (amended) on the example parent: the UE 0x4601 answers a
request with a random identity by one SDU on LCID 0. -/
theorem rrc_setup_reply_witness :
    ex_parent.is_amf_connected = true ∧
    ∃ setup : rrc_setup_s,
      setup.crit_exts.radio_bearer_cfg.srb_to_add_mod_list_present = true ∧
      setup.crit_exts.radio_bearer_cfg.srb_to_add_mod_list.length = 1 ∧
      setup.crit_exts.radio_bearer_cfg.srb_to_add_mod_list.map (fun b => b.srb_id) = [1] ∧
      (∀ pdu, ex_parent.pack_into_pdu (dl_ccch_msg_s.rrc_setup setup) = some pdu →
        (ex_ue.handle_rrc_setup_request ex_parent ⟨init_ue_id_types.random_value⟩).rlc =
          ex_ue.rlc ++
            [{ rnti := ex_ue.rnti, lcid := ex_parent.srb_to_lcid nr_srb.srb0, sdu := pdu }]) ∧
      (ex_parent.pack_into_pdu (dl_ccch_msg_s.rrc_setup setup) = Option.none →
        (ex_ue.handle_rrc_setup_request ex_parent ⟨init_ue_id_types.random_value⟩).rlc =
          ex_ue.rlc) :=
  ⟨by decide, rrc_setup_reply ex_parent ex_ue ⟨init_ue_id_types.random_value⟩ (by decide)⟩

end rrc_nr

/-! ## Search spaces of the PHY configuration -/

namespace srsran

namespace phy_cfg_nr_t

/-- With arrays of the declared sizes, `assert_ss_id` at the number of search
spaces passes the first check and reads `search_space_present` outside the
array. -/
theorem assert_ss_id_at_max (K : phy_consts) (cfg : phy_cfg_nr_t) (h : cfg.wf K) :
    assert_ss_id K cfg K.SRSRAN_UE_DL_NR_MAX_NOF_SEARCH_SPACE = Option.none := by
  have h1 : cfg.pdcch.search_space_present[K.SRSRAN_UE_DL_NR_MAX_NOF_SEARCH_SPACE]? =
      Option.none := by
    rw [List.getElem?_eq_none_iff, h.1]
  simp [assert_ss_id, h1]

/-- With arrays of the declared sizes, at every other `ss_id` the function
stays inside its arrays and returns `true` exactly for a present search space
below the bound whose CORESET is below its bound and present. -/
theorem assert_ss_id_of_ne_max (K : phy_consts) (cfg : phy_cfg_nr_t) (ss_id : Nat)
    (h : cfg.wf K) (hne : ss_id ≠ K.SRSRAN_UE_DL_NR_MAX_NOF_SEARCH_SPACE) :
    ∃ b, assert_ss_id K cfg ss_id = some b ∧
      (b = true ↔ ss_id < K.SRSRAN_UE_DL_NR_MAX_NOF_SEARCH_SPACE ∧
        cfg.pdcch.search_space_present[ss_id]? = some true ∧
        ∃ ss, cfg.pdcch.search_space[ss_id]? = some ss ∧
          ss.coreset_id < K.SRSRAN_UE_DL_NR_MAX_NOF_CORESET ∧
          cfg.pdcch.coreset_present[ss.coreset_id]? = some true) := by
  obtain ⟨h1, h2, h3, h4, _⟩ := h
  by_cases hgt : ss_id > K.SRSRAN_UE_DL_NR_MAX_NOF_SEARCH_SPACE
  · refine ⟨false, by simp [assert_ss_id, hgt], ?_⟩
    constructor
    · intro hf
      cases hf
    · intro hlt
      omega
  · have hlt : ss_id < K.SRSRAN_UE_DL_NR_MAX_NOF_SEARCH_SPACE := by omega
    have hp : ss_id < cfg.pdcch.search_space_present.length := by omega
    have hs : ss_id < cfg.pdcch.search_space.length := by omega
    simp only [assert_ss_id, hgt, if_false, List.getElem?_eq_getElem hp,
      List.getElem?_eq_getElem hs, Option.some.injEq, exists_eq_left']
    cases hpres : cfg.pdcch.search_space_present[ss_id]
    · exact ⟨false, by simp, by simp⟩
    · by_cases hc : cfg.pdcch.search_space[ss_id].coreset_id ≥ K.SRSRAN_UE_DL_NR_MAX_NOF_CORESET
      · refine ⟨false, by simp [hc], ?_⟩
        constructor
        · intro hf
          cases hf
        · intro hx
          omega
      · have hcp : cfg.pdcch.search_space[ss_id].coreset_id < cfg.pdcch.coreset_present.length := by
          omega
        cases hcpres : cfg.pdcch.coreset_present[cfg.pdcch.search_space[ss_id].coreset_id]
        · exact ⟨false, by simp [hc, List.getElem?_eq_getElem hcp, hcpres],
            by simp [List.getElem?_eq_getElem hcp, hcpres]⟩
        · refine ⟨true, by simp [hc, List.getElem?_eq_getElem hcp, hcpres], ?_⟩
          simp only [true_iff]
          exact ⟨hlt, trivial, by omega, by simp [List.getElem?_eq_getElem hcp, hcpres]⟩

end phy_cfg_nr_t

/-- C22: evaluation of `assert_ss_id` at the failing input. In the example
configuration, whose arrays have the declared sizes (two search spaces),
`assert_ss_id(2)` passes the check `ss_id > SRSRAN_UE_DL_NR_MAX_NOF_SEARCH_SPACE`
and reads `search_space_present[2]`, outside the array; at the identifiers 0
and 1 it stays inside the arrays. -/
theorem assert_ss_id_reads_outside :
    ex_consts.SRSRAN_UE_DL_NR_MAX_NOF_SEARCH_SPACE = 2 ∧
    ex_phy_cfg.pdcch.search_space_present.length = 2 ∧
    ex_phy_cfg.pdcch.search_space.length = 2 ∧
    ¬ (2 > ex_consts.SRSRAN_UE_DL_NR_MAX_NOF_SEARCH_SPACE) ∧
    ex_phy_cfg.pdcch.search_space_present[2]? = Option.none ∧
    phy_cfg_nr_t.assert_ss_id ex_consts ex_phy_cfg 2 = Option.none ∧
    phy_cfg_nr_t.assert_ss_id ex_consts ex_phy_cfg 0 = some false ∧
    phy_cfg_nr_t.assert_ss_id ex_consts ex_phy_cfg 1 = some true := by
  decide

end srsran

namespace srsran

namespace phy_cfg_nr_t

/-- When `assert_ss_id(ss_id)` is false, `get_dci_locations` returns the
conversion of `SRSRAN_ERROR` to `bool` and leaves `locations` as it is. -/
theorem get_dci_locations_of_invalid (K : phy_consts) (F : locations_fn) (cfg : phy_cfg_nr_t)
    (slot_idx rnti ss_id L : Nat) (locations : List srsran_dci_location_t)
    (h : assert_ss_id K cfg ss_id = some false) :
    get_dci_locations K F cfg slot_idx rnti ss_id L locations =
      some (int_to_bool K.SRSRAN_ERROR, locations) := by
  simp [get_dci_locations, h]

/-- Every value of `SRSRAN_ERROR` other than 0 converts to `true`. -/
theorem int_to_bool_error (K : phy_consts) (h : K.SRSRAN_ERROR ≠ 0) :
    int_to_bool K.SRSRAN_ERROR = true := by
  simp [int_to_bool, h]

end phy_cfg_nr_t

/-- C21: evaluation of `get_dci_locations` at the failing input. In the
example configuration search space 0 is absent, so `assert_ss_id(0)` is false;
`get_dci_locations` with `ss_id = 0` appends nothing to `locations`, and it
returns `SRSRAN_ERROR` (-1) converted to `bool`, which is `true`, where the
failure of `srsran_pdcch_nr_locations_coreset` on a valid search space returns
`false`. -/
theorem get_dci_locations_returns_true_on_invalid_ss :
    phy_cfg_nr_t.assert_ss_id ex_consts ex_phy_cfg 0 = some false ∧
    phy_cfg_nr_t.get_dci_locations ex_consts ex_locations_fn ex_phy_cfg 0 0x4601 0 1 [] =
      some (true, []) ∧
    phy_cfg_nr_t.get_dci_locations ex_consts (fun _ _ _ _ _ => (-1, [0, 0, 0, 0, 0, 0, 0, 0]))
      ex_phy_cfg 0 0x4601 1 1 [] = some (false, []) ∧
    phy_cfg_nr_t.get_dci_locations ex_consts ex_locations_fn ex_phy_cfg 0 0x4601 1 1 [] =
      some (true, [{ L := 1, ncce := 0 }, { L := 1, ncce := 4 }]) := by
  decide

end srsran

namespace srsran

theorem range_filterMap_getElem? {α : Type} (l : List α) :
    ∀ n, n ≤ l.length → (List.range n).filterMap (fun i => l[i]?) = l.take n := by
  intro n
  induction n with
  | zero => intro _; rfl
  | succ n ih =>
    intro h
    have hn : n < l.length := by omega
    rw [List.range_succ, List.filterMap_append, ih (by omega), List.take_succ,
      List.getElem?_eq_getElem hn]
    simp [List.getElem?_eq_getElem hn]

namespace phy_cfg_nr_t

theorem select_format_eq (p : Nat → Bool) (formats : List Nat) :
    ∀ is : List Nat, (∀ i ∈ is, i < formats.length) →
      select_format p formats is = some ((is.filterMap (fun i => formats[i]?)).find? p) := by
  intro is
  induction is with
  | nil => intro _; rfl
  | cons i rest ih =>
    intro h
    have hi : i < formats.length := h i (List.mem_cons_self _ _)
    have hr : ∀ j ∈ rest, j < formats.length := fun j hj => h j (List.mem_cons_of_mem _ hj)
    simp only [select_format, List.getElem?_eq_getElem hi, List.filterMap_cons, List.find?_cons]
    by_cases hp : p formats[i] = true
    · simp [hp]
    · simp only [hp, Bool.false_eq_true, if_false]
      rw [ih hr]

/-- The loop over the first `min(nof_formats, COUNT)` formats of an array of
`COUNT` formats returns the first of them that satisfies `p`, if any. -/
theorem select_format_range (p : Nat → Bool) (formats : List Nat) (nof_formats count : Nat)
    (h : formats.length = count) :
    select_format p formats (List.range (SRSRAN_MIN nof_formats count)) =
      some ((formats.take (min nof_formats count)).find? p) := by
  have hm : SRSRAN_MIN nof_formats count = min nof_formats count := by
    unfold SRSRAN_MIN
    split <;> omega
  rw [hm, select_format_eq p formats _ (by
    intro i hi
    have := List.mem_range.mp hi
    omega), range_filterMap_getElem? formats _ (by omega)]

theorem assert_ss_id_true (K : phy_consts) (cfg : phy_cfg_nr_t) (ss_id : Nat)
    (h : assert_ss_id K cfg ss_id = some true) :
    ∃ ss, cfg.pdcch.search_space[ss_id]? = some ss := by
  unfold assert_ss_id at h
  split at h
  · cases h
  · split at h
    · cases h
    · split at h
      · cases h
      · split at h
        · cases h
        · exact ⟨_, by assumption⟩

/-- The result of both format functions in terms of the first matching
format. -/
theorem get_dci_format_eq (K : phy_consts) (cfg : phy_cfg_nr_t) (ss_id : Nat)
    (ss : srsran_search_space_t) (hwf : cfg.wf K)
    (ha : assert_ss_id K cfg ss_id = some true)
    (hs : cfg.pdcch.search_space[ss_id]? = some ss) :
    get_dci_format_pdsch K cfg ss_id =
      some (((ss.formats.take (min ss.nof_formats K.SRSRAN_DCI_FORMAT_NR_COUNT)).find?
        (fun f => f == K.srsran_dci_format_nr_1_0 || f == K.srsran_dci_format_nr_1_1)).getD
          K.SRSRAN_DCI_FORMAT_NR_COUNT) ∧
    get_dci_format_pusch K cfg ss_id =
      some (((ss.formats.take (min ss.nof_formats K.SRSRAN_DCI_FORMAT_NR_COUNT)).find?
        (fun f => f == K.srsran_dci_format_nr_0_0 || f == K.srsran_dci_format_nr_0_1)).getD
          K.SRSRAN_DCI_FORMAT_NR_COUNT) := by
  have hlen : ss.formats.length = K.SRSRAN_DCI_FORMAT_NR_COUNT :=
    (hwf.2.2.2.2 ss (List.getElem?_mem hs)).1
  constructor
  · simp only [get_dci_format_pdsch, ha, hs, select_format_range _ _ _ _ hlen]
    cases (ss.formats.take (min ss.nof_formats K.SRSRAN_DCI_FORMAT_NR_COUNT)).find?
      (fun f => f == K.srsran_dci_format_nr_1_0 || f == K.srsran_dci_format_nr_1_1) <;> rfl
  · simp only [get_dci_format_pusch, ha, hs, select_format_range _ _ _ _ hlen]
    cases (ss.formats.take (min ss.nof_formats K.SRSRAN_DCI_FORMAT_NR_COUNT)).find?
      (fun f => f == K.srsran_dci_format_nr_0_0 || f == K.srsran_dci_format_nr_0_1) <;> rfl

/-- A value found by `find?`, or else the default, either satisfies the
predicate or is the default. -/
theorem find?_getD_cases (p : Nat → Bool) (l : List Nat) (d : Nat) :
    p ((l.find? p).getD d) = true ∨ (l.find? p).getD d = d := by
  cases h : l.find? p with
  | none => right; rfl
  | some f => left; exact List.find?_some h

end phy_cfg_nr_t

/-- C23: the DCI format of a search space. With arrays of the declared sizes
and pairwise different enumerators: when `assert_ss_id(ss_id)` is false, both
`get_dci_format_pdsch` and `get_dci_format_pusch` return
`SRSRAN_DCI_FORMAT_NR_COUNT`; when it is true, `get_dci_format_pdsch` returns
the first of the first `min(nof_formats, SRSRAN_DCI_FORMAT_NR_COUNT)` formats
of the search space that is 1_0 or 1_1, and `SRSRAN_DCI_FORMAT_NR_COUNT` when
there is none, and `get_dci_format_pusch` does the same with 0_0 and 0_1; both
return a value at every `ss_id` other than the number of search spaces; the
first never returns 0_0 or 0_1 and the second never returns 1_0 or 1_1. -/
theorem dci_format_selection (K : phy_consts) (cfg : phy_cfg_nr_t) (ss_id : Nat)
    (hwf : cfg.wf K) (hd : K.formats_distinct) :
    (phy_cfg_nr_t.assert_ss_id K cfg ss_id = some false →
      phy_cfg_nr_t.get_dci_format_pdsch K cfg ss_id = some K.SRSRAN_DCI_FORMAT_NR_COUNT ∧
      phy_cfg_nr_t.get_dci_format_pusch K cfg ss_id = some K.SRSRAN_DCI_FORMAT_NR_COUNT) ∧
    (phy_cfg_nr_t.assert_ss_id K cfg ss_id = some true →
      ∃ ss, cfg.pdcch.search_space[ss_id]? = some ss ∧
        phy_cfg_nr_t.get_dci_format_pdsch K cfg ss_id =
          some (((ss.formats.take (min ss.nof_formats K.SRSRAN_DCI_FORMAT_NR_COUNT)).find?
            (fun f => f == K.srsran_dci_format_nr_1_0 || f == K.srsran_dci_format_nr_1_1)).getD
              K.SRSRAN_DCI_FORMAT_NR_COUNT) ∧
        phy_cfg_nr_t.get_dci_format_pusch K cfg ss_id =
          some (((ss.formats.take (min ss.nof_formats K.SRSRAN_DCI_FORMAT_NR_COUNT)).find?
            (fun f => f == K.srsran_dci_format_nr_0_0 || f == K.srsran_dci_format_nr_0_1)).getD
              K.SRSRAN_DCI_FORMAT_NR_COUNT)) ∧
    (ss_id ≠ K.SRSRAN_UE_DL_NR_MAX_NOF_SEARCH_SPACE →
      ∃ f g, phy_cfg_nr_t.get_dci_format_pdsch K cfg ss_id = some f ∧
        phy_cfg_nr_t.get_dci_format_pusch K cfg ss_id = some g) ∧
    (∀ f, phy_cfg_nr_t.get_dci_format_pdsch K cfg ss_id = some f →
      f ≠ K.srsran_dci_format_nr_0_0 ∧ f ≠ K.srsran_dci_format_nr_0_1) ∧
    (∀ f, phy_cfg_nr_t.get_dci_format_pusch K cfg ss_id = some f →
      f ≠ K.srsran_dci_format_nr_1_0 ∧ f ≠ K.srsran_dci_format_nr_1_1) := by
  have hfalse : phy_cfg_nr_t.assert_ss_id K cfg ss_id = some false →
      phy_cfg_nr_t.get_dci_format_pdsch K cfg ss_id = some K.SRSRAN_DCI_FORMAT_NR_COUNT ∧
      phy_cfg_nr_t.get_dci_format_pusch K cfg ss_id = some K.SRSRAN_DCI_FORMAT_NR_COUNT := by
    intro h
    simp [phy_cfg_nr_t.get_dci_format_pdsch, phy_cfg_nr_t.get_dci_format_pusch, h]
  have htrue : phy_cfg_nr_t.assert_ss_id K cfg ss_id = some true →
      ∃ ss, cfg.pdcch.search_space[ss_id]? = some ss ∧
        phy_cfg_nr_t.get_dci_format_pdsch K cfg ss_id =
          some (((ss.formats.take (min ss.nof_formats K.SRSRAN_DCI_FORMAT_NR_COUNT)).find?
            (fun f => f == K.srsran_dci_format_nr_1_0 || f == K.srsran_dci_format_nr_1_1)).getD
              K.SRSRAN_DCI_FORMAT_NR_COUNT) ∧
        phy_cfg_nr_t.get_dci_format_pusch K cfg ss_id =
          some (((ss.formats.take (min ss.nof_formats K.SRSRAN_DCI_FORMAT_NR_COUNT)).find?
            (fun f => f == K.srsran_dci_format_nr_0_0 || f == K.srsran_dci_format_nr_0_1)).getD
              K.SRSRAN_DCI_FORMAT_NR_COUNT) := by
    intro h
    obtain ⟨ss, hs⟩ := phy_cfg_nr_t.assert_ss_id_true K cfg ss_id h
    exact ⟨ss, hs, phy_cfg_nr_t.get_dci_format_eq K cfg ss_id ss hwf h hs⟩
  simp only [phy_consts.formats_distinct, List.nodup_cons, List.mem_cons, List.mem_singleton,
    not_or, List.not_mem_nil, not_false_eq_true, List.nodup_nil, and_true] at hd
  obtain ⟨⟨h01, h02, h03, h0c⟩, ⟨h12, h13, h1c⟩, ⟨h23, h2c⟩, h3c⟩ := hd
  refine ⟨hfalse, htrue, ?_, ?_, ?_⟩
  · intro hne
    obtain ⟨b, hb, _⟩ := phy_cfg_nr_t.assert_ss_id_of_ne_max K cfg ss_id hwf hne
    cases b
    · exact ⟨_, _, (hfalse hb).1, (hfalse hb).2⟩
    · obtain ⟨ss, _, h1, h2⟩ := htrue hb
      exact ⟨_, _, h1, h2⟩
  · intro f hf
    rcases ha : phy_cfg_nr_t.assert_ss_id K cfg ss_id with _ | b
    · simp [phy_cfg_nr_t.get_dci_format_pdsch, ha] at hf
    · cases b
      · rw [(hfalse ha).1] at hf
        injection hf with hf
        subst hf
        exact ⟨fun e => h0c e.symm, fun e => h1c e.symm⟩
      · obtain ⟨ss, _, h1, _⟩ := htrue ha
        rw [h1] at hf
        injection hf with hf
        subst hf
        rcases phy_cfg_nr_t.find?_getD_cases
          (fun f => f == K.srsran_dci_format_nr_1_0 || f == K.srsran_dci_format_nr_1_1)
          (ss.formats.take (min ss.nof_formats K.SRSRAN_DCI_FORMAT_NR_COUNT))
          K.SRSRAN_DCI_FORMAT_NR_COUNT with hp | hp
        · simp only [Bool.or_eq_true, beq_iff_eq] at hp
          rcases hp with hp | hp
          · rw [hp]
            exact ⟨fun e => h02 e.symm, fun e => h12 e.symm⟩
          · rw [hp]
            exact ⟨fun e => h03 e.symm, fun e => h13 e.symm⟩
        · rw [hp]
          exact ⟨fun e => h0c e.symm, fun e => h1c e.symm⟩
  · intro f hf
    rcases ha : phy_cfg_nr_t.assert_ss_id K cfg ss_id with _ | b
    · simp [phy_cfg_nr_t.get_dci_format_pusch, ha] at hf
    · cases b
      · rw [(hfalse ha).2] at hf
        injection hf with hf
        subst hf
        exact ⟨fun e => h2c e.symm, fun e => h3c e.symm⟩
      · obtain ⟨ss, _, _, h2⟩ := htrue ha
        rw [h2] at hf
        injection hf with hf
        subst hf
        rcases phy_cfg_nr_t.find?_getD_cases
          (fun f => f == K.srsran_dci_format_nr_0_0 || f == K.srsran_dci_format_nr_0_1)
          (ss.formats.take (min ss.nof_formats K.SRSRAN_DCI_FORMAT_NR_COUNT))
          K.SRSRAN_DCI_FORMAT_NR_COUNT with hp | hp
        · simp only [Bool.or_eq_true, beq_iff_eq] at hp
          rcases hp with hp | hp
          · rw [hp]
            exact ⟨h02, h03⟩
          · rw [hp]
            exact ⟨h12, h13⟩
        · rw [hp]
          exact ⟨fun e => h2c e.symm, fun e => h3c e.symm⟩

/-- Witness of C23 on the example configuration: search space 1 has the
formats 0_0, 1_1, 1_0 configured, so the format for PDSCH is 1_1 (value 3) and
the format for PUSCH is 0_0 (value 0); search space 0 is absent. -/
theorem dci_format_selection_witness :
    ex_phy_cfg.wf ex_consts ∧ ex_consts.formats_distinct ∧
    phy_cfg_nr_t.assert_ss_id ex_consts ex_phy_cfg 1 = some true ∧
    phy_cfg_nr_t.get_dci_format_pdsch ex_consts ex_phy_cfg 1 = some 3 ∧
    phy_cfg_nr_t.get_dci_format_pusch ex_consts ex_phy_cfg 1 = some 0 ∧
    ∃ f g, phy_cfg_nr_t.get_dci_format_pdsch ex_consts ex_phy_cfg 1 = some f ∧
      phy_cfg_nr_t.get_dci_format_pusch ex_consts ex_phy_cfg 1 = some g :=
  ⟨by simp [phy_cfg_nr_t.wf, ex_phy_cfg, ex_consts],
   by simp [phy_consts.formats_distinct, ex_consts], by decide, by decide, by decide,
   (dci_format_selection ex_consts ex_phy_cfg 1 (by simp [phy_cfg_nr_t.wf, ex_phy_cfg, ex_consts])
     (by simp [phy_consts.formats_distinct, ex_consts])).2.2.1 (by decide)⟩

end srsran

/-! ## The deadlines of the activity timer -/

namespace rrc_nr

namespace ue

/-- The calls that `set_activity_timeout(type)` makes on the timer. -/
theorem set_activity_timeout_timer (u : ue) (type : activity_timeout_type_t) :
    (set_activity_timeout u type).activity_timer =
      match type with
      | .MSG3_RX_TIMEOUT => u.activity_timer ++ [timer_call.set 100 type, timer_call.run]
      | .MSG5_RX_TIMEOUT => u.activity_timer ++ [timer_call.set 5000 type, timer_call.run]
      | .UE_INACTIVITY_TIMEOUT => u.activity_timer ++ [timer_call.set 10000 type, timer_call.run]
      | .nulltype => u.activity_timer := by
  cases type <;> simp [set_activity_timeout, set_activity]

end ue

/-- C27: evaluation of `set_activity_timeout` at the failing inputs. On the
example UE the call for `MSG3_RX_TIMEOUT` sets the timer to 100 ms and runs
it, and the call for another type leaves the timer untouched; but the call for
`MSG5_RX_TIMEOUT` sets it to 5000 ms, not the 1000 ms of the comment, and the
call for `UE_INACTIVITY_TIMEOUT` sets it to 10000 ms, not the 5000 ms of the
comment. -/
theorem set_activity_timeout_deadlines :
    (ex_ue.set_activity_timeout activity_timeout_type_t.MSG3_RX_TIMEOUT).activity_timer =
      [timer_call.set 100 activity_timeout_type_t.MSG3_RX_TIMEOUT, timer_call.run] ∧
    (ex_ue.set_activity_timeout activity_timeout_type_t.MSG5_RX_TIMEOUT).activity_timer =
      [timer_call.set 5000 activity_timeout_type_t.MSG5_RX_TIMEOUT, timer_call.run] ∧
    (ex_ue.set_activity_timeout activity_timeout_type_t.UE_INACTIVITY_TIMEOUT).activity_timer =
      [timer_call.set 10000 activity_timeout_type_t.UE_INACTIVITY_TIMEOUT, timer_call.run] ∧
    (ex_ue.set_activity_timeout activity_timeout_type_t.nulltype).activity_timer = [] := by
  decide

end rrc_nr

/-! ## The DMRS of the PBCH -/

namespace dmrs_pbch

theorem and_three (x : Nat) : x &&& 0b11 = x % 4 :=
  Nat.and_pow_two_sub_one_eq_mod x 2

theorem and_seven (x : Nat) : x &&& 0b111 = x % 8 :=
  Nat.and_pow_two_sub_one_eq_mod x 3

/-- The seed for an index `i_ssb` below 8 and a cell identifier up to 1007
fits in 31 bits. -/
theorem cinit_bound (i q m : Nat) (hi : i ≤ 7) (hq : q ≤ 251) (hm : m < 4) :
    2 ^ 11 * (i + 1) * (q + 1) + 2 ^ 6 * (i + 1) + m < 2 ^ 31 := by
  have h1 : (i + 1) * (q + 1) ≤ 8 * 252 := Nat.mul_le_mul (by omega) (by omega)
  have h2 : 2 ^ 11 * (i + 1) * (q + 1) = 2 ^ 11 * ((i + 1) * (q + 1)) := Nat.mul_assoc _ _ _
  rw [h2]
  omega

/-- The expression of `dmrs_pbch_cinit` for an index `i_ssb` below 8. -/
theorem cinit_expr {F C : Type} (E : srsran_h F C) (hm : E.macros_ok) (i N : Nat) (hi : i ≤ 7)
    (hN : N ≤ 1007) :
    E.SRSRAN_SEQUENCE_MOD
      ((((((i + 1) % 2 ^ 64 * ((E.SRSRAN_FLOOR N 4 + 1) % 2 ^ 64)) % 2 ^ 64) <<< 11) % 2 ^ 64 +
        (((i + 1) % 2 ^ 64) <<< 6) % 2 ^ 64 + N % 4) % 2 ^ 64) % 2 ^ 32 =
      2 ^ 11 * (i + 1) * (N / 4 + 1) + 2 ^ 6 * (i + 1) + N % 4 := by
  have hq : N / 4 ≤ 251 := by omega
  have hb := cinit_bound i (N / 4) (N % 4) hi hq (Nat.mod_lt _ (by omega))
  have h1 : (i + 1) * (N / 4 + 1) ≤ 8 * 252 := Nat.mul_le_mul (by omega) (by omega)
  have h2 : 2 ^ 11 * (i + 1) * (N / 4 + 1) = 2 ^ 11 * ((i + 1) * (N / 4 + 1)) :=
    Nat.mul_assoc _ _ _
  rw [hm.1 N, Nat.mod_eq_of_lt (show i + 1 < 2 ^ 64 by omega),
    Nat.mod_eq_of_lt (show N / 4 + 1 < 2 ^ 64 by omega),
    Nat.mod_eq_of_lt (show (i + 1) * (N / 4 + 1) < 2 ^ 64 by omega),
    Nat.shiftLeft_eq, Nat.shiftLeft_eq,
    Nat.mod_eq_of_lt (show (i + 1) * (N / 4 + 1) * 2 ^ 11 < 2 ^ 64 by omega),
    Nat.mod_eq_of_lt (show (i + 1) * 2 ^ 6 < 2 ^ 64 by omega)]
  have he : (i + 1) * (N / 4 + 1) * 2 ^ 11 + (i + 1) * 2 ^ 6 + N % 4 =
      2 ^ 11 * (i + 1) * (N / 4 + 1) + 2 ^ 6 * (i + 1) + N % 4 := by
    rw [h2]
    omega
  rw [he, Nat.mod_eq_of_lt (show _ < 2 ^ 64 by omega), hm.2 _ hb,
    Nat.mod_eq_of_lt (show _ < 2 ^ 32 by omega)]

/-- C24: `dmrs_pbch_cinit` computes the scrambling seed exactly. For every
`N_id <= 1007`, `n_hf` in {0, 1} and `ssb_idx`, with `SRSRAN_FLOOR(x, 4)` the
quotient by 4 and `SRSRAN_SEQUENCE_MOD` the identity below `2^31`, the result
is `2^11 (i_ssb + 1) (floor(N_id / 4) + 1) + 2^6 (i_ssb + 1) + (N_id mod 4)`
where `i_ssb = (ssb_idx mod 4) + 4 n_hf` when `L_max` is neither 8 nor 64 and
`i_ssb = ssb_idx mod 8` when it is; this value is below `2^31`. -/
theorem dmrs_pbch_cinit_exact {F C : Type} (E : srsran_h F C) (cfg : srsran_dmrs_pbch_cfg_t F)
    (hm : E.macros_ok) (hN : cfg.N_id ≤ 1007) (hhf : cfg.n_hf = 0 ∨ cfg.n_hf = 1) :
    dmrs_pbch_cinit E cfg =
      2 ^ 11 * ((if cfg.L_max = 8 ∨ cfg.L_max = 64 then cfg.ssb_idx % 8
                 else cfg.ssb_idx % 4 + 4 * cfg.n_hf) + 1) * (cfg.N_id / 4 + 1) +
      2 ^ 6 * ((if cfg.L_max = 8 ∨ cfg.L_max = 64 then cfg.ssb_idx % 8
                else cfg.ssb_idx % 4 + 4 * cfg.n_hf) + 1) + cfg.N_id % 4 ∧
    dmrs_pbch_cinit E cfg < 2 ^ 31 := by
  have hi : (if cfg.L_max = 8 ∨ cfg.L_max = 64 then cfg.ssb_idx % 8
      else cfg.ssb_idx % 4 + 4 * cfg.n_hf) ≤ 7 := by
    split <;> omega
  have hl : (if (cfg.L_max == 8 || cfg.L_max == 64) = true then cfg.ssb_idx &&& 0b111
      else ((cfg.ssb_idx &&& 0b11) + 4 * cfg.n_hf % 2 ^ 64) % 2 ^ 64) =
      (if cfg.L_max = 8 ∨ cfg.L_max = 64 then cfg.ssb_idx % 8
        else cfg.ssb_idx % 4 + 4 * cfg.n_hf) := by
    rw [and_three, and_seven]
    by_cases h : cfg.L_max = 8 ∨ cfg.L_max = 64
    · simp [h]
    · have h1 : 4 * cfg.n_hf % 2 ^ 64 = 4 * cfg.n_hf := Nat.mod_eq_of_lt (by omega)
      have h2 : (cfg.ssb_idx % 4 + 4 * cfg.n_hf) % 2 ^ 64 = cfg.ssb_idx % 4 + 4 * cfg.n_hf :=
        Nat.mod_eq_of_lt (by omega)
      rw [h1, h2]
      simp [h]
  have he : dmrs_pbch_cinit E cfg =
      2 ^ 11 * ((if cfg.L_max = 8 ∨ cfg.L_max = 64 then cfg.ssb_idx % 8
                 else cfg.ssb_idx % 4 + 4 * cfg.n_hf) + 1) * (cfg.N_id / 4 + 1) +
      2 ^ 6 * ((if cfg.L_max = 8 ∨ cfg.L_max = 64 then cfg.ssb_idx % 8
                else cfg.ssb_idx % 4 + 4 * cfg.n_hf) + 1) + cfg.N_id % 4 := by
    unfold dmrs_pbch_cinit
    simp only []
    rw [hl]
    exact cinit_expr E hm _ _ hi hN
  refine ⟨he, ?_⟩
  rw [he]
  exact cinit_bound _ _ _ hi (by omega) (Nat.mod_lt _ (by omega))

/-- Witness of C24: cell 123, second half frame, SSB 5 with `L_max = 8` has
the seed `2^11 * 6 * 31 + 2^6 * 6 + 3`. -/
theorem dmrs_pbch_cinit_exact_witness :
    ex_srsran_h.macros_ok ∧ ex_dmrs_cfg.N_id ≤ 1007 ∧
    dmrs_pbch_cinit ex_srsran_h ex_dmrs_cfg = 381315 ∧
    dmrs_pbch_cinit ex_srsran_h ex_dmrs_cfg < 2 ^ 31 :=
  ⟨⟨fun _ => rfl, fun _ h => Nat.mod_eq_of_lt h⟩, by decide,
   (dmrs_pbch_cinit_exact ex_srsran_h ex_dmrs_cfg ⟨fun _ => rfl, fun _ h => Nat.mod_eq_of_lt h⟩
     (by decide) (Or.inr rfl)).1,
   (dmrs_pbch_cinit_exact ex_srsran_h ex_dmrs_cfg ⟨fun _ => rfl, fun _ h => Nat.mod_eq_of_lt h⟩
     (by decide) (Or.inr rfl)).2⟩

end dmrs_pbch

namespace dmrs_pbch

/-- The loops of `srsran_dmrs_pbch_put` over a list of grid indices: with
enough values left in `r` and all indices inside the grid, every assignment is
inside its arrays, the read index advances by one per assignment, the grid
keeps its length, an index that is not in the list keeps its value, and when
the indices are pairwise different the `n`-th of them holds the `n`-th value
read. -/
theorem put_fold {C : Type} (r : List C) :
    ∀ (idxs : List Nat) (s : put_state C), s.r_idx + idxs.length ≤ r.length →
      (∀ i ∈ idxs, i < s.ssb_grid.length) →
      ∃ s1, idxs.foldlM (put_re r) s = some s1 ∧
        s1.r_idx = s.r_idx + idxs.length ∧
        s1.writes = s.writes ++ idxs.zip (List.range' s.r_idx idxs.length) ∧
        s1.ssb_grid.length = s.ssb_grid.length ∧
        (∀ j, j ∉ idxs → s1.ssb_grid[j]? = s.ssb_grid[j]?) ∧
        (idxs.Nodup → ∀ n, n < idxs.length → s1.ssb_grid[idxs[n]?.getD 0]? = r[s.r_idx + n]?) := by
  intro idxs
  induction idxs with
  | nil =>
    intro s _ _
    exact ⟨s, rfl, rfl, by simp, rfl, fun _ _ => rfl, fun _ n hn => by simp at hn⟩
  | cons i rest ih =>
    intro s hlen hin
    have hr : s.r_idx < r.length := by
      simp only [List.length_cons] at hlen
      omega
    have hi : i < s.ssb_grid.length := hin i (List.mem_cons_self _ _)
    have hstep : put_re r s i =
        some ⟨s.ssb_grid.set i r[s.r_idx], s.r_idx + 1, s.writes ++ [(i, s.r_idx)]⟩ := by
      simp [put_re, List.getElem?_eq_getElem hr, hi]
    obtain ⟨s1, h1, h2, h3, h4, h5, h6⟩ := ih
      ⟨s.ssb_grid.set i r[s.r_idx], s.r_idx + 1, s.writes ++ [(i, s.r_idx)]⟩
      (by simp only [List.length_cons] at hlen; simp only; omega)
      (by
        intro j hj
        simp only [List.length_set]
        exact hin j (List.mem_cons_of_mem _ hj))
    refine ⟨s1, ?_, ?_, ?_, ?_, ?_, ?_⟩
    · simp only [List.foldlM_cons, hstep, Option.bind_eq_bind, Option.some_bind]
      exact h1
    · simp only [List.length_cons]
      simp only at h2
      omega
    · rw [h3]
      simp [List.range'_succ, List.zip_cons_cons, List.append_assoc]
    · rw [h4]
      simp
    · intro j hj
      have hji : j ≠ i := fun e => hj (e ▸ List.mem_cons_self _ _)
      have hjr : j ∉ rest := fun e => hj (List.mem_cons_of_mem _ e)
      rw [h5 j hjr]
      simp only
      exact List.getElem?_set_ne (Ne.symm hji)
    · intro hnd n hn
      have hnd1 := List.nodup_cons.mp hnd
      cases n with
      | zero =>
        simp only [List.getElem?_cons_zero, Option.getD_some, Nat.add_zero]
        rw [h5 i hnd1.1]
        simp only
        rw [List.getElem?_set_self hi, List.getElem?_eq_getElem hr]
      | succ m =>
        simp only [List.getElem?_cons_succ]
        have := h6 hnd1.2 m (by simp only [List.length_cons] at hn; omega)
        rw [this]
        simp only
        congr 1
        omega

/-- The loops of `dmrs_pbch_extract_lse` over a list of grid indices: with
enough room left in `lse` and all indices inside the grid, every assignment is
inside its arrays, `lse` keeps its length, and its element `r_idx + n` is the
grid element at the `n`-th index. -/
theorem get_fold {C : Type} (ssb_grid : List C) :
    ∀ (idxs : List Nat) (s : lse_state C), s.r_idx + idxs.length ≤ s.lse.length →
      (∀ i ∈ idxs, i < ssb_grid.length) →
      ∃ s1, idxs.foldlM (get_re ssb_grid) s = some s1 ∧
        s1.r_idx = s.r_idx + idxs.length ∧
        s1.lse.length = s.lse.length ∧
        (∀ j, j < s.r_idx → s1.lse[j]? = s.lse[j]?) ∧
        (∀ n, n < idxs.length → s1.lse[s.r_idx + n]? = ssb_grid[idxs[n]?.getD 0]?) := by
  intro idxs
  induction idxs with
  | nil =>
    intro s _ _
    exact ⟨s, rfl, rfl, rfl, fun _ _ => rfl, fun n hn => by simp at hn⟩
  | cons i rest ih =>
    intro s hlen hin
    have hr : s.r_idx < s.lse.length := by
      simp only [List.length_cons] at hlen
      omega
    have hi : i < ssb_grid.length := hin i (List.mem_cons_self _ _)
    have hstep : get_re ssb_grid s i =
        some { lse := s.lse.set s.r_idx ssb_grid[i], r_idx := s.r_idx + 1 } := by
      simp [get_re, List.getElem?_eq_getElem hi, hr]
    obtain ⟨s1, h1, h2, h3, h4, h5⟩ := ih
      { lse := s.lse.set s.r_idx ssb_grid[i], r_idx := s.r_idx + 1 }
      (by simp only [List.length_cons] at hlen; simp only [List.length_set]; omega)
      (fun j hj => hin j (List.mem_cons_of_mem _ hj))
    refine ⟨s1, ?_, ?_, ?_, ?_, ?_⟩
    · simp only [List.foldlM_cons, hstep, Option.bind_eq_bind, Option.some_bind]
      exact h1
    · simp only [List.length_cons]
      simp only at h2
      omega
    · rw [h3]
      simp
    · intro j hj
      rw [h4 j (by simp only; omega)]
      simp only
      exact List.getElem?_set_ne (by omega)
    · intro n hn
      cases n with
      | zero =>
        simp only [List.getElem?_cons_zero, Option.getD_some, Nat.add_zero]
        rw [h4 s.r_idx (by simp only; omega)]
        simp only
        rw [List.getElem?_set_self hr, List.getElem?_eq_getElem hi]
      | succ m =>
        simp only [List.getElem?_cons_succ]
        have := h5 m (by simp only [List.length_cons] at hn; omega)
        simp only at this
        rw [← this]
        congr 1
        omega

end dmrs_pbch

namespace dmrs_pbch

set_option maxRecDepth 100000 in
/-- The indices of the DMRS in a grid of 240 subcarriers per symbol, for each
of the four shifts: 144 pairwise different indices below 960, each at a
subcarrier `k` with `k mod 4 = v` in symbol 1, 2 or 3, in symbol 2 only at
`k < 48` or `k >= 192`; 60 of them in symbol 1, 12 and 12 in symbol 2, 60 in
symbol 3. -/
theorem dmrs_indices_facts :
    ∀ v, v < 4 →
      (dmrs_indices 240 v).length = 144 ∧ (dmrs_indices 240 v).Nodup ∧
      (∀ i ∈ dmrs_indices 240 v, i < 960 ∧ i % 240 % 4 = v ∧
        (i / 240 = 1 ∨ i / 240 = 2 ∨ i / 240 = 3) ∧
        (i / 240 = 2 → i % 240 < 48 ∨ 192 ≤ i % 240)) ∧
      ((dmrs_indices 240 v).filter (fun i => i / 240 == 1)).length = 60 ∧
      ((dmrs_indices 240 v).filter (fun i => i / 240 == 2 && decide (i % 240 < 48))).length = 12 ∧
      ((dmrs_indices 240 v).filter
        (fun i => i / 240 == 2 && decide (192 ≤ i % 240))).length = 12 ∧
      ((dmrs_indices 240 v).filter (fun i => i / 240 == 3)).length = 60 := by
  decide

theorem put_eq_fold {F C : Type} (E : srsran_h F C) (cfg : srsran_dmrs_pbch_cfg_t F)
    (g : List C) :
    srsran_dmrs_pbch_put E (some cfg) (some g) =
      ((dmrs_indices E.SRSRAN_SSB_BW_SUBC (cfg.N_id % 4)).foldlM (put_re (dmrs_sequence E cfg))
        { ssb_grid := g, r_idx := 0, writes := [] }).bind
        fun s => some (E.SRSRAN_SUCCESS, some s.ssb_grid, s.writes) := by
  simp only [srsran_dmrs_pbch_put, dmrs_indices, dmrs_sequence, List.foldlM_append,
    List.foldlM_map, Option.bind_eq_bind, Option.bind_assoc]

theorem gather_eq_fold {F C : Type} (E : srsran_h F C) (cfg : srsran_dmrs_pbch_cfg_t F)
    (g lse : List C) :
    dmrs_pbch_extract_lse_gather E cfg g lse =
      ((dmrs_indices E.SRSRAN_SSB_BW_SUBC (cfg.N_id % 4)).foldlM (get_re g)
        { lse := lse, r_idx := 0 }).bind fun s => some s.lse := by
  simp only [dmrs_pbch_extract_lse_gather, dmrs_indices, List.foldlM_append,
    List.foldlM_map, Option.bind_eq_bind, Option.bind_assoc]

end dmrs_pbch

namespace dmrs_pbch

/-- An element of `idxs.zip (List.range' 0 n)` pairs the `m`-th index with
`m`. -/
theorem mem_zip_range' (idxs : List Nat) (n : Nat) (p : Nat × Nat)
    (h : p ∈ idxs.zip (List.range' 0 n)) : p.2 < n ∧ idxs[p.2]? = some p.1 := by
  obtain ⟨m, hm⟩ := List.mem_iff_getElem?.mp h
  rw [List.getElem?_zip_eq_some] at hm
  obtain ⟨h1, h2⟩ := hm
  have hlt : m < (List.range' 0 n).length := by
    by_contra hge
    rw [List.getElem?_eq_none (by omega)] at h2
    cases h2
  rw [List.getElem?_eq_getElem hlt, List.getElem_range'] at h2
  simp only [Nat.one_mul, Nat.zero_add, Option.some.injEq] at h2
  rw [List.length_range'] at hlt
  subst h2
  exact ⟨hlt, h1⟩

theorem filter_fst_length (l : List (Nat × Nat)) (q : Nat → Bool) :
    (l.filter (fun p => q p.1)).length = ((l.map Prod.fst).filter q).length := by
  rw [List.filter_map, List.length_map]
  rfl

/-- What `srsran_dmrs_pbch_put` does on non-null arguments, in terms of the
list of the DMRS indices. -/
theorem put_spec {F C : Type} (E : srsran_h F C) (cfg : srsran_dmrs_pbch_cfg_t F) (g : List C)
    (hs : E.sizes_ok) (hg : g.length = E.SRSRAN_SSB_NOF_RE) :
    ∃ g1, srsran_dmrs_pbch_put E (some cfg) (some g) =
        some (E.SRSRAN_SUCCESS, some g1,
          (dmrs_indices 240 (cfg.N_id % 4)).zip (List.range' 0 144)) ∧
      g1.length = g.length ∧
      (∀ j, j ∉ dmrs_indices 240 (cfg.N_id % 4) → g1[j]? = g[j]?) ∧
      (∀ n, n < 144 →
        g1[(dmrs_indices 240 (cfg.N_id % 4))[n]?.getD 0]? = (dmrs_sequence E cfg)[n]?) := by
  obtain ⟨hbw, hre, hgen⟩ := hs
  obtain ⟨hlen, hnd, hmem, _⟩ := dmrs_indices_facts (cfg.N_id % 4) (Nat.mod_lt _ (by omega))
  have hr : (dmrs_sequence E cfg).length = 144 := hgen _ _ _
  obtain ⟨s1, h1, _, h3, h4, h5, h6⟩ := put_fold (dmrs_sequence E cfg)
    (dmrs_indices 240 (cfg.N_id % 4)) { ssb_grid := g, r_idx := 0, writes := [] }
    (by simp only [hlen, hr]; omega)
    (by
      intro i hi
      simp only [hg, hre]
      exact (hmem i hi).1)
  refine ⟨s1.ssb_grid, ?_, h4, h5, ?_⟩
  · rw [put_eq_fold, hbw, h1]
    simp only [Option.some_bind, h3, hlen, List.nil_append]
  · intro n hn
    have := h6 hnd n (by omega)
    simpa using this

/-- C25: `srsran_dmrs_pbch_put` stays in bounds and places exactly 144 DMRS
symbols. For non-null arguments, a grid of `SRSRAN_SSB_NOF_RE` elements and
every `N_id`, with `v = N_id mod 4`: no index leaves its array; the function
returns `SRSRAN_SUCCESS` after exactly 144 assignments; the indices read in `r`
are 0, 1, ..., 143 in this order; the indices written in the grid are pairwise
different, below `SRSRAN_SSB_NOF_RE`, each at a subcarrier `k` with
`k mod 4 = v` in symbol 1, 2 or 3 (60 in symbol 1, 12 at `k < 48` and 12 at
`k >= 192` in symbol 2, 60 in symbol 3); each written element holds the value
read for it, and every other grid element is unchanged. -/
theorem dmrs_pbch_put_in_bounds {F C : Type} (E : srsran_h F C) (cfg : srsran_dmrs_pbch_cfg_t F)
    (g : List C) (hs : E.sizes_ok) (hg : g.length = E.SRSRAN_SSB_NOF_RE) :
    ∃ g1 w, srsran_dmrs_pbch_put E (some cfg) (some g) = some (E.SRSRAN_SUCCESS, some g1, w) ∧
      w.length = 144 ∧
      w.map Prod.snd = List.range 144 ∧
      (w.map Prod.fst).Nodup ∧
      (∀ p ∈ w, p.1 < E.SRSRAN_SSB_NOF_RE ∧
        p.1 % E.SRSRAN_SSB_BW_SUBC % 4 = cfg.N_id % 4 ∧
        (p.1 / E.SRSRAN_SSB_BW_SUBC = 1 ∨ p.1 / E.SRSRAN_SSB_BW_SUBC = 2 ∨
          p.1 / E.SRSRAN_SSB_BW_SUBC = 3) ∧
        (p.1 / E.SRSRAN_SSB_BW_SUBC = 2 →
          p.1 % E.SRSRAN_SSB_BW_SUBC < 48 ∨ 192 ≤ p.1 % E.SRSRAN_SSB_BW_SUBC)) ∧
      (w.filter (fun p => p.1 / E.SRSRAN_SSB_BW_SUBC == 1)).length = 60 ∧
      (w.filter (fun p => p.1 / E.SRSRAN_SSB_BW_SUBC == 2 &&
        decide (p.1 % E.SRSRAN_SSB_BW_SUBC < 48))).length = 12 ∧
      (w.filter (fun p => p.1 / E.SRSRAN_SSB_BW_SUBC == 2 &&
        decide (192 ≤ p.1 % E.SRSRAN_SSB_BW_SUBC))).length = 12 ∧
      (w.filter (fun p => p.1 / E.SRSRAN_SSB_BW_SUBC == 3)).length = 60 ∧
      (∀ p ∈ w, g1[p.1]? = (dmrs_sequence E cfg)[p.2]?) ∧
      g1.length = g.length ∧
      (∀ j, j ∉ w.map Prod.fst → g1[j]? = g[j]?) := by
  obtain ⟨g1, h1, h2, h3, h4⟩ := put_spec E cfg g hs hg
  obtain ⟨hbw, hre, _⟩ := hs
  obtain ⟨hlen, hnd, hmem, hc1, hc2, hc3, hc4⟩ :=
    dmrs_indices_facts (cfg.N_id % 4) (Nat.mod_lt _ (by omega))
  have hfst : ((dmrs_indices 240 (cfg.N_id % 4)).zip (List.range' 0 144)).map Prod.fst =
      dmrs_indices 240 (cfg.N_id % 4) :=
    List.map_fst_zip _ _ (by simp [hlen])
  have hsnd : ((dmrs_indices 240 (cfg.N_id % 4)).zip (List.range' 0 144)).map Prod.snd =
      List.range' 0 144 :=
    List.map_snd_zip _ _ (by simp [hlen])
  have hfilter : ∀ q : Nat → Bool,
      (((dmrs_indices 240 (cfg.N_id % 4)).zip (List.range' 0 144)).filter
        (fun p => q p.1)).length = ((dmrs_indices 240 (cfg.N_id % 4)).filter q).length := by
    intro q
    rw [filter_fst_length, hfst]
  refine ⟨g1, _, h1, ?_, ?_, ?_, ?_, ?_, ?_, ?_, ?_, ?_, h2, ?_⟩
  · simp [hlen]
  · rw [hsnd, List.range_eq_range']
  · rw [hfst]
    exact hnd
  · intro p hp
    have hp1 : p.1 ∈ dmrs_indices 240 (cfg.N_id % 4) := by
      rw [← hfst]
      exact List.mem_map_of_mem _ hp
    rw [hre, hbw]
    exact hmem p.1 hp1
  · rw [hbw]
    exact (hfilter (fun i => i / 240 == 1)).trans hc1
  · rw [hbw]
    exact (hfilter (fun i => i / 240 == 2 && decide (i % 240 < 48))).trans hc2
  · rw [hbw]
    exact (hfilter (fun i => i / 240 == 2 && decide (192 ≤ i % 240))).trans hc3
  · rw [hbw]
    exact (hfilter (fun i => i / 240 == 3)).trans hc4
  · intro p hp
    obtain ⟨hp2, hp1⟩ := mem_zip_range' _ _ p hp
    have := h4 p.2 hp2
    rw [hp1] at this
    exact this
  · intro j hj
    rw [hfst] at hj
    exact h3 j hj

end dmrs_pbch

namespace dmrs_pbch

theorem ex_sizes_ok : ex_srsran_h.sizes_ok :=
  ⟨rfl, rfl, fun _ _ _ => by simp [ex_srsran_h]⟩

/-- Witness of C25 on the example grid of 960 zeros for cell 123: the call
returns `SRSRAN_SUCCESS` after 144 assignments that read `r` at 0, ..., 143 and
write pairwise different grid indices. -/
theorem dmrs_pbch_put_in_bounds_witness :
    ex_srsran_h.sizes_ok ∧ ex_ssb_grid.length = ex_srsran_h.SRSRAN_SSB_NOF_RE ∧
    ∃ g1 w, srsran_dmrs_pbch_put ex_srsran_h (some ex_dmrs_cfg) (some ex_ssb_grid) =
        some (ex_srsran_h.SRSRAN_SUCCESS, some g1, w) ∧
      w.length = 144 ∧ w.map Prod.snd = List.range 144 ∧ (w.map Prod.fst).Nodup :=
  ⟨ex_sizes_ok, List.length_replicate 960 (0 : Int),
   (dmrs_pbch_put_in_bounds ex_srsran_h ex_dmrs_cfg ex_ssb_grid ex_sizes_ok
     (List.length_replicate 960 (0 : Int))).imp
     (fun _ h => h.imp (fun _ hw => ⟨hw.1, hw.2.1, hw.2.2.1, hw.2.2.2.1⟩))⟩

/-- C26: put and extract address the same resource elements in the same
order. For every configuration `cfg`, every grid `g` of `SRSRAN_SSB_NOF_RE`
elements and every array `lse` of 144 elements, `srsran_dmrs_pbch_put(cfg, g)`
returns `SRSRAN_SUCCESS` with a grid `g1`, and the four loops of
`dmrs_pbch_extract_lse` on `g1` leave in `lse`, before the conjugate product,
exactly the generated sequence `r`: element `i` is `r[i]` for every
`i < 144`; the function then returns `SRSRAN_SUCCESS` with the product of `r`
and the conjugate of `r`. -/
theorem put_extract_same_elements {F C : Type} (E : srsran_h F C)
    (cfg : srsran_dmrs_pbch_cfg_t F) (g lse : List C) (hs : E.sizes_ok)
    (hg : g.length = E.SRSRAN_SSB_NOF_RE) (hl : lse.length = DMRS_PBCH_NOF_RE) :
    ∃ g1 w gathered,
      srsran_dmrs_pbch_put E (some cfg) (some g) = some (E.SRSRAN_SUCCESS, some g1, w) ∧
      dmrs_pbch_extract_lse_gather E cfg g1 lse = some gathered ∧
      gathered = dmrs_sequence E cfg ∧
      gathered.length = 144 ∧
      (∀ i, i < 144 → gathered[i]? = (dmrs_sequence E cfg)[i]?) ∧
      dmrs_pbch_extract_lse E cfg g1 lse =
        some (E.SRSRAN_SUCCESS,
          E.srsran_vec_prod_conj_ccc gathered (dmrs_sequence E cfg) DMRS_PBCH_NOF_RE) := by
  obtain ⟨g1, h1, h2, _, h4⟩ := put_spec E cfg g hs hg
  obtain ⟨hbw, hre, hgen⟩ := hs
  obtain ⟨hlen, _, hmem, _⟩ := dmrs_indices_facts (cfg.N_id % 4) (Nat.mod_lt _ (by omega))
  have hr : (dmrs_sequence E cfg).length = 144 := hgen _ _ _
  have hl1 : lse.length = 144 := hl
  obtain ⟨s1, k1, _, k3, _, k5⟩ := get_fold g1 (dmrs_indices 240 (cfg.N_id % 4))
    { lse := lse, r_idx := 0 }
    (by simp only [hlen, hl1]; omega)
    (by
      intro i hi
      rw [h2, hg, hre]
      exact (hmem i hi).1)
  have heq : s1.lse = dmrs_sequence E cfg := by
    apply List.ext_getElem?
    intro n
    by_cases hn : n < 144
    · have := k5 n (by omega)
      simp only [Nat.zero_add] at this
      rw [this, h4 n hn]
    · rw [List.getElem?_eq_none (by simp only at k3; omega),
        List.getElem?_eq_none (by omega)]
  have hgather : dmrs_pbch_extract_lse_gather E cfg g1 lse = some s1.lse := by
    rw [gather_eq_fold, hbw, k1]
    rfl
  refine ⟨g1, _, s1.lse, h1, hgather, heq, by rw [heq, hr], ?_, ?_⟩
  · intro i _
    rw [heq]
  · simp only [dmrs_pbch_extract_lse, hgather, Option.some_bind]
    rfl

/-- Witness of C26 on the example grid of 960 zeros for cell 123. -/
theorem put_extract_same_elements_witness :
    ex_srsran_h.sizes_ok ∧ ex_ssb_grid.length = ex_srsran_h.SRSRAN_SSB_NOF_RE ∧
    ex_lse.length = DMRS_PBCH_NOF_RE ∧
    ∃ g1 w gathered,
      srsran_dmrs_pbch_put ex_srsran_h (some ex_dmrs_cfg) (some ex_ssb_grid) =
        some (ex_srsran_h.SRSRAN_SUCCESS, some g1, w) ∧
      dmrs_pbch_extract_lse_gather ex_srsran_h ex_dmrs_cfg g1 ex_lse = some gathered ∧
      gathered = dmrs_sequence ex_srsran_h ex_dmrs_cfg :=
  ⟨ex_sizes_ok, List.length_replicate 960 (0 : Int), List.length_replicate 144 (-1 : Int),
   (put_extract_same_elements ex_srsran_h ex_dmrs_cfg ex_ssb_grid ex_lse ex_sizes_ok
     (List.length_replicate 960 (0 : Int)) (List.length_replicate 144 (-1 : Int))).imp
     (fun _ h => h.imp (fun _ h1 => h1.imp (fun _ h2 => ⟨h2.1, h2.2.1, h2.2.2.1⟩)))⟩

end dmrs_pbch

/-! ## The bookkeeping of the pool of stacks -/

namespace srsran

namespace circular_stack_pool

theorem nof_allocations_le (N idx : Nat) (out : List (Nat × Nat)) :
    nof_allocations N idx out ≤ out.length :=
  List.countP_le_length _

theorem nof_allocations_cons (N idx : Nat) (a : Nat × Nat) (out : List (Nat × Nat)) :
    nof_allocations N idx (a :: out) =
      nof_allocations N idx out + (if a.1 % N = idx then 1 else 0) := by
  simp [nof_allocations, List.countP_cons]

theorem nof_allocations_erase (N idx : Nat) (a : Nat × Nat) (out : List (Nat × Nat))
    (h : a ∈ out) :
    nof_allocations N idx out =
      nof_allocations N idx (out.erase a) + (if a.1 % N = idx then 1 else 0) := by
  induction out with
  | nil => cases h
  | cons x xs ih =>
    by_cases hx : x = a
    · subst hx
      rw [List.erase_cons_head, nof_allocations_cons]
    · have hne : (x == a) = false := by simpa using hx
      have hm : a ∈ xs := by
        rcases List.mem_cons.mp h with h1 | h1
        · exact absurd h1.symm hx
        · exact h1
      rw [List.erase_cons, hne]
      simp only [Bool.false_eq_true, if_false]
      rw [nof_allocations_cons, nof_allocations_cons, ih hm]
      omega

/-- The bookkeeping of an element only depends on the size of a block, and it
survives further calls on the central cache and on the logger. -/
theorem elem_inv_mono (N idx : Nat) (p p1 : circular_stack_pool) (out out1 : List (Nat × Nat))
    (elem : mem_block_elem_t) (hn : p1.node_max_size = p.node_max_size)
    (hc : ∀ c ∈ p.central_cache, c ∈ p1.central_cache) (hl : ∀ w ∈ p.logger, w ∈ p1.logger)
    (ho : nof_allocations N idx out1 = nof_allocations N idx out)
    (h : elem_inv N idx p out elem) : elem_inv N idx p1 out1 elem := by
  obtain ⟨h1, h2, h3, h4⟩ := h
  refine ⟨by rw [ho]; exact h1, h2, ?_, ?_⟩
  · intro b hb
    rw [hn]
    exact hc _ (h3 b hb)
  · intro hi h0
    obtain ⟨key, hk, hk1⟩ := h4 hi h0
    exact ⟨key, hl _ hk, hk1⟩

/-- The end of `allocate` keeps the bookkeeping: the element of index `idx`
holds a block of the central cache and has the count of its allocations. -/
theorem allocate_from_block_inv (N : Nat) (p : circular_stack_pool) (out : List (Nat × Nat))
    (idx key : Nat) (elem : mem_block_elem_t) (ptr : Option Nat)
    (hlen : p.pools.length = N) (hidx : idx < N) (hkey : key % N = idx)
    (hother : ∀ j e, j ≠ idx → p.pools[j]? = some e → elem_inv N j p out e)
    (hcount : elem.count = nof_allocations N idx out)
    (hinit : elem.alloc.is_init = true)
    (hblock : ∀ b, elem.alloc.memblock = some b →
      cache_call.allocate_node p.node_max_size (some b) ∈ p.central_cache)
    (hout : out.length + 1 < 2 ^ 64) :
    inv N (allocate_from_block p idx elem key ptr).1
      (match (allocate_from_block p idx elem key ptr).2 with
       | some q => (key, q) :: out
       | Option.none => out) ∧
    (allocate_from_block p idx elem key ptr).1.node_max_size = p.node_max_size := by
  have hi : idx < p.pools.length := by omega
  cases ptr with
  | none =>
    refine ⟨⟨by simp [allocate_from_block, hlen], ?_⟩, rfl⟩
    intro j e hj
    simp only [allocate_from_block] at hj ⊢
    by_cases hji : j = idx
    · subst hji
      rw [List.getElem?_set_self hi] at hj
      injection hj with hj
      subst hj
      exact ⟨hcount, fun _ => hinit, hblock,
        fun _ _ => ⟨key, by simp, hkey⟩⟩
    · rw [List.getElem?_set_ne (Ne.symm hji)] at hj
      exact elem_inv_mono N j p _ out out e rfl (fun _ h => h)
        (fun w hw => List.mem_append_left _ hw) rfl (hother j e hji hj)
  | some q =>
    refine ⟨⟨by simp [allocate_from_block, hlen], ?_⟩, rfl⟩
    intro j e hj
    simp only [allocate_from_block] at hj ⊢
    have hc := nof_allocations_le N idx out
    by_cases hji : j = idx
    · subst hji
      rw [List.getElem?_set_self hi] at hj
      injection hj with hj
      subst hj
      have hm : (elem.count + 1) % 2 ^ 64 = elem.count + 1 := Nat.mod_eq_of_lt (by omega)
      refine ⟨?_, fun _ => hinit, hblock, ?_⟩
      · simp only [hm, nof_allocations_cons, hkey, if_true]
        omega
      · intro _ h0
        simp only [hm] at h0
        omega
    · rw [List.getElem?_set_ne (Ne.symm hji)] at hj
      refine elem_inv_mono N j p _ out _ e rfl (fun _ h => h) (fun _ h => h) ?_
        (hother j e hji hj)
      rw [nof_allocations_cons]
      have : ¬ (key % N = j) := fun e => hji (by omega)
      simp [this]

end circular_stack_pool

end srsran

namespace srsran

namespace circular_stack_pool

/-- The call `allocate` keeps the bookkeeping, whatever the central cache and
the linear allocator answer. -/
theorem allocate_inv (N : Nat) (p : circular_stack_pool) (out : List (Nat × Nat))
    (key size alignment : Nat) (block ptr : Option Nat) (h : inv N p out) (hN : 0 < N)
    (hout : out.length + 1 < 2 ^ 64) :
    inv N (p.allocate key size alignment block ptr).1
      (match (p.allocate key size alignment block ptr).2 with
       | some q => (key, q) :: out
       | Option.none => out) ∧
    (p.allocate key size alignment block ptr).1.node_max_size = p.node_max_size := by
  obtain ⟨hlen, hel⟩ := h
  have hidx : key % p.pools.length < p.pools.length := Nat.mod_lt _ (by omega)
  have helem : p.pools[key % p.pools.length]? = some p.pools[key % p.pools.length] :=
    List.getElem?_eq_getElem hidx
  have hinv := hel _ _ helem
  unfold allocate
  simp only [helem]
  by_cases hinit : p.pools[key % p.pools.length].alloc.is_init = true
  · simp only [hinit, Bool.not_true, Bool.false_eq_true, if_false]
    exact allocate_from_block_inv N p out _ key _ ptr hlen (by omega) (by rw [hlen])
      (fun j e _ hj => hel j e hj) hinv.1 hinit hinv.2.2.1 hout
  · have hinit1 : p.pools[key % p.pools.length].alloc.is_init = false := by
      simpa using hinit
    simp only [hinit1, Bool.not_false, if_true]
    cases block with
    | none =>
      refine ⟨⟨hlen, ?_⟩, rfl⟩
      intro j e hj
      exact elem_inv_mono N j p _ out out e rfl (fun c hc => List.mem_append_left _ hc)
        (fun w hw => List.mem_append_left _ hw) rfl (hel j e hj)
    | some b =>
      exact allocate_from_block_inv N
        { p with central_cache :=
            p.central_cache ++ [cache_call.allocate_node p.node_max_size (some b)] }
        out _ key _ ptr hlen (by omega) (by rw [hlen])
        (fun j e _ hj => elem_inv_mono N j p _ out out e rfl
          (fun c hc => List.mem_append_left _ hc) (fun _ hw => hw) rfl (hel j e hj))
        hinv.1 rfl
        (by
          intro b1 hb1
          simp only [Option.some.injEq] at hb1
          subst hb1
          simp)
        hout

/-- The call `deallocate` for an allocation not yet released keeps the
bookkeeping. -/
theorem deallocate_inv (N : Nat) (p : circular_stack_pool) (out : List (Nat × Nat))
    (key ptr : Nat) (h : inv N p out) (hN : 0 < N) (hmem : (key, ptr) ∈ out)
    (hout : out.length < 2 ^ 64) :
    inv N (p.deallocate key ptr) (out.erase (key, ptr)) ∧
    (p.deallocate key ptr).node_max_size = p.node_max_size := by
  obtain ⟨hlen, hel⟩ := h
  subst hlen
  have hidx : key % p.pools.length < p.pools.length := Nat.mod_lt _ (by omega)
  have helem : p.pools[key % p.pools.length]? = some p.pools[key % p.pools.length] :=
    List.getElem?_eq_getElem hidx
  obtain ⟨h1, h2, h3, _⟩ := hel _ _ helem
  have he := nof_allocations_erase p.pools.length (key % p.pools.length) (key, ptr) out hmem
  simp only [if_true] at he
  have hle := nof_allocations_le p.pools.length (key % p.pools.length) out
  have hm : (p.pools[key % p.pools.length].count + size_t_max) % 2 ^ 64 =
      nof_allocations p.pools.length (key % p.pools.length) (out.erase (key, ptr)) := by
    rw [h1, he]
    simp only [size_t_max]
    omega
  have hother : ∀ j e, j ≠ key % p.pools.length → p.pools[j]? = some e →
      ∀ p1 : circular_stack_pool, p1.node_max_size = p.node_max_size →
        (∀ c ∈ p.central_cache, c ∈ p1.central_cache) → p1.logger = p.logger →
        elem_inv p.pools.length j p1 (out.erase (key, ptr)) e := by
    intro j e hj hje p1 hn hc hl
    refine elem_inv_mono p.pools.length j p p1 out _ e hn hc (by rw [hl]; exact fun _ hw => hw) ?_
      (hel j e hje)
    have := nof_allocations_erase p.pools.length j (key, ptr) out hmem
    have hne : ¬ (key % p.pools.length = j) := fun e => hj e.symm
    simp only [hne, if_false] at this
    omega
  unfold deallocate
  simp only [helem]
  split
  · rename_i h0
    simp only [beq_iff_eq] at h0
    refine ⟨⟨by simp, ?_⟩, rfl⟩
    intro j e hj
    simp only at hj
    by_cases hji : j = key % p.pools.length
    · subst hji
      rw [List.getElem?_set_self hidx] at hj
      injection hj with hj
      subst hj
      refine ⟨?_, ?_, ?_, ?_⟩
      · simp only [mem_block_elem_t.clear]
        rw [← hm]
        exact h0.symm
      · intro hpos
        simp [mem_block_elem_t.clear] at hpos
      · intro b hb
        simp [mem_block_elem_t.clear, linear_allocator.clear] at hb
      · intro hi
        simp [mem_block_elem_t.clear, linear_allocator.clear, linear_allocator.is_init] at hi
    · rw [List.getElem?_set_ne (Ne.symm hji)] at hj
      exact hother j e hji hj _ rfl (fun c hc => List.mem_append_left _ hc) rfl
  · rename_i h0
    simp only [beq_iff_eq] at h0
    refine ⟨⟨by simp, ?_⟩, rfl⟩
    intro j e hj
    simp only at hj
    by_cases hji : j = key % p.pools.length
    · subst hji
      rw [List.getElem?_set_self hidx] at hj
      injection hj with hj
      subst hj
      refine ⟨?_, ?_, ?_, ?_⟩
      · simp only
        rw [hm]
      · intro _
        apply h2
        rw [h1, he]
        omega
      · exact h3
      · intro _ hc
        simp only at hc
        exact absurd hc h0
    · rw [List.getElem?_set_ne (Ne.symm hji)] at hj
      exact hother j e hji hj _ rfl (fun c hc => hc) rfl

/-- The pool after its constructor has its bookkeeping in order. -/
theorem init_inv (N node_max_size : Nat) : inv N (init N node_max_size) [] := by
  refine ⟨by simp [init], ?_⟩
  intro idx elem h
  have hmem := List.getElem?_mem h
  simp only [init, List.mem_replicate] at hmem
  obtain ⟨_, rfl⟩ := hmem
  exact ⟨rfl, fun hpos => by simp at hpos, fun b hb => by simp at hb,
    fun hi => by simp [linear_allocator.is_init] at hi⟩

/-- Every sequence of calls in which each `deallocate` releases an allocation
not yet released keeps the bookkeeping. -/
theorem run_inv (N : Nat) (hN : 0 < N) :
    ∀ (calls : List pool_call) (p : circular_stack_pool) (out : List (Nat × Nat))
      (p1 : circular_stack_pool) (out1 : List (Nat × Nat)),
      inv N p out → out.length + calls.length < 2 ^ 64 → run calls (p, out) = some (p1, out1) →
      inv N p1 out1 ∧ p1.node_max_size = p.node_max_size := by
  intro calls
  induction calls with
  | nil =>
    intro p out p1 out1 h _ hr
    simp only [run, Option.some.injEq, Prod.mk.injEq] at hr
    obtain ⟨rfl, rfl⟩ := hr
    exact ⟨h, rfl⟩
  | cons c cs ih =>
    intro p out p1 out1 h hl hr
    simp only [List.length_cons] at hl
    cases c with
    | allocate key size alignment block ptr =>
      simp only [run] at hr
      obtain ⟨h1, h2⟩ := allocate_inv N p out key size alignment block ptr h hN (by omega)
      have hlen : (match (p.allocate key size alignment block ptr).2 with
          | some q => (key, q) :: out
          | Option.none => out).length ≤ out.length + 1 := by
        split <;> simp
      obtain ⟨h3, h4⟩ := ih _ _ p1 out1 h1 (by omega) hr
      exact ⟨h3, h4.trans h2⟩
    | deallocate key ptr =>
      simp only [run] at hr
      split at hr
      · rename_i hmem
        obtain ⟨h1, h2⟩ := deallocate_inv N p out key ptr h hN hmem (by omega)
        have hlen : (out.erase (key, ptr)).length ≤ out.length := List.length_erase_le _ _
        obtain ⟨h3, h4⟩ := ih _ _ p1 out1 h1 (by omega) hr
        exact ⟨h3, h4.trans h2⟩
      · cases hr

end circular_stack_pool

end srsran

namespace srsran

namespace circular_stack_pool

/-- The release of the last allocation of a stack gives its block back to the
central cache and leaves the element without a block. -/
theorem deallocate_last (p : circular_stack_pool) (key ptr : Nat) (elem : mem_block_elem_t)
    (h : p.pools[key % p.pools.length]? = some elem) (hc : elem.count = 1) :
    ∃ e1, (p.deallocate key ptr).pools[key % p.pools.length]? = some e1 ∧ e1.count = 0 ∧
      e1.alloc.is_init = false ∧
      (p.deallocate key ptr).central_cache =
        p.central_cache ++ [cache_call.deallocate_node elem.alloc.memblock] := by
  have hi : key % p.pools.length < p.pools.length :=
    (List.getElem?_eq_some.mp h).1
  have h0 : (elem.count + size_t_max) % 2 ^ 64 = 0 := by
    rw [hc]
    rfl
  refine ⟨elem.clear, ?_, rfl, rfl, ?_⟩
  · simp only [deallocate, h, h0, beq_self_eq_true, if_true, mem_block_elem_t.clear]
    rw [List.getElem?_set_self hi]
  · simp only [deallocate, h, h0, beq_self_eq_true, if_true, linear_allocator.memblock_ptr]

end circular_stack_pool

/-- Counterexample to C28 as stated: on a fresh pool of two stacks, an
`allocate` with key 0 takes a block from the central cache, finds no space in
it and returns `nullptr`; afterwards no allocation is outstanding and the
count of stack 0 is zero, but the element holds the block. -/
theorem pool_holds_block_with_zero_count :
    circular_stack_pool.run ex_pool_calls_no_space (ex_pool, []) =
      some ((ex_pool.allocate 0 1000 8 (some 100) Option.none).1, []) ∧
    (ex_pool.allocate 0 1000 8 (some 100) Option.none).2 = Option.none ∧
    (ex_pool.allocate 0 1000 8 (some 100) Option.none).1.pools[0]? =
      some { key := 0, count := 0, alloc := { memblock := some 100 } } ∧
    ¬ ((({ key := 0, count := 0, alloc := { memblock := some 100 } } :
          mem_block_elem_t).alloc.is_init = true) ↔
        0 < ({ key := 0, count := 0, alloc := { memblock := some 100 } } :
          mem_block_elem_t).count) := by
  decide

/-- C28 (amended): the bookkeeping of the pool. After every sequence of fewer
than `2^64` calls on a fresh pool of `NofStacks >= 1` stacks, made of
`allocate` calls with any answers of the central cache and of the linear
allocator and of `deallocate` calls that each release an allocation not yet
released with its key: every element's count is the number of its allocations
not yet released; an element with a positive count holds a block; a block it
holds was taken from the central cache; an element holds a block with a count
of zero only if an `allocate` on it found no space in its block; and the
release of the last allocation of an element gives its block back to the
central cache and leaves the element without a block. -/
theorem pool_bookkeeping (NofStacks node_max_size : Nat) (calls : List pool_call)
    (p : circular_stack_pool) (out : List (Nat × Nat)) (hN : 0 < NofStacks)
    (hlen : calls.length < 2 ^ 64)
    (hr : circular_stack_pool.run calls (circular_stack_pool.init NofStacks node_max_size, []) =
      some (p, out)) :
    p.pools.length = NofStacks ∧
    ∀ idx, idx < NofStacks → ∃ elem, p.pools[idx]? = some elem ∧
      elem.count = circular_stack_pool.nof_allocations NofStacks idx out ∧
      (0 < elem.count → elem.alloc.is_init = true) ∧
      (∀ b, elem.alloc.memblock = some b →
        cache_call.allocate_node node_max_size (some b) ∈ p.central_cache) ∧
      (elem.alloc.is_init = true → elem.count = 0 →
        ∃ key, pool_warning.no_space key ∈ p.logger ∧ key % NofStacks = idx) ∧
      (∀ key ptr, (key, ptr) ∈ out → key % NofStacks = idx → elem.count = 1 →
        ∃ b e1, elem.alloc.memblock = some b ∧
          (p.deallocate key ptr).pools[idx]? = some e1 ∧ e1.count = 0 ∧
          e1.alloc.is_init = false ∧
          (p.deallocate key ptr).central_cache =
            p.central_cache ++ [cache_call.deallocate_node (some b)]) := by
  obtain ⟨⟨h1, h2⟩, h3⟩ := circular_stack_pool.run_inv NofStacks hN calls _ [] p out
    (circular_stack_pool.init_inv NofStacks node_max_size) (by simpa using hlen) hr
  refine ⟨h1, ?_⟩
  intro idx hidx
  have hi : idx < p.pools.length := by omega
  have he : p.pools[idx]? = some p.pools[idx] := List.getElem?_eq_getElem hi
  obtain ⟨k1, k2, k3, k4⟩ := h2 idx _ he
  have hn : p.node_max_size = node_max_size := h3
  refine ⟨_, he, k1, k2, ?_, k4, ?_⟩
  · intro b hb
    rw [← hn]
    exact k3 b hb
  · intro key ptr _ hk hc
    have hinit := k2 (by omega)
    simp only [linear_allocator.is_init, Option.isSome_iff_exists] at hinit
    obtain ⟨b, hb⟩ := hinit
    have hk1 : key % p.pools.length = idx := by rw [h1]; exact hk
    have he1 : p.pools[key % p.pools.length]? = some p.pools[idx] := by rw [hk1]; exact he
    obtain ⟨e1, m1, m2, m3, m4⟩ := circular_stack_pool.deallocate_last p key ptr _ he1 hc
    rw [hk1] at m1
    rw [hb] at m4
    exact ⟨b, e1, hb, m1, m2, m3, m4⟩

/-- Witness of C28 (amended) on the example pool of two stacks: after two
allocations on stack 0 and the release of the first, the count of stack 0 is
1 and it holds a block; stack 1 has no allocation and no block. -/
theorem pool_bookkeeping_witness :
    ex_pool_calls.length < 2 ^ 64 ∧
    circular_stack_pool.run ex_pool_calls (circular_stack_pool.init 2 256, []) =
      some ((circular_stack_pool.run ex_pool_calls (ex_pool, [])).getD (ex_pool, [])) ∧
    ((circular_stack_pool.run ex_pool_calls (ex_pool, [])).getD (ex_pool, [])).2 = [(2, 1016)] ∧
    ((circular_stack_pool.run ex_pool_calls (ex_pool, [])).getD (ex_pool, [])).1.pools =
      [{ key := 0, count := 1, alloc := { memblock := some 100 } }, {}] ∧
    ((circular_stack_pool.run ex_pool_calls (ex_pool, [])).getD (ex_pool, [])).1.pools.length =
      2 :=
  ⟨by decide, by decide, by decide, by decide,
   (pool_bookkeeping 2 256 ex_pool_calls
     ((circular_stack_pool.run ex_pool_calls (ex_pool, [])).getD (ex_pool, [])).1
     ((circular_stack_pool.run ex_pool_calls (ex_pool, [])).getD (ex_pool, [])).2
     (by decide) (by decide) (by decide)).1⟩

end srsran
